import Mathlib

/-!
# MaidSafe-Private: vault manager transport and client registry

A shallow embedding of

* `src/maidsafe/vault_manager/tcp_connection.cc` (length-prefixed framing over a loopback
  TCP socket, single-threaded reactor),
* `src/maidsafe/vault_manager/client_connections.cc` (registry of client connections moving
  from *unvalidated* to *validated*),
* `src/maidsafe/private/process_management/client_controller.cc` (the client's side of the
  control plane), and
* the chunk stores, which are present through their tests only
  (`src/maidsafe/private/chunk_store/tests`),

followed by theorems about the framing round trip, the size limits, the registry state
machine, the send queue, the port scan, the update interval, join confirmations and the
chunk stores.

Conventions of the embedding:

* a member function that mutates its object takes the object and returns the new object;
* a function that can throw returns an `Outcome` next to the object as it is when the
  function is left (C++ scope-exit actions have run by then);
* `assert(...)` is an outcome of its own (`assertFailed`): the process is aborted;
* machine integers are `Nat`/`Int` with the wrap-around written out.
-/

namespace maidsafe

namespace vault_manager

/-- The error codes the two translation units throw (`CommonErrors`, `VaultManagerErrors`,
`AsymmErrors`). -/
inductive Error
  | invalid_parameter
  | uninitialised
  | already_initialised
  | invalid_string_size
  | connection_not_found
  | unvalidated_client
  | invalid_signature
  deriving DecidableEq, Repr

/-- How a call is left: by `return`, by `BOOST_THROW_EXCEPTION`, or by a failed `assert`. -/
inductive Outcome (α : Type)
  | returned (a : α)
  | threw (e : Error)
  | assertFailed
  deriving DecidableEq, Repr

/-! ## tcp_connection.cc -/

/-- What `tcp_connection.cc` takes from its header and from the compiler, neither of which
is among the sources: the value returned by `MaxMessageSize()` and whether plain `char`
is a signed type. -/
structure Platform where
  MaxMessageSize : Nat
  char_is_signed : Bool
  deriving DecidableEq, Repr

/-- The conversion `static_cast<char>(x)` of a `size_t`: the low eight bits, read as a
two's complement number when plain `char` is signed. -/
def static_cast_char (P : Platform) (x : Nat) : Int :=
  if P.char_is_signed && decide (128 ≤ x % 256) then ((x % 256 : Nat) : Int) - 256
  else ((x % 256 : Nat) : Int)

/-- Modelled from the spec: the element type of `size_buffer`, declared in the header
`tcp_connection.h`, which is not among the sources. The spec's wire message starts with
four bytes holding a big-endian length, so an element is kept as the octet that travels
on the socket, a number below 256; storing a `char` into it reduces it modulo 256. -/
def to_size_buffer_element (v : Int) : Nat :=
  (v % 256).toNat

/-- `TcpConnection::SendingMessage`: the four header bytes and the payload. -/
structure SendingMessage where
  size_buffer : List Nat
  data : List Nat
  deriving DecidableEq, Repr

/-- `TcpConnection::ReceivingMessage`: the four header bytes and the body buffer. -/
structure ReceivingMessage where
  size_buffer : List Nat
  data_buffer : List Nat
  deriving DecidableEq, Repr

/-- `TcpConnection::EncodeData`: throws on an oversize payload, otherwise fills the four
header bytes in the loop `for (int i = 0; i != 4; ++i)` and moves the payload in. -/
def EncodeData (P : Platform) (data : List Nat) : Outcome SendingMessage :=
  if data.length > P.MaxMessageSize then
    Outcome.threw Error.invalid_string_size
  else
    let size_buffer :=
      (List.range 4).foldl
        (fun buf i =>
          buf.set i (to_size_buffer_element (static_cast_char P (data.length >>> (8 * (3 - i))))))
        (List.replicate 4 0)
    Outcome.returned { size_buffer := size_buffer, data := data }

/-- The expression by which the completion handler of `TcpConnection::ReadSize` computes
`data_size` from the four header bytes. The bytes are promoted to `int`, shifted and
or-ed, and the result is converted to the four-byte unsigned `DataSize`, which keeps the
low 32 bits. -/
def decode_data_size (size_buffer : List Nat) : Nat :=
  ((((((size_buffer.getD 0 0 <<< 8) ||| size_buffer.getD 1 0) <<< 8) |||
      size_buffer.getD 2 0) <<< 8) ||| size_buffer.getD 3 0) % 2 ^ 32

/-- The two buffers `TcpConnection::DoSend` hands to `async_write`, in order: the bytes that
go onto the socket for one message. -/
def frame (message : SendingMessage) : List Nat :=
  message.size_buffer ++ message.data

/-- A `boost::system::error_code` as the completion handlers look at it. -/
inductive ErrorCode
  | success
  | operation_aborted
  | other (value : Nat)
  deriving DecidableEq, Repr

/-- The buffer an outstanding `asio::async_read` fills. -/
inductive ReadTarget
  | size_buffer
  | data_buffer
  deriving DecidableEq, Repr

/-- The members of `TcpConnection` (a functor is `none` when empty), followed by the part of
the reactor that belongs to this connection: the outstanding asynchronous operations and
the handlers posted to `io_service_`. -/
structure TcpConnection where
  socket_close_flag_ : Bool
  is_open_ : Bool
  socket_ : Bool
  on_message_received_ : Option Nat
  on_connection_closed_ : Option Nat
  receiving_message_ : ReceivingMessage
  send_queue_ : List SendingMessage
  async_read : Option ReadTarget
  async_write : Option (List Nat)
  posted_sends : List SendingMessage
  posted_messages : List (List Nat)
  deriving DecidableEq, Repr

namespace TcpConnection

/-- The first constructor, given `asio_service.ThreadCount()`: it throws unless the service
has a single thread and otherwise leaves everything closed and empty (the header bytes,
not yet written, are taken as zero). -/
def construct (thread_count : Nat) : Outcome TcpConnection :=
  if thread_count ≠ 1 then Outcome.threw Error.invalid_parameter
  else Outcome.returned
    { socket_close_flag_ := false, is_open_ := false, socket_ := false,
      on_message_received_ := none, on_connection_closed_ := none,
      receiving_message_ := { size_buffer := [0, 0, 0, 0], data_buffer := [] },
      send_queue_ := [], async_read := none, async_write := none,
      posted_sends := [], posted_messages := [] }

/-- An example state for evaluating the handlers: a connection that has been accepted and
started, with the socket open, the header read outstanding, and the given bytes in the
two receive buffers. -/
def started (size_buffer data_buffer : List Nat) : TcpConnection :=
  { socket_close_flag_ := false, is_open_ := true, socket_ := true,
    on_message_received_ := some 1, on_connection_closed_ := some 2,
    receiving_message_ := { size_buffer := size_buffer, data_buffer := data_buffer },
    send_queue_ := [], async_read := some ReadTarget.size_buffer, async_write := none,
    posted_sends := [], posted_messages := [] }

/-- `TcpConnection::Close`: the callable runs under `std::call_once`, so only while the flag
is unset; it closes the socket and clears `is_open_`. -/
def Close (c : TcpConnection) : TcpConnection :=
  if c.socket_close_flag_ then c
  else { c with socket_close_flag_ := true, socket_ := false, is_open_ := false }

/-- `TcpConnection::ReadData`: starts the read of the body into `data_buffer`. -/
def ReadData (c : TcpConnection) : TcpConnection :=
  { c with async_read := some ReadTarget.data_buffer }

/-- `TcpConnection::ReadSize`: starts the read of the four header bytes. -/
def ReadSize (c : TcpConnection) : TcpConnection :=
  { c with async_read := some ReadTarget.size_buffer }

/-- `std::vector::resize`: keeps the leading elements and pads with zero bytes. -/
def resize (buffer : List Nat) (n : Nat) : List Nat :=
  buffer.take n ++ List.replicate (n - buffer.length) 0

/-- The completion handler of the read started by `ReadSize`. It runs once the read has
completed, with the header bytes already in `receiving_message_.size_buffer`. -/
def ReadSizeHandler (P : Platform) (c : TcpConnection) (ec : ErrorCode)
    (bytes_transferred : Nat) : Outcome Unit × TcpConnection :=
  let c := { c with async_read := none }
  if ec ≠ ErrorCode.success then
    (Outcome.returned (), Close c)
  else if bytes_transferred ≠ 4 then
    (Outcome.assertFailed, c)
  else
    let data_size := decode_data_size c.receiving_message_.size_buffer
    if data_size > P.MaxMessageSize then
      let c := { c with receiving_message_ := { c.receiving_message_ with data_buffer := [] } }
      (Outcome.returned (), Close c)
    else
      let c := { c with receiving_message_ :=
        { c.receiving_message_ with
          data_buffer := resize c.receiving_message_.data_buffer data_size } }
      (Outcome.returned (), ReadData c)

/-- The completion handler of the read started by `ReadData`: posts the call of
`on_message_received_` with a copy of the body and starts the next header read. -/
def ReadDataHandler (c : TcpConnection) (ec : ErrorCode)
    (bytes_transferred : Nat) : Outcome Unit × TcpConnection :=
  let c := { c with async_read := none }
  if ec ≠ ErrorCode.success then
    (Outcome.returned (), Close c)
  else if bytes_transferred ≠ c.receiving_message_.data_buffer.length then
    (Outcome.assertFailed, c)
  else
    let data := c.receiving_message_.data_buffer
    let c := { c with posted_messages := c.posted_messages ++ [data] }
    (Outcome.returned (), ReadSize c)

/-- `TcpConnection::DoSend`: starts the write of the message at the front of the queue. The
source calls it only with a non-empty queue. -/
def DoSend (c : TcpConnection) : TcpConnection :=
  match c.send_queue_ with
  | [] => c
  | message :: _ => { c with async_write := some (frame message) }

/-- `TcpConnection::Send`: encodes, then posts the handler that will enqueue the message. -/
def Send (P : Platform) (c : TcpConnection) (data : List Nat) : Outcome Unit × TcpConnection :=
  match EncodeData P data with
  | Outcome.returned message =>
    (Outcome.returned (), { c with posted_sends := c.posted_sends ++ [message] })
  | Outcome.threw e => (Outcome.threw e, c)
  | Outcome.assertFailed => (Outcome.assertFailed, c)

/-- The handler posted by `Send`, run by the reactor: appends to `send_queue_` and starts
the write unless one is under way. Runs the oldest posted handler. -/
def SendHandler (c : TcpConnection) : TcpConnection :=
  match c.posted_sends with
  | [] => c
  | message :: rest =>
    let currently_sending := !c.send_queue_.isEmpty
    let c := { c with posted_sends := rest, send_queue_ := c.send_queue_ ++ [message] }
    if !currently_sending then DoSend c else c

/-- The completion handler of the write started by `DoSend`. -/
def DoSendHandler (c : TcpConnection) (ec : ErrorCode)
    (bytes_transferred : Nat) : Outcome Unit × TcpConnection :=
  let c := { c with async_write := none }
  if ec ≠ ErrorCode.success then
    (Outcome.returned (), Close c)
  else
    match c.send_queue_ with
    | [] => (Outcome.returned (), c)
    | message :: rest =>
      if bytes_transferred ≠ message.size_buffer.length + message.data.length then
        (Outcome.assertFailed, c)
      else
        let c := { c with send_queue_ := rest }
        (Outcome.returned (), if !c.send_queue_.isEmpty then DoSend c else c)

/-- `TcpConnection::Start`. -/
def Start (c : TcpConnection) (on_message_received on_connection_closed : Option Nat) :
    Outcome Unit × TcpConnection :=
  let c := { c with is_open_ := true }
  if c.on_message_received_.isSome then
    (Outcome.threw Error.already_initialised, c)
  else
    let c := { c with on_message_received_ := on_message_received,
                      on_connection_closed_ := on_connection_closed }
    (Outcome.returned (), ReadSize c)

end TcpConnection

/-! ## client_connections.cc -/

/-- The operations of `std::map` that the registry uses, over a list of key/value pairs. -/
def map_find {V : Type} (m : List (Nat × V)) (key : Nat) : Option V :=
  match m with
  | [] => none
  | (k, v) :: rest => if k = key then some v else map_find rest key

/-- `std::map::erase(key)`: the map without the key, and the number of elements removed. -/
def map_erase {V : Type} (m : List (Nat × V)) (key : Nat) : List (Nat × V) × Nat :=
  (m.filter (fun e => decide (e.1 ≠ key)), if (map_find m key).isSome then 1 else 0)

/-- `std::map::emplace(key, value)`: inserts unless the key is present; the flag tells whether
the insertion took place. -/
def map_emplace {V : Type} (m : List (Nat × V)) (key : Nat) (value : V) :
    List (Nat × V) × Bool :=
  if (map_find m key).isSome then (m, false) else (m ++ [(key, value)], true)

/-- Opaque values of the collaborating libraries, and a connection pointer. -/
abbrev TcpConnectionPtr := Nat
abbrev PlainText := Nat
abbrev Signature := Nat
abbrev PublicKey := Nat
abbrev MaidName := Nat

/-- What the registry reads of a `passport::PublicMaid`. -/
structure PublicMaid where
  name : MaidName
  public_key : PublicKey
  deriving DecidableEq, Repr

/-- The timer `Add` creates: a pending wait whose handler has captured `connection`. -/
structure Timer where
  connection : TcpConnectionPtr
  deriving DecidableEq, Repr

/-- The two maps of `ClientConnections`. -/
structure ClientConnections where
  unvalidated_clients_ : List (TcpConnectionPtr × (PlainText × Timer))
  clients_ : List (TcpConnectionPtr × MaidName)
  deriving DecidableEq, Repr

namespace ClientConnections

/-- The constructor: both maps empty. -/
def empty : ClientConnections :=
  { unvalidated_clients_ := [], clients_ := [] }

/-- `ClientConnections::Add`. -/
def Add (s : ClientConnections) (connection : TcpConnectionPtr) (challenge : PlainText) :
    Outcome Unit × ClientConnections :=
  if (map_find s.clients_ connection).isSome then
    (Outcome.assertFailed, s)
  else
    let timer : Timer := { connection := connection }
    let r := map_emplace s.unvalidated_clients_ connection (challenge, timer)
    let s := { s with unvalidated_clients_ := r.1 }
    if r.2 then (Outcome.returned (), s) else (Outcome.assertFailed, s)

/-- The handler `Add` gives to `timer->async_wait`, for the timer of `connection`. -/
def TimerHandler (s : ClientConnections) (connection : TcpConnectionPtr)
    (error_code : ErrorCode) : ClientConnections :=
  if error_code ≠ ErrorCode.success ∧ error_code = ErrorCode.operation_aborted then s
  else { s with unvalidated_clients_ := (map_erase s.unvalidated_clients_ connection).1 }

/-- `ClientConnections::Validate`, with `asymm::CheckSignature` as a parameter. The
`on_scope_exit` erasure runs on the return and on the throw after it was set up. -/
def Validate (CheckSignature : PlainText → Signature → PublicKey → Bool)
    (s : ClientConnections) (connection : TcpConnectionPtr) (maid : PublicMaid)
    (signature : Signature) : Outcome Unit × ClientConnections :=
  match map_find s.unvalidated_clients_ connection with
  | none => (Outcome.threw Error.connection_not_found, s)
  | some entry =>
    let cleanup := fun (t : ClientConnections) =>
      { t with unvalidated_clients_ := (map_erase t.unvalidated_clients_ connection).1 }
    if !CheckSignature entry.1 signature maid.public_key then
      (Outcome.threw Error.invalid_signature, cleanup s)
    else
      let r := map_emplace s.clients_ connection maid.name
      let s := { s with clients_ := r.1 }
      if r.2 then (Outcome.returned (), cleanup s) else (Outcome.assertFailed, s)

/-- `ClientConnections::Remove`; the second `erase` is skipped when the first removed
an element. -/
def Remove (s : ClientConnections) (connection : TcpConnectionPtr) : Bool × ClientConnections :=
  let r := map_erase s.clients_ connection
  let s := { s with clients_ := r.1 }
  if r.2 = 1 then (true, s)
  else
    let r := map_erase s.unvalidated_clients_ connection
    (decide (r.2 = 1), { s with unvalidated_clients_ := r.1 })

/-- `ClientConnections::FindValidated`, a `const` member. -/
def FindValidated (s : ClientConnections) (connection : TcpConnectionPtr) :
    Outcome MaidName × ClientConnections :=
  match map_find s.clients_ connection with
  | none =>
    match map_find s.unvalidated_clients_ connection with
    | none => (Outcome.threw Error.connection_not_found, s)
    | some _ => (Outcome.threw Error.unvalidated_client, s)
  | some name => (Outcome.returned name, s)

/-- The connection is in the Unvalidated state with stored challenge `challenge`: it has an
entry with that challenge in `unvalidated_clients_` and none in `clients_`. -/
def Unvalidated (s : ClientConnections) (connection : TcpConnectionPtr)
    (challenge : PlainText) : Prop :=
  (map_find s.unvalidated_clients_ connection).map Prod.fst = some challenge ∧
    map_find s.clients_ connection = none

instance (s : ClientConnections) (connection : TcpConnectionPtr) (challenge : PlainText) :
    Decidable (Unvalidated s connection challenge) := by
  unfold Unvalidated
  exact inferInstance

/-- No connection is in both maps. -/
def Disjoint (s : ClientConnections) : Prop :=
  ∀ connection : TcpConnectionPtr,
    map_find s.clients_ connection = none ∨ map_find s.unvalidated_clients_ connection = none

/-- One step of the registry's life: a call of a member function, or the run of a timer's
wait handler. -/
inductive Call
  | Add (connection : TcpConnectionPtr) (challenge : PlainText)
  | Validate (connection : TcpConnectionPtr) (maid : PublicMaid) (signature : Signature)
  | Remove (connection : TcpConnectionPtr)
  | FindValidated (connection : TcpConnectionPtr)
  | TimerHandler (connection : TcpConnectionPtr) (error_code : ErrorCode)
  deriving DecidableEq, Repr

/-- Whether the step is `Add` of the given connection. -/
def Call.adds (connection : TcpConnectionPtr) : Call → Bool
  | Call.Add c _ => decide (c = connection)
  | _ => false

/-- The registry after one step. -/
def step (CheckSignature : PlainText → Signature → PublicKey → Bool) (s : ClientConnections) :
    Call → ClientConnections
  | Call.Add connection challenge => (Add s connection challenge).2
  | Call.Validate connection maid signature =>
    (Validate CheckSignature s connection maid signature).2
  | Call.Remove connection => (Remove s connection).2
  | Call.FindValidated connection => (FindValidated s connection).2
  | Call.TimerHandler connection error_code => TimerHandler s connection error_code

/-- The registry after a sequence of steps, oldest first. -/
def steps (CheckSignature : PlainText → Signature → PublicKey → Bool) (s : ClientConnections)
    (calls : List Call) : ClientConnections :=
  calls.foldl (step CheckSignature) s

end ClientConnections

/-! ## The send path and the life of a connection -/

/-- The send path of a connection, with the outstanding writes kept apart: `send_queue_`,
the frames of the `async_write` operations started by `DoSend` whose completion handler
has not run yet, and the frames of the completed writes, oldest first. -/
structure SendPath where
  send_queue_ : List SendingMessage
  writes_in_flight : List (List Nat)
  written : List (List Nat)
  deriving DecidableEq, Repr

namespace SendPath

/-- A connection on which nothing has been sent. -/
def idle : SendPath :=
  { send_queue_ := [], writes_in_flight := [], written := [] }

/-- `TcpConnection::DoSend`: starts one `async_write` of the message at the front. -/
def DoSend (s : SendPath) : SendPath :=
  match s.send_queue_ with
  | [] => s
  | message :: _ => { s with writes_in_flight := s.writes_in_flight ++ [frame message] }

/-- The handler posted by `TcpConnection::Send` for `message`. -/
def SendHandler (s : SendPath) (message : SendingMessage) : SendPath :=
  let currently_sending := !s.send_queue_.isEmpty
  let s := { s with send_queue_ := s.send_queue_ ++ [message] }
  if !currently_sending then DoSend s else s

/-- The oldest outstanding write completes without error and its completion handler runs:
the frame is on the socket, the front of the queue is popped, and the next write is
started if the queue is not empty. Without an outstanding write nothing happens. -/
def WriteHandler (s : SendPath) : SendPath :=
  match s.writes_in_flight with
  | [] => s
  | written_frame :: rest =>
    let s := { s with writes_in_flight := rest, written := s.written ++ [written_frame] }
    let s := { s with send_queue_ := s.send_queue_.tail }
    if !s.send_queue_.isEmpty then DoSend s else s

/-- The two kinds of step of the send path. -/
inductive Step
  | handler_runs (message : SendingMessage)
  | write_completes
  deriving DecidableEq, Repr

/-- One step. -/
def step (s : SendPath) : Step → SendPath
  | Step.handler_runs message => SendHandler s message
  | Step.write_completes => WriteHandler s

/-- A sequence of steps, oldest first. -/
def run (s : SendPath) (steps : List Step) : SendPath :=
  steps.foldl step s

/-- The messages whose `Send` handlers ran, in the order in which they ran. -/
def enqueued : List Step → List SendingMessage
  | [] => []
  | Step.handler_runs message :: rest => message :: enqueued rest
  | Step.write_completes :: rest => enqueued rest

/-- The outstanding writes are the single write of the front of the queue, or none when the
queue is empty. -/
def Consistent (s : SendPath) : Prop :=
  s.writes_in_flight = (s.send_queue_.head?.map frame).toList

end SendPath

namespace TcpConnection

/-- What can happen to a connection: a call of a public member, or the reactor running one
of the connection's handlers. -/
inductive Event
  | Start (on_message_received on_connection_closed : Option Nat)
  | Send (data : List Nat)
  | Close
  | SendHandler
  | ReadSizeHandler (ec : ErrorCode) (bytes_transferred : Nat)
  | ReadDataHandler (ec : ErrorCode) (bytes_transferred : Nat)
  | DoSendHandler (ec : ErrorCode) (bytes_transferred : Nat)
  deriving DecidableEq, Repr

/-- The connection after one event. -/
def next (P : Platform) (c : TcpConnection) : Event → TcpConnection
  | Event.Start on_message_received on_connection_closed =>
    (Start c on_message_received on_connection_closed).2
  | Event.Send data => (Send P c data).2
  | Event.Close => Close c
  | Event.SendHandler => SendHandler c
  | Event.ReadSizeHandler ec bytes_transferred => (ReadSizeHandler P c ec bytes_transferred).2
  | Event.ReadDataHandler ec bytes_transferred => (ReadDataHandler c ec bytes_transferred).2
  | Event.DoSendHandler ec bytes_transferred => (DoSendHandler c ec bytes_transferred).2

/-- The connection after a sequence of events, oldest first. -/
def after (P : Platform) (c : TcpConnection) (events : List Event) : TcpConnection :=
  events.foldl (next P) c

end TcpConnection

end vault_manager

/-! ## client_controller.cc -/

namespace priv

namespace process_management

/-- `ClientController::State`. -/
inductive State
  | kInitialising
  | kVerified
  | kFailed
  deriving DecidableEq, Repr

/-- The constants of `Invigilator` that `client_controller.cc` reads; `invigilator.h` is not
among the sources, so their values are parameters. Intervals are in seconds. -/
structure Invigilator where
  kMinPort : Nat
  kMaxPort : Nat
  kMinUpdateInterval : Int
  kMaxUpdateInterval : Int
  deriving DecidableEq, Repr

/-- A `Port` is an unsigned 16-bit number (its typedef is in a header that is not among the
sources): this is `++port`. -/
def port_increment (port : Nat) : Nat :=
  (port + 1) % 65536

/-- The conversion of `Invigilator::kMinPort() - 1`, computed in `int`, to `Port`. -/
def port_before (port : Nat) : Nat :=
  (port + 65535) % 65536

/-- A `bptime::time_duration`: a number of seconds or one of the special values the
source uses. -/
inductive time_duration
  | neg_infin
  | seconds (count : Int)
  | pos_infin
  deriving DecidableEq, Repr

/-- The members of `ClientController` that the modelled functions read or write. The
identities that key `joining_vaults_` are numbers here. -/
structure ClientController where
  invigilator_port_ : Nat
  local_port_ : Nat
  state_ : State
  joining_vaults_ : List (Nat × Bool)
  deriving DecidableEq, Repr

namespace ClientController

/-- The loop of `ConnectToInvigilator` from its `while` on: `result` is the result of the
latest `Connect`, `attempts` the ports tried so far. `Connect i port` tells whether the
attempt number `i` (from 0), made on `port`, succeeds. The answer is the result of the last
`Connect`, the port it was made on and all the ports tried; `none` when the fuel runs out
first. -/
def ConnectLoop (Connect : Nat → Nat → Bool) (kMaxPort : Nat) :
    Nat → Nat → List Nat → Bool → Option (Bool × Nat × List Nat)
  | 0, _, _, _ => none
  | fuel + 1, port, attempts, result =>
    if result then some (true, port, attempts)
    else if port = kMaxPort then some (false, port, attempts)
    else
      ConnectLoop Connect kMaxPort fuel (port_increment port)
        (attempts ++ [port_increment port]) (Connect attempts.length (port_increment port))

/-- `ClientController::ConnectToInvigilator`. `registration` is the local `state` when the
wait for the registration response is over (`kFailed` after the time-out). The answer
holds the returned value, the controller and the ports tried in order. -/
def ConnectToInvigilator (I : Invigilator) (c : ClientController) (Connect : Nat → Nat → Bool)
    (registration : State) (fuel : Nat) : Option (Bool × ClientController × List Nat) :=
  let port := port_increment c.invigilator_port_
  match ConnectLoop Connect I.kMaxPort fuel port [port] (Connect 0 port) with
  | none => none
  | some (false, port, attempts) => some (false, { c with invigilator_port_ := port }, attempts)
  | some (true, port, attempts) =>
    some (decide (registration = State.kVerified), { c with invigilator_port_ := port },
      attempts)

/-- The loop `while (result != kSuccess && count++ < 100)` of `StartListeningPort`.
`GetRandomPort i` is the value of the call number `i` (from 0) of `detail::GetRandomPort`
and `StartListening i port` tells whether the attempt number `i`, made on `port`, succeeds.
`count` is the variable `count` and `remaining` is `100 - count`, so `count++ < 100` holds
exactly when `remaining` is not 0; `local_port` and `result` are `local_port_` and the
result of the latest attempt. The answer is the last result and `local_port_`. -/
def StartListeningLoop (GetRandomPort : Nat → Nat) (StartListening : Nat → Nat → Bool) :
    Nat → Nat → Nat → Bool → Bool × Nat
  | 0, _, local_port, result => (result, local_port)
  | remaining + 1, count, local_port, result =>
    if result then (true, local_port)
    else
      StartListeningLoop GetRandomPort StartListening remaining (count + 1)
        (GetRandomPort (count + 1)) (StartListening (count + 1) (GetRandomPort (count + 1)))

/-- `ClientController::StartListeningPort`: `local_port_` is assigned a random port before
each of the up to 101 attempts, so after a failure it is the last port tried. The answer is
the value returned and the controller. -/
def StartListeningPort (c : ClientController) (GetRandomPort : Nat → Nat)
    (StartListening : Nat → Nat → Bool) : Bool × ClientController :=
  let started := StartListeningLoop GetRandomPort StartListening 100 0 (GetRandomPort 0)
    (StartListening 0 (GetRandomPort 0))
  (started.1, { c with local_port_ := started.2 })

/-- The constructor, with `GetRandomPort` and `StartListening` as in `StartListeningLoop`
and `Connect`, `registration` and `fuel` as in `ConnectToInvigilator`. The answer holds the
controller and the ports on which a connection to the manager was tried. -/
def construct (I : Invigilator) (GetRandomPort : Nat → Nat) (StartListening : Nat → Nat → Bool)
    (Connect : Nat → Nat → Bool) (registration : State) (fuel : Nat) :
    Option (ClientController × List Nat) :=
  let c : ClientController :=
    { invigilator_port_ := port_before I.kMinPort, local_port_ := 0,
      state_ := State.kInitialising, joining_vaults_ := [] }
  let started := StartListeningPort c GetRandomPort StartListening
  let c := if !started.1 then { started.2 with state_ := State.kFailed } else started.2
  match ConnectToInvigilator I c Connect registration fuel with
  | none => none
  | some (connected, c, attempts) =>
    let c := if !connected then { c with state_ := State.kFailed } else c
    some ({ c with state_ := State.kVerified }, attempts)

/-- What `detail::UnwrapMessage`, `ParseFromString` and `IsInitialized` make of a message
received in answer to an `UpdateIntervalRequest`. -/
inductive ReceivedMessage
  | unwrap_failed
  | parse_failed
  | UpdateIntervalResponse (update_interval : Nat)
  deriving DecidableEq, Repr

/-- `ClientController::HandleUpdateIntervalResponse`: the value it passes to `callback`. -/
def HandleUpdateIntervalResponse (message : ReceivedMessage) : time_duration :=
  match message with
  | ReceivedMessage.unwrap_failed => time_duration.pos_infin
  | ReceivedMessage.parse_failed => time_duration.pos_infin
  | ReceivedMessage.UpdateIntervalResponse update_interval =>
    if update_interval = 0 then time_duration.pos_infin
    else time_duration.seconds (update_interval : Int)

/-- What happens to one request of `SetOrGetUpdateInterval` once the state check is
passed. -/
inductive Exchange
  | connect_failed
  | transport_error (error : Int)
  | message_received (message : ReceivedMessage)
  | timed_out
  deriving DecidableEq, Repr

/-- A `protobuf::UpdateIntervalRequest`: the optional field `new_update_interval`. -/
structure UpdateIntervalRequest where
  new_update_interval : Option Int
  deriving DecidableEq, Repr

/-- One run of `SetOrGetUpdateInterval`: the value returned, the request it built and the
request it sent, if any. -/
structure UpdateIntervalCall where
  result : time_duration
  built : Option UpdateIntervalRequest
  sent : Option UpdateIntervalRequest
  deriving DecidableEq, Repr

/-- `ClientController::SetOrGetUpdateInterval`. The request carries the seconds of the
duration unless the duration is `pos_infin`; the two call sites pass a number of seconds
or `pos_infin`, and for `neg_infin` the field is given as 0 here. -/
def SetOrGetUpdateInterval (c : ClientController) (update_interval : time_duration)
    (exchange : Exchange) : UpdateIntervalCall :=
  if c.state_ ≠ State.kVerified then
    { result := time_duration.pos_infin, built := none, sent := none }
  else
    let request : UpdateIntervalRequest :=
      match update_interval with
      | time_duration.pos_infin => { new_update_interval := none }
      | time_duration.seconds count => { new_update_interval := some count }
      | time_duration.neg_infin => { new_update_interval := some 0 }
    let answered := fun (returned_result : time_duration) =>
      ({ result := if returned_result = time_duration.neg_infin then time_duration.pos_infin
                   else returned_result,
         built := some request, sent := some request } : UpdateIntervalCall)
    match exchange with
    | Exchange.connect_failed =>
      { result := time_duration.pos_infin, built := some request, sent := none }
    | Exchange.transport_error _ => answered time_duration.pos_infin
    | Exchange.message_received message => answered (HandleUpdateIntervalResponse message)
    | Exchange.timed_out =>
      { result := time_duration.pos_infin, built := some request, sent := some request }

/-- `ClientController::SetUpdateInterval`: the value returned and the run of
`SetOrGetUpdateInterval` it made, if it made one. -/
def SetUpdateInterval (I : Invigilator) (c : ClientController) (update_interval : Int)
    (exchange : Exchange) : Bool × Option UpdateIntervalCall :=
  if update_interval < I.kMinUpdateInterval ∨ update_interval > I.kMaxUpdateInterval then
    (false, none)
  else
    let call := SetOrGetUpdateInterval c (time_duration.seconds update_interval) exchange
    (decide (call.result = time_duration.seconds update_interval), some call)

/-- `ClientController::GetUpdateInterval`. -/
def GetUpdateInterval (c : ClientController) (exchange : Exchange) : UpdateIntervalCall :=
  SetOrGetUpdateInterval c time_duration.pos_infin exchange

/-- The interval the manager reported in this exchange, if the exchange took place and
delivered a well-formed `UpdateIntervalResponse`. -/
def reported_interval (c : ClientController) (exchange : Exchange) : Option Nat :=
  match c.state_, exchange with
  | State.kVerified, Exchange.message_received (ReceivedMessage.UpdateIntervalResponse n) =>
    some n
  | _, _ => none

/-- The assignment `map[key] = value` of `std::map`. -/
def map_assign (m : List (Nat × Bool)) (key : Nat) (value : Bool) : List (Nat × Bool) :=
  match m with
  | [] => [(key, value)]
  | (k, v) :: rest => if k = key then (k, value) :: rest else (k, v) :: map_assign rest key value

/-- What `StartVault` meets before it waits for the join confirmation: whether the keys
serialise, whether `Connect` succeeds, and the result the callback got within ten seconds
(`none` after the time-out). -/
structure StartVaultRequest where
  keys_serialised : Bool
  connected : Bool
  reply : Option Bool
  deriving DecidableEq, Repr

/-- `ClientController::StartVault` up to its wait on `joining_vaults_conditional_`: either it
has returned (`some false`), or it has entered the identity in `joining_vaults_` and
waits (`none`). -/
def StartVault_until_wait (c : ClientController) (identity : Nat) (request : StartVaultRequest) :
    Option Bool × ClientController :=
  if c.state_ ≠ State.kVerified then (some false, c)
  else if !request.keys_serialised then (some false, c)
  else if !request.connected then (some false, c)
  else
    match request.reply with
    | none => (some false, c)
    | some false => (some false, c)
    | some true => (none, { c with joining_vaults_ := map_assign c.joining_vaults_ identity false })

/-- `ClientController::StartVault` from the moment its `wait_for` on
`joining_vaults_conditional_` is over, by notification or by time-out: `wait_for` answers
with the predicate `joining_vaults_[keys.identity]` (which enters a missing identity as
false); if that is false the call returns false, otherwise it erases the identity and
returns true. -/
def StartVault_after_wait (c : ClientController) (identity : Nat) : Bool × ClientController :=
  let confirmed := (vault_manager.map_find c.joining_vaults_ identity).getD false
  let c := if (vault_manager.map_find c.joining_vaults_ identity).isSome then c
    else { c with joining_vaults_ := map_assign c.joining_vaults_ identity false }
  if !confirmed then (false, c)
  else (true, { c with joining_vaults_ := (vault_manager.map_erase c.joining_vaults_ identity).1 })

/-- The answer of `HandleVaultJoinConfirmation`: the `ack` of the
`VaultJoinConfirmationAck` and whether `joining_vaults_conditional_` was notified. -/
structure JoinConfirmationAnswer where
  ack : Bool
  notified : Bool
  deriving DecidableEq, Repr

/-- `ClientController::HandleVaultJoinConfirmation`; `request` is the identity parsed from
the request, `none` if it does not parse. -/
def HandleVaultJoinConfirmation (c : ClientController) (request : Option Nat) :
    JoinConfirmationAnswer × ClientController :=
  match request with
  | none => ({ ack := false, notified := false }, c)
  | some identity =>
    if (vault_manager.map_find c.joining_vaults_ identity).isNone then
      ({ ack := false, notified := false }, c)
    else
      ({ ack := true, notified := true },
        { c with joining_vaults_ := map_assign c.joining_vaults_ identity true })

end ClientController

end process_management

/-! ## The chunk stores

The classes `MemoryChunkStore` and `BufferedChunkStore` are not among the sources; their
tests are (`chunk_store_api_test.h`, `buffered_chunk_store_test.cc`). The stores are
modelled from the specification, and the tests are translated so that the model can be
run against them. -/

namespace chunk_store

open vault_manager (Outcome Error)

/-- A chunk name or a chunk's content: a byte string, empty when uninitialised. -/
abbrev ChunkId := List Nat

/-- Modelled from the spec: the map of a `MemoryChunkStore`, from a chunk name to the
reference count and the bytes of the chunk; this is its lookup. -/
def chunks_find (chunks : List (ChunkId × Nat × List Nat)) (name : ChunkId) :
    Option (Nat × List Nat) :=
  match chunks with
  | [] => none
  | (k, entry) :: rest => if k = name then some entry else chunks_find rest name

/-- Modelled from the spec: removal of a name from the map of a `MemoryChunkStore`. -/
def chunks_erase (chunks : List (ChunkId × Nat × List Nat)) (name : ChunkId) :
    List (ChunkId × Nat × List Nat) :=
  chunks.filter (fun e => decide (e.1 ≠ name))

/-- Modelled from the spec: replacement of the entry of a name in the map of a
`MemoryChunkStore`. -/
def chunks_replace (chunks : List (ChunkId × Nat × List Nat)) (name : ChunkId)
    (entry : Nat × List Nat) : List (ChunkId × Nat × List Nat) :=
  match chunks with
  | [] => []
  | (k, old) :: rest =>
    if k = name then (k, entry) :: rest else (k, old) :: chunks_replace rest name entry

/-- Modelled from the spec: `MemoryChunkStore` (sections 3 and 4.1), a mapping from id to
bytes and reference count R with an optional capacity, 0 meaning unbounded. -/
structure MemoryChunkStore where
  chunks_ : List (ChunkId × Nat × List Nat)
  capacity_ : Nat
  deriving DecidableEq, Repr

namespace MemoryChunkStore

/-- Modelled from the spec: a new store, empty and unbounded. -/
def empty : MemoryChunkStore :=
  { chunks_ := [], capacity_ := 0 }

/-- Modelled from the spec: the reference count R(id), 0 for an id that is not held. -/
def references (s : MemoryChunkStore) (name : ChunkId) : Nat :=
  match chunks_find s.chunks_ name with
  | some entry => entry.1
  | none => 0

/-- Modelled from the spec: size(id), the length of the stored bytes, 0 for an id that is
not held. -/
def size_of (s : MemoryChunkStore) (name : ChunkId) : Nat :=
  match chunks_find s.chunks_ name with
  | some entry => entry.2.length
  | none => 0

/-- Modelled from the spec: `Size()`, the sizes of the chunks summed once per distinct id. -/
def Size (s : MemoryChunkStore) : Nat :=
  (s.chunks_.map (fun e => e.2.2.length)).sum

/-- Modelled from the spec: `Count()`, with the meaning that the tests `BEH_References`,
`BEH_Store` and `BEH_RepeatedStore` give it: the number of distinct ids held. The spec's
own sentence, the sum of the reference counts, is `Count_spec`. -/
def Count (s : MemoryChunkStore) : Nat :=
  s.chunks_.length

/-- Modelled from the spec: `Count()` as section 3 words it, the sum of R(id). -/
def Count_spec (s : MemoryChunkStore) : Nat :=
  (s.chunks_.map (fun e => e.2.1)).sum

/-- Modelled from the spec: `Empty()`. -/
def Empty (s : MemoryChunkStore) : Bool :=
  s.chunks_.isEmpty

/-- Modelled from the spec: `Capacity()`. -/
def Capacity (s : MemoryChunkStore) : Nat :=
  s.capacity_

/-- Modelled from the spec: `Vacant(n)`, whether `n` more bytes fit. -/
def Vacant (s : MemoryChunkStore) (n : Nat) : Bool :=
  decide (s.capacity_ = 0 ∨ Size s + n ≤ s.capacity_)

/-- Modelled from the spec: `Has(id)`; an empty id is an invalid argument. -/
def Has (s : MemoryChunkStore) (name : ChunkId) : Outcome Bool :=
  if name = [] then Outcome.threw Error.invalid_parameter
  else Outcome.returned (chunks_find s.chunks_ name).isSome

/-- Modelled from the spec: `Count(id)`. -/
def Count_name (s : MemoryChunkStore) (name : ChunkId) : Outcome Nat :=
  if name = [] then Outcome.threw Error.invalid_parameter
  else Outcome.returned (references s name)

/-- Modelled from the spec: `Size(id)`. -/
def Size_name (s : MemoryChunkStore) (name : ChunkId) : Outcome Nat :=
  if name = [] then Outcome.threw Error.invalid_parameter
  else Outcome.returned (size_of s name)

/-- Modelled from the spec: `Get(id)`, the stored bytes or the empty string. -/
def Get (s : MemoryChunkStore) (name : ChunkId) : Outcome (List Nat) :=
  if name = [] then Outcome.threw Error.invalid_parameter
  else
    match chunks_find s.chunks_ name with
    | some entry => Outcome.returned entry.2
    | none => Outcome.returned []

/-- Modelled from the spec: `Store(id, bytes)`. Empty id or empty bytes are invalid
arguments; a present id gets one more reference and keeps its bytes; an absent id is
refused when a capacity is set and `Size() + len(bytes)` exceeds it, and is entered with
one reference otherwise. -/
def Store (s : MemoryChunkStore) (name : ChunkId) (content : List Nat) :
    Outcome Bool × MemoryChunkStore :=
  if name = [] ∨ content = [] then (Outcome.threw Error.invalid_parameter, s)
  else
    match chunks_find s.chunks_ name with
    | some entry =>
      (Outcome.returned true,
        { s with chunks_ := chunks_replace s.chunks_ name (entry.1 + 1, entry.2) })
    | none =>
      if !Vacant s content.length then (Outcome.returned false, s)
      else (Outcome.returned true, { s with chunks_ := s.chunks_ ++ [(name, 1, content)] })

/-- Modelled from the spec: `Delete(id)`: one reference less, the chunk erased with its
last reference; deleting an absent id succeeds. -/
def Delete (s : MemoryChunkStore) (name : ChunkId) : Outcome Bool × MemoryChunkStore :=
  if name = [] then (Outcome.threw Error.invalid_parameter, s)
  else
    match chunks_find s.chunks_ name with
    | none => (Outcome.returned true, s)
    | some entry =>
      if entry.1 ≤ 1 then
        (Outcome.returned true, { s with chunks_ := chunks_erase s.chunks_ name })
      else
        (Outcome.returned true,
          { s with chunks_ := chunks_replace s.chunks_ name (entry.1 - 1, entry.2) })

/-- Modelled from the spec: `Clear()`. -/
def Clear (s : MemoryChunkStore) : MemoryChunkStore :=
  { s with chunks_ := [] }

/-- Modelled from the spec: `SetCapacity(c)`: a non-zero capacity below `Size()` is raised
to `Size()`. -/
def SetCapacity (s : MemoryChunkStore) (capacity : Nat) : MemoryChunkStore :=
  { s with capacity_ := if capacity ≠ 0 ∧ capacity < Size s then Size s else capacity }

/-- Repeated `Store` of one name with the given contents, in order. -/
def Store_all (s : MemoryChunkStore) (name : ChunkId) (contents : List (List Nat)) :
    MemoryChunkStore :=
  contents.foldl (fun t content => (Store t name content).2) s

/-- The operations of a store that act on the store alone. -/
inductive Operation
  | Store (name : ChunkId) (content : List Nat)
  | Delete (name : ChunkId)
  | Clear
  | SetCapacity (capacity : Nat)
  deriving DecidableEq, Repr

/-- The store after one operation. -/
def apply (s : MemoryChunkStore) : Operation → MemoryChunkStore
  | Operation.Store name content => (Store s name content).2
  | Operation.Delete name => (Delete s name).2
  | Operation.Clear => Clear s
  | Operation.SetCapacity capacity => SetCapacity s capacity

/-- The store after a sequence of operations, oldest first. -/
def run (s : MemoryChunkStore) (operations : List Operation) : MemoryChunkStore :=
  operations.foldl apply s

/-- The names in the map are pairwise distinct and every reference count is positive. -/
def WellFormed (s : MemoryChunkStore) : Prop :=
  (s.chunks_.map Prod.fst).Nodup ∧ ∀ e ∈ s.chunks_, 0 < e.2.1

/-- The part "add chunk twice, reference counting enabled" of the test `BEH_References`
(chunk_store_api_test.h, lines 671 to 698) for `name1` and `content1`, run on the model
with the given reading of `Count()`: whether all its expectations hold. -/
def BEH_References_add_twice (count : MemoryChunkStore → Nat) (name1 : ChunkId)
    (content1 : List Nat) : Bool :=
  let s0 := empty
  let r1 := Store s0 name1 content1
  let s1 := r1.2
  let e1 := decide (r1.1 = Outcome.returned true) && decide (Has s1 name1 = Outcome.returned true)
    && decide (Count_name s1 name1 = Outcome.returned 1)
    && decide (Size_name s1 name1 = Outcome.returned 100)
    && decide (Get s1 name1 = Outcome.returned content1)
    && decide (Size s1 = 100) && decide (count s1 = 1)
  let r2 := Store s1 name1 (content1 ++ content1)
  let s2 := r2.2
  let e2 := decide (r2.1 = Outcome.returned true) && decide (Has s2 name1 = Outcome.returned true)
    && decide (Count_name s2 name1 = Outcome.returned 2)
    && decide (Size_name s2 name1 = Outcome.returned 100)
    && decide (Size s2 = 100) && decide (count s2 = 1)
  let r3 := Delete s2 name1
  let s3 := r3.2
  let e3 := decide (r3.1 = Outcome.returned true) && decide (Has s3 name1 = Outcome.returned true)
    && decide (Count_name s3 name1 = Outcome.returned 1)
    && decide (Size_name s3 name1 = Outcome.returned 100)
    && decide (Size s3 = 100) && decide (count s3 = 1) && !Empty s3
  let r4 := Delete s3 name1
  let s4 := r4.2
  let e4 := decide (r4.1 = Outcome.returned true) && decide (Has s4 name1 = Outcome.returned false)
    && decide (Count_name s4 name1 = Outcome.returned 0)
    && decide (Size_name s4 name1 = Outcome.returned 0)
    && decide (Size s4 = 0) && decide (count s4 = 0) && Empty s4
  e1 && e2 && e3 && e4

end MemoryChunkStore

/-- Modelled from the spec: the cache of a `BufferedChunkStore` (sections 3 and 4.3): the
cached chunks as a sequence in insertion order, oldest first, and the cache capacity, 0
meaning unbounded. -/
structure ChunkCache where
  cache_ : List (ChunkId × List Nat)
  cache_capacity_ : Nat
  deriving DecidableEq, Repr

/-- Modelled from the spec: the bytes held by a sequence of cache entries. -/
def cached_bytes (entries : List (ChunkId × List Nat)) : Nat :=
  (entries.map (fun e => e.2.length)).sum

/-- Modelled from the spec: the eviction of the cache, "evict head entries until
`cache_size + s <= cache_capacity`". -/
def evict_for (capacity needed : Nat) : List (ChunkId × List Nat) → List (ChunkId × List Nat)
  | [] => []
  | e :: rest =>
    if cached_bytes (e :: rest) + needed ≤ capacity then e :: rest
    else evict_for capacity needed rest

namespace ChunkCache

/-- Modelled from the spec: the cache of a new `BufferedChunkStore`. -/
def empty : ChunkCache :=
  { cache_ := [], cache_capacity_ := 0 }

/-- Modelled from the spec: `CacheSize()`. -/
def CacheSize (c : ChunkCache) : Nat :=
  cached_bytes c.cache_

/-- Modelled from the spec: `CacheCount()`. -/
def CacheCount (c : ChunkCache) : Nat :=
  c.cache_.length

/-- Modelled from the spec: `CacheCapacity()`. -/
def CacheCapacity (c : ChunkCache) : Nat :=
  c.cache_capacity_

/-- Modelled from the spec: `CacheVacant(n)`. -/
def CacheVacant (c : ChunkCache) (n : Nat) : Bool :=
  decide (c.cache_capacity_ = 0 ∨ CacheSize c + n ≤ c.cache_capacity_)

/-- Modelled from the spec: whether the name is among the cached chunks. -/
def cached (c : ChunkCache) (name : ChunkId) : Bool :=
  c.cache_.any (fun e => decide (e.1 = name))

/-- Modelled from the spec: `CacheHas(id)`; an empty id is an invalid argument. -/
def CacheHas (c : ChunkCache) (name : ChunkId) : Outcome Bool :=
  if name = [] then Outcome.threw Error.invalid_parameter
  else Outcome.returned (cached c name)

/-- Modelled from the spec: `SetCacheCapacity(c)`: a non-zero capacity below the current
size is raised to the current size. -/
def SetCacheCapacity (c : ChunkCache) (capacity : Nat) : ChunkCache :=
  { c with cache_capacity_ :=
      if capacity ≠ 0 ∧ capacity < CacheSize c then CacheSize c else capacity }

/-- Modelled from the spec: `CacheStore(id, bytes)`. An empty id is an invalid argument; an
id that is cached already is left as it is (as the test `BEH_CacheStore` has it, before the
bytes are looked at); empty bytes are an invalid argument; bytes longer than a non-zero
capacity are refused with the cache unchanged; otherwise head entries are evicted until
the bytes fit and the chunk is appended. -/
def CacheStore (c : ChunkCache) (name : ChunkId) (content : List Nat) :
    Outcome Bool × ChunkCache :=
  if name = [] then (Outcome.threw Error.invalid_parameter, c)
  else if cached c name then (Outcome.returned true, c)
  else if content = [] then (Outcome.threw Error.invalid_parameter, c)
  else if c.cache_capacity_ ≠ 0 ∧ content.length > c.cache_capacity_ then
    (Outcome.returned false, c)
  else if c.cache_capacity_ = 0 then
    (Outcome.returned true, { c with cache_ := c.cache_ ++ [(name, content)] })
  else
    (Outcome.returned true,
      { c with cache_ := evict_for c.cache_capacity_ content.length c.cache_
                          ++ [(name, content)] })

/-- Scenario S1 of the spec: `SetCacheCapacity(125)` on an empty cache followed by
`CacheStore` of `a`, `b`, `c` and `a` again; the caches after the second, third and
fourth store. -/
def scenario_S1 (a b c : ChunkId) (content_a content_b content_c : List Nat) :
    ChunkCache × ChunkCache × ChunkCache :=
  let s0 := SetCacheCapacity empty 125
  let s1 := (CacheStore s0 a content_a).2
  let s2 := (CacheStore s1 b content_b).2
  let s3 := (CacheStore s2 c content_c).2
  let s4 := (CacheStore s3 a content_a).2
  (s2, s3, s4)

/-- The test `BEH_CacheCapacity` (buffered_chunk_store_test.cc, lines 316 to 420) run on the
model, for three names and a file name with contents of 100, 50, 25 and 100 bytes: whether
all its expectations hold. -/
def BEH_CacheCapacity (name1 name2 name3 name_file : ChunkId)
    (content1 content2 content3 content_file : List Nat) : Bool :=
  let s := empty
  let e0 := decide (CacheCapacity s = 0) && CacheVacant s 0 && CacheVacant s 123456789
  let s := SetCacheCapacity s 125
  let e1 := decide (CacheCapacity s = 125) && CacheVacant s 125 && !CacheVacant s 126
  let e2 := CacheVacant s content1.length
  let r := CacheStore s name1 content1
  let s := r.2
  let e3 := decide (r.1 = Outcome.returned true)
    && decide (CacheHas s name1 = Outcome.returned true) && decide (CacheSize s = 100)
  let e4 := !CacheVacant s content2.length
  let r := CacheStore s name2 content2
  let s := r.2
  let e5 := decide (r.1 = Outcome.returned true)
    && decide (CacheHas s name1 = Outcome.returned false)
    && decide (CacheHas s name2 = Outcome.returned true) && decide (CacheSize s = 50)
  let e6 := CacheVacant s content3.length
  let r := CacheStore s name3 content3
  let s := r.2
  let e7 := decide (r.1 = Outcome.returned true)
    && decide (CacheHas s name1 = Outcome.returned false)
    && decide (CacheHas s name2 = Outcome.returned true)
    && decide (CacheHas s name3 = Outcome.returned true) && decide (CacheSize s = 75)
  let e8 := !CacheVacant s content1.length
  let r := CacheStore s name1 content1
  let s := r.2
  let e9 := decide (r.1 = Outcome.returned true)
    && decide (CacheHas s name1 = Outcome.returned true)
    && decide (CacheHas s name2 = Outcome.returned false)
    && decide (CacheHas s name3 = Outcome.returned true) && decide (CacheSize s = 125)
  let e10 := !CacheVacant s content1.length
  let r := CacheStore s name1 content1
  let s := r.2
  let e11 := decide (r.1 = Outcome.returned true)
    && decide (CacheHas s name1 = Outcome.returned true)
    && decide (CacheHas s name2 = Outcome.returned false)
    && decide (CacheHas s name3 = Outcome.returned true) && decide (CacheSize s = 125)
  let e12 := !CacheVacant s content2.length
  let r := CacheStore s name2 content2
  let s := r.2
  let e13 := decide (r.1 = Outcome.returned true)
    && decide (CacheHas s name1 = Outcome.returned false)
    && decide (CacheHas s name2 = Outcome.returned true)
    && decide (CacheHas s name3 = Outcome.returned false) && decide (CacheSize s = 50)
  let e14 := decide (CacheCapacity s = 125)
  let s := SetCacheCapacity s 10
  let e15 := decide (CacheCapacity s = 50)
  let e16 := !CacheVacant s content1.length
  let r := CacheStore s name1 content1
  let s := r.2
  let e17 := decide (r.1 = Outcome.returned false)
    && decide (CacheHas s name1 = Outcome.returned false) && decide (CacheSize s = 50)
  let e18 := !CacheVacant s content3.length
  let r := CacheStore s name3 content3
  let s := r.2
  let e19 := decide (r.1 = Outcome.returned true)
    && decide (CacheHas s name1 = Outcome.returned false)
    && decide (CacheHas s name2 = Outcome.returned false)
    && decide (CacheHas s name3 = Outcome.returned true) && decide (CacheSize s = 25)
  let e20 := !CacheVacant s 100
  let r := CacheStore s name_file content_file
  let s := r.2
  let e21 := decide (r.1 = Outcome.returned false)
    && decide (CacheHas s name1 = Outcome.returned false)
    && decide (CacheHas s name2 = Outcome.returned false)
    && decide (CacheHas s name3 = Outcome.returned true)
    && decide (CacheHas s name_file = Outcome.returned false) && decide (CacheSize s = 25)
  let s := SetCacheCapacity s 100
  let e22 := !CacheVacant s 100
  let r := CacheStore s name_file content_file
  let s := r.2
  let e23 := decide (r.1 = Outcome.returned true)
    && decide (CacheHas s name1 = Outcome.returned false)
    && decide (CacheHas s name2 = Outcome.returned false)
    && decide (CacheHas s name3 = Outcome.returned false)
    && decide (CacheHas s name_file = Outcome.returned true) && decide (CacheSize s = 100)
  e0 && e1 && e2 && e3 && e4 && e5 && e6 && e7 && e8 && e9 && e10 && e11 && e12 && e13
    && e14 && e15 && e16 && e17 && e18 && e19 && e20 && e21 && e22 && e23

end ChunkCache

end chunk_store

end priv

namespace vault_manager

namespace ClientConnections

/-- The registry states that arise from the newly constructed registry by `Add` (called,
as its assertions require, on a connection that is in neither map), `Validate`, `Remove`
and the run of a timer's wait handler. -/
inductive Reachable (CheckSignature : PlainText → Signature → PublicKey → Bool) :
    ClientConnections → Prop
  | empty : Reachable CheckSignature empty
  | Add (s : ClientConnections) (connection : TcpConnectionPtr) (challenge : PlainText) :
    Reachable CheckSignature s → map_find s.clients_ connection = none →
    map_find s.unvalidated_clients_ connection = none →
    Reachable CheckSignature (Add s connection challenge).2
  | Validate (s : ClientConnections) (connection : TcpConnectionPtr) (maid : PublicMaid)
    (signature : Signature) :
    Reachable CheckSignature s →
    Reachable CheckSignature (Validate CheckSignature s connection maid signature).2
  | Remove (s : ClientConnections) (connection : TcpConnectionPtr) :
    Reachable CheckSignature s → Reachable CheckSignature (Remove s connection).2
  | TimerHandler (s : ClientConnections) (connection : TcpConnectionPtr)
    (error_code : ErrorCode) :
    Reachable CheckSignature s → Reachable CheckSignature (TimerHandler s connection error_code)

/-- Whether the step is `Remove` of the given connection. -/
def Call.removes (connection : TcpConnectionPtr) : Call → Bool
  | Call.Remove c => decide (c = connection)
  | _ => false

/-- Whether the step is neither `Add` nor `Remove` of the given connection. -/
def Call.keeps (connection : TcpConnectionPtr) (call : Call) : Bool :=
  !call.adds connection && !call.removes connection

end ClientConnections

end vault_manager

namespace vault_manager

namespace TcpConnection

/-- The loop `while (is_open_) std::this_thread::yield();` of the destructor. Each round
stands for one look at `is_open_`; the events of a round are what the reactor runs on the
connection before the next look. The answer is `none` when `is_open_` is still set at the
look after the last round. -/
def destructor_wait (P : Platform) (c : TcpConnection) : List (List Event) → Option TcpConnection
  | [] => if c.is_open_ then none else some c
  | events :: rest => if c.is_open_ then destructor_wait P (after P c events) rest else some c

/-- `TcpConnection::~TcpConnection` up to the call of `on_connection_closed_`: `Close` is
dispatched, then the destructor waits for `is_open_` to become false. -/
def destructor (P : Platform) (c : TcpConnection) (rounds : List (List Event)) :
    Option TcpConnection :=
  destructor_wait P (Close c) rounds

end TcpConnection

end vault_manager

namespace priv

namespace process_management

namespace ClientController

/-- What `HandleNewVersionAvailable` asks of the file system and of `detail`: the value of
`fs::exists(path, error_code)`, whether it set the error code, `path.filename().string()`,
and `detail::TokeniseFileName`. -/
structure FileChecks where
  file_exists : String → Bool
  error_code_set : String → Bool
  filename : String → String
  TokeniseFileName : String → Bool

/-- A `protobuf::NewVersionAvailable` after `ParseFromString`: whether the parse succeeded,
and the `new_version_filepath` the message object then holds. -/
structure NewVersionAvailable where
  parsed : Bool
  new_version_filepath : String
  deriving DecidableEq, Repr

/-- What `HandleNewVersionAvailable` produces: the `new_version_filepath` of the
`NewVersionAvailableAck` wrapped into `response`, and the path with which
`on_new_version_available_` is called. -/
structure NewVersionAvailableResult where
  ack_new_version_filepath : String
  signalled : String
  deriving DecidableEq, Repr

/-- `ClientController::HandleNewVersionAvailable`. -/
def HandleNewVersionAvailable (F : FileChecks) (request : NewVersionAvailable) :
    NewVersionAvailableResult :=
  let ack : String :=
    if !request.parsed then ""
    else if !F.file_exists request.new_version_filepath
        || F.error_code_set request.new_version_filepath then ""
    else if !F.TokeniseFileName (F.filename request.new_version_filepath) then ""
    else request.new_version_filepath
  { ack_new_version_filepath := ack, signalled := request.new_version_filepath }

/-- `ClientController::BootstrapEndpoints`, given the member `bootstrap_nodes_` and the
caller's vector: the value returned and the caller's vector afterwards. -/
def BootstrapEndpoints (c : ClientController) (bootstrap_nodes_ endpoints : List (String × Nat)) :
    Bool × List (String × Nat) :=
  if c.state_ ≠ State.kVerified then (false, endpoints)
  else (true, bootstrap_nodes_)

/-- `ClientController::StopVault`: `connected` tells whether `Connect` succeeds and `reply`
is the result the callback got within ten seconds (`none` after the time-out). The answer
holds the value returned and whether a request was sent. -/
def StopVault (c : ClientController) (connected : Bool) (reply : Option Bool) : Bool × Bool :=
  if c.state_ ≠ State.kVerified then (false, false)
  else if !connected then (false, false)
  else
    match reply with
    | none => (false, true)
    | some local_result => (local_result, true)

end ClientController

end process_management

end priv

namespace priv

namespace chunk_store

open vault_manager (Outcome Error)

namespace MemoryChunkStore

/-- Modelled from the spec: `Modify(id, new_bytes)`, with the meaning the test `BEH_Modify`
gives it: the store does not look at whether the id is a hash of any bytes. An empty id
or empty bytes are invalid arguments; an absent id is refused; longer bytes are refused
when the increase does not fit the capacity; otherwise the bytes are replaced and R is
kept. The spec's own sentence, with hash-named chunks immutable, is `Modify_spec`. -/
def Modify (s : MemoryChunkStore) (name : ChunkId) (content : List Nat) :
    Outcome Bool × MemoryChunkStore :=
  if name = [] ∨ content = [] then (Outcome.threw Error.invalid_parameter, s)
  else
    match chunks_find s.chunks_ name with
    | none => (Outcome.returned false, s)
    | some entry =>
      if entry.2.length < content.length ∧ !Vacant s (content.length - entry.2.length) then
        (Outcome.returned false, s)
      else
        (Outcome.returned true,
          { s with chunks_ := chunks_replace s.chunks_ name (entry.1, content) })

/-- Modelled from the spec: `Modify(id, new_bytes)` as section 4.1 words it, for the hash
`h`: on a hash-named chunk (the id is the hash of the stored bytes) it is rejected unless
the new bytes hash to the id, and is then a size check that changes nothing; on other
chunks it replaces the bytes. -/
def Modify_spec (h : List Nat → ChunkId) (s : MemoryChunkStore) (name : ChunkId)
    (content : List Nat) : Outcome Bool × MemoryChunkStore :=
  if name = [] ∨ content = [] then (Outcome.threw Error.invalid_parameter, s)
  else
    match chunks_find s.chunks_ name with
    | none => (Outcome.returned false, s)
    | some entry =>
      if h entry.2 = name then
        if h content = name then
          (Outcome.returned
            (decide (¬ (entry.2.length < content.length
              ∧ !Vacant s (content.length - entry.2.length))) ), s)
        else (Outcome.returned false, s)
      else Modify s name content

/-- Modelled from the spec: `MoveTo(id, other)` for a store `other` distinct from this one
(`none` stands for a null pointer): one reference is stored in `other`, which keeps its
own bytes when it holds the id already, and on success one reference is deleted here. The
answer holds both stores afterwards. -/
def MoveTo (s : MemoryChunkStore) (name : ChunkId) (sink : Option MemoryChunkStore) :
    Outcome Bool × MemoryChunkStore × Option MemoryChunkStore :=
  if name = [] then (Outcome.threw Error.invalid_parameter, s, sink)
  else
    match sink with
    | none => (Outcome.returned false, s, none)
    | some other =>
      match chunks_find s.chunks_ name with
      | none => (Outcome.returned false, s, some other)
      | some entry =>
        match Store other name entry.2 with
        | (Outcome.returned true, other') =>
          (Outcome.returned true, (Delete s name).2, some other')
        | (Outcome.returned false, _) => (Outcome.returned false, s, some other)
        | (Outcome.threw e, _) => (Outcome.threw e, s, some other)
        | (Outcome.assertFailed, _) => (Outcome.assertFailed, s, some other)

/-- The test `BEH_Modify` (chunk_store_api_test.h, lines 343 to 396) as instantiated for
`MemoryChunkStore`, run on the model with the given reading of `Modify`; a file is given
by its content, and the call with an empty path (line 364) is left out. Whether all its
expectations hold. -/
def BEH_Modify (modify : MemoryChunkStore → ChunkId → List Nat → Outcome Bool × MemoryChunkStore)
    (non_hash_name hash_name name_file : ChunkId)
    (content modified_content modified_content2 file_content modified_file : List Nat) : Bool :=
  let s := empty
  let r := Store s non_hash_name content
  let e1 := decide (r.1 = Outcome.returned true)
  let s := r.2
  let r := Store s hash_name content
  let e2 := decide (r.1 = Outcome.returned true)
  let s := r.2
  let r := Store s name_file file_content
  let e3 := decide (r.1 = Outcome.returned true)
  let s := r.2
  let e4 := !Empty s && decide (Count s = 3) && decide (Size s = 702)
    && decide (Has s non_hash_name = Outcome.returned true)
    && decide (Count_name s non_hash_name = Outcome.returned 1)
    && decide (Size_name s non_hash_name = Outcome.returned 123)
    && decide (Has s hash_name = Outcome.returned true)
    && decide (Count_name s hash_name = Outcome.returned 1)
    && decide (Size_name s hash_name = Outcome.returned 123)
    && decide (Has s name_file = Outcome.returned true)
    && decide (Count_name s name_file = Outcome.returned 1)
    && decide (Size_name s name_file = Outcome.returned 456)
  let e5 := decide ((modify s [] modified_content).1 = Outcome.threw Error.invalid_parameter)
    && decide ((modify s [] modified_file).1 = Outcome.threw Error.invalid_parameter)
  let s := SetCapacity s 702
  let r := modify s non_hash_name modified_content
  let e6 := decide (r.1 = Outcome.returned false)
  let s := r.2
  let r := modify s name_file modified_file
  let e7 := decide (r.1 = Outcome.returned false)
  let s := r.2
  let r := modify s hash_name modified_content
  let e8 := decide (r.1 = Outcome.returned false)
  let s := r.2
  let r := modify s hash_name modified_content2
  let e9 := decide (r.1 = Outcome.returned true)
  let s := r.2
  let e10 := decide (Count_name s hash_name = Outcome.returned 1)
  let s := SetCapacity s 1024
  let r := modify s non_hash_name modified_content
  let e11 := decide (r.1 = Outcome.returned true)
  let s := r.2
  let r := modify s name_file modified_file
  let e12 := decide (r.1 = Outcome.returned true)
  let s := r.2
  let e13 := decide (Has s non_hash_name = Outcome.returned true)
    && decide (Count_name s non_hash_name = Outcome.returned 1)
    && decide (Size_name s non_hash_name = Outcome.returned 125)
    && decide (Has s hash_name = Outcome.returned true)
    && decide (Count_name s hash_name = Outcome.returned 1)
    && decide (Size_name s hash_name = Outcome.returned 120)
    && decide (Has s name_file = Outcome.returned true)
    && decide (Count_name s name_file = Outcome.returned 1)
    && decide (Size_name s name_file = Outcome.returned 460)
    && decide (Count s = 3) && decide (Size s = 705)
  e1 && e2 && e3 && e4 && e5 && e6 && e7 && e8 && e9 && e10 && e11 && e12 && e13

/-- Every stored chunk has bytes: `Store` and `Modify` refuse empty bytes. -/
def NonEmptyBytes (s : MemoryChunkStore) : Prop :=
  ∀ e ∈ s.chunks_, e.2.2 ≠ []

end MemoryChunkStore

/-- Modelled from the spec: the lookup of a name among the cached chunks. -/
def cache_find (entries : List (ChunkId × List Nat)) (name : ChunkId) : Option (List Nat) :=
  match entries with
  | [] => none
  | (k, content) :: rest => if k = name then some content else cache_find rest name

/-- Modelled from the spec: `BufferedChunkStore` (sections 3 and 4.3): the cache, the
permanent layer as a mapping from id to bytes and reference count, and the removable
list, one entry per `MarkForDeletion` that no `DeleteAllMarked` has reclaimed yet. The
background executor is not modelled: every operation sees the effects of the earlier
ones. -/
structure BufferedChunkStore where
  cache_ : ChunkCache
  permanent_ : MemoryChunkStore
  removable_chunks_ : List ChunkId
  deriving DecidableEq, Repr

/-- Modelled from the spec: the deletion marks of one name removed from the removable
list, all of them, as the test `BEH_PermanentStore` (lines 506 to 527) has it. -/
def clear_marks (removable : List ChunkId) (name : ChunkId) : List ChunkId :=
  removable.filter (fun k => decide (k ≠ name))

/-- Modelled from the spec: one deletion mark of a name removed from the removable list,
the oldest one: the reinstatement rule as section 4.3 words it. -/
def clear_one_mark (removable : List ChunkId) (name : ChunkId) : List ChunkId :=
  match removable with
  | [] => []
  | k :: rest => if k = name then rest else k :: clear_one_mark rest name

namespace BufferedChunkStore

/-- Modelled from the spec: a new store: both layers empty, nothing marked. -/
def empty : BufferedChunkStore :=
  { cache_ := ChunkCache.empty, permanent_ := MemoryChunkStore.empty, removable_chunks_ := [] }

/-- Modelled from the spec: the number of outstanding deletion marks of a name. -/
def marks (s : BufferedChunkStore) (name : ChunkId) : Nat :=
  (s.removable_chunks_.filter (fun k => decide (k = name))).length

/-- Modelled from the spec: `CacheHas(id)`. -/
def CacheHas (s : BufferedChunkStore) (name : ChunkId) : Outcome Bool :=
  ChunkCache.CacheHas s.cache_ name

/-- Modelled from the spec: `PermanentHas(id)`: the marks of the id are fewer than its
references in the permanent layer. -/
def PermanentHas (s : BufferedChunkStore) (name : ChunkId) : Outcome Bool :=
  if name = [] then Outcome.threw Error.invalid_parameter
  else Outcome.returned (decide (marks s name < MemoryChunkStore.references s.permanent_ name))

/-- Modelled from the spec: `Has(id)`: the id is in the cache or permanently held. -/
def Has (s : BufferedChunkStore) (name : ChunkId) : Outcome Bool :=
  if name = [] then Outcome.threw Error.invalid_parameter
  else Outcome.returned (ChunkCache.cached s.cache_ name
    || decide (marks s name < MemoryChunkStore.references s.permanent_ name))

/-- Modelled from the spec: `Count(id)`, the references in the permanent layer. -/
def Count_name (s : BufferedChunkStore) (name : ChunkId) : Outcome Nat :=
  MemoryChunkStore.Count_name s.permanent_ name

/-- Modelled from the spec: `CacheStore(id, bytes)`: the cache alone. -/
def CacheStore (s : BufferedChunkStore) (name : ChunkId) (content : List Nat) :
    Outcome Bool × BufferedChunkStore :=
  ((ChunkCache.CacheStore s.cache_ name content).1,
    { s with cache_ := (ChunkCache.CacheStore s.cache_ name content).2 })

/-- Modelled from the spec: `Store(id, bytes)`: a store into the permanent layer, and the
bytes admitted to the cache when they fit its capacity. -/
def Store (s : BufferedChunkStore) (name : ChunkId) (content : List Nat) :
    Outcome Bool × BufferedChunkStore :=
  match MemoryChunkStore.Store s.permanent_ name content with
  | (Outcome.returned true, permanent) =>
    (Outcome.returned true,
      { s with cache_ := (ChunkCache.CacheStore s.cache_ name content).2,
               permanent_ := permanent })
  | (outcome, _) => (outcome, s)

/-- Modelled from the spec: `CacheClear()`. -/
def CacheClear (s : BufferedChunkStore) : BufferedChunkStore :=
  { s with cache_ := { s.cache_ with cache_ := [] } }

/-- Modelled from the spec: `Clear()`: both layers and the removable list. -/
def Clear (s : BufferedChunkStore) : BufferedChunkStore :=
  { cache_ := { s.cache_ with cache_ := [] },
    permanent_ := MemoryChunkStore.Clear s.permanent_,
    removable_chunks_ := [] }

/-- Modelled from the spec: `Get(id)`: the cache first; on a miss the bytes are fetched
from the permanent layer and entered into the cache. -/
def Get (s : BufferedChunkStore) (name : ChunkId) : Outcome (List Nat) × BufferedChunkStore :=
  if name = [] then (Outcome.threw Error.invalid_parameter, s)
  else
    match cache_find s.cache_.cache_ name with
    | some content => (Outcome.returned content, s)
    | none =>
      match chunks_find s.permanent_.chunks_ name with
      | some entry =>
        (Outcome.returned entry.2,
          { s with cache_ := (ChunkCache.CacheStore s.cache_ name entry.2).2 })
      | none => (Outcome.returned [], s)

/-- Modelled from the spec: `MarkForDeletion(id)`: one more entry of the removable list; an
empty id is ignored. -/
def MarkForDeletion (s : BufferedChunkStore) (name : ChunkId) : BufferedChunkStore :=
  if name = [] then s
  else { s with removable_chunks_ := s.removable_chunks_ ++ [name] }

/-- The store after `MarkForDeletion` of each of the names, in order. -/
def MarkForDeletion_all (s : BufferedChunkStore) (names : List ChunkId) : BufferedChunkStore :=
  names.foldl MarkForDeletion s

/-- Modelled from the spec: `GetRemovableChunks()`. -/
def GetRemovableChunks (s : BufferedChunkStore) : List ChunkId :=
  s.removable_chunks_

/-- Modelled from the spec: the `Delete`s of `DeleteAllMarked` against the permanent layer,
one per entry of the list, with whether all of them succeeded so far. -/
def delete_marked (names : List ChunkId) (acc : Bool × MemoryChunkStore) :
    Bool × MemoryChunkStore :=
  names.foldl (fun a name =>
    (a.1 && decide ((MemoryChunkStore.Delete a.2 name).1 = Outcome.returned true),
      (MemoryChunkStore.Delete a.2 name).2)) acc

/-- Modelled from the spec: `DeleteAllMarked()`: one `Delete` against the permanent layer
per entry of the removable list, which is emptied. -/
def DeleteAllMarked (s : BufferedChunkStore) : Outcome Bool × BufferedChunkStore :=
  (Outcome.returned (delete_marked s.removable_chunks_ (true, s.permanent_)).1,
    { s with permanent_ := (delete_marked s.removable_chunks_ (true, s.permanent_)).2,
             removable_chunks_ := [] })

/-- Modelled from the spec: `PermanentStore(id)` for a given way of clearing deletion
marks. An empty id is an invalid argument; an id in neither layer is refused; for a marked
id the marks are cleared and R is kept; otherwise a cached id is stored in the permanent
layer, and an id that is only there is left as it is. -/
def PermanentStore_with (clear : List ChunkId → ChunkId → List ChunkId)
    (s : BufferedChunkStore) (name : ChunkId) : Outcome Bool × BufferedChunkStore :=
  if name = [] then (Outcome.threw Error.invalid_parameter, s)
  else if cache_find s.cache_.cache_ name = none
      ∧ MemoryChunkStore.references s.permanent_ name = 0 then
    (Outcome.returned false, s)
  else if 0 < marks s name then
    (Outcome.returned true, { s with removable_chunks_ := clear s.removable_chunks_ name })
  else
    match cache_find s.cache_.cache_ name with
    | some content =>
      ((MemoryChunkStore.Store s.permanent_ name content).1,
        { s with permanent_ := (MemoryChunkStore.Store s.permanent_ name content).2 })
    | none => (Outcome.returned true, s)

/-- Modelled from the spec: `PermanentStore(id)`, with the reinstatement the test
`BEH_PermanentStore` expects: every deletion mark of the id is cleared. -/
def PermanentStore (s : BufferedChunkStore) (name : ChunkId) :
    Outcome Bool × BufferedChunkStore :=
  PermanentStore_with clear_marks s name

/-- Modelled from the spec: `PermanentStore(id)` as section 4.3 words the reinstatement:
one deletion mark of the id is cleared. -/
def PermanentStore_spec (s : BufferedChunkStore) (name : ChunkId) :
    Outcome Bool × BufferedChunkStore :=
  PermanentStore_with clear_one_mark s name

/-- The test `BEH_PermanentStore` (buffered_chunk_store_test.cc, lines 451 to 528) run on
the model with the given reading of `PermanentStore`, for two names and a content of 100
bytes: whether all its expectations hold. -/
def BEH_PermanentStore
    (permanent_store : BufferedChunkStore → ChunkId → Outcome Bool × BufferedChunkStore)
    (name1 name2 : ChunkId) (content : List Nat) : Bool :=
  let s := empty
  let e1 := decide ((permanent_store s []).1 = Outcome.threw Error.invalid_parameter)
  let r := permanent_store s name1
  let s := r.2
  let e2 := decide (r.1 = Outcome.returned false)
    && decide (CacheHas s name1 = Outcome.returned false)
    && decide (PermanentHas s name1 = Outcome.returned false)
  let r := CacheStore s name1 content
  let s := r.2
  let e3 := decide (r.1 = Outcome.returned true)
    && decide (CacheHas s name1 = Outcome.returned true)
    && decide (PermanentHas s name1 = Outcome.returned false)
  let r := Store s name1 content
  let s := r.2
  let e4 := decide (r.1 = Outcome.returned true)
    && decide (CacheHas s name1 = Outcome.returned true)
    && decide (PermanentHas s name1 = Outcome.returned true)
  let e5 := decide (CacheHas s name2 = Outcome.returned false)
    && decide (PermanentHas s name2 = Outcome.returned false)
  let r := CacheStore s name2 content
  let s := r.2
  let e6 := decide (r.1 = Outcome.returned true)
    && decide (CacheHas s name2 = Outcome.returned true)
    && decide (PermanentHas s name2 = Outcome.returned false)
  let r := permanent_store s name2
  let s := r.2
  let e7 := decide (r.1 = Outcome.returned true)
    && decide (CacheHas s name2 = Outcome.returned true)
    && decide (PermanentHas s name2 = Outcome.returned true)
  let s := CacheClear s
  let g := Get s name1
  let s := g.2
  let e8 := decide (g.1 = Outcome.returned content)
  let g := Get s name2
  let s := g.2
  let e9 := decide (g.1 = Outcome.returned content)
  let s := CacheClear s
  let r := permanent_store s name1
  let s := r.2
  let e10 := decide (r.1 = Outcome.returned true)
    && decide (PermanentHas s name2 = Outcome.returned true)
  let s := Clear s
  let r := Store s name1 content
  let s := r.2
  let e11 := decide (r.1 = Outcome.returned true)
    && decide (PermanentHas s name1 = Outcome.returned true)
  let s := MarkForDeletion s name1
  let e12 := decide (Has s name1 = Outcome.returned true)
    && decide (CacheHas s name1 = Outcome.returned true)
    && decide (PermanentHas s name1 = Outcome.returned false)
  let r := permanent_store s name1
  let s := r.2
  let e13 := decide (r.1 = Outcome.returned true)
    && decide (PermanentHas s name1 = Outcome.returned true)
  let s := CacheClear s
  let s := MarkForDeletion s name1
  let e14 := decide (Has s name1 = Outcome.returned false)
    && decide (CacheHas s name1 = Outcome.returned false)
    && decide (PermanentHas s name1 = Outcome.returned false)
  let r := permanent_store s name1
  let s := r.2
  let e15 := decide (r.1 = Outcome.returned true)
    && decide (PermanentHas s name1 = Outcome.returned true)
  let s := Clear s
  let r1 := Store s name1 content
  let r2 := Store r1.2 name1 content
  let r3 := Store r2.2 name1 content
  let s := r3.2
  let e16 := decide (r1.1 = Outcome.returned true) && decide (r2.1 = Outcome.returned true)
    && decide (r3.1 = Outcome.returned true)
    && decide (Count_name s name1 = Outcome.returned 3)
  let s := MarkForDeletion (MarkForDeletion s name1) name1
  let e17 := decide (PermanentHas s name1 = Outcome.returned true)
  let s := MarkForDeletion s name1
  let e18 := decide (PermanentHas s name1 = Outcome.returned false)
  let r := permanent_store s name1
  let s := r.2
  let e19 := decide (r.1 = Outcome.returned true)
    && decide (PermanentHas s name1 = Outcome.returned true)
  let s := MarkForDeletion (MarkForDeletion s name1) name1
  let e20 := decide (PermanentHas s name1 = Outcome.returned true)
  let s := MarkForDeletion s name1
  let e21 := decide (PermanentHas s name1 = Outcome.returned false)
  e1 && e2 && e3 && e4 && e5 && e6 && e7 && e8 && e9 && e10 && e11 && e12 && e13 && e14
    && e15 && e16 && e17 && e18 && e19 && e20 && e21

/-- The test `BEH_DeleteAllMarked` (buffered_chunk_store_test.cc, lines 618 to 644) run on
the model, for two names and a content of 100 bytes: whether all its expectations hold. -/
def BEH_DeleteAllMarked (name1 name2 : ChunkId) (content : List Nat) : Bool :=
  let s := empty
  let r1 := Store s name1 content
  let r2 := Store r1.2 name1 content
  let r3 := Store r2.2 name1 content
  let r4 := Store r3.2 name1 content
  let s := r4.2
  let e1 := decide (r1.1 = Outcome.returned true) && decide (r2.1 = Outcome.returned true)
    && decide (r3.1 = Outcome.returned true) && decide (r4.1 = Outcome.returned true)
    && decide (Count_name s name1 = Outcome.returned 4)
  let r := Store s name2 content
  let s := r.2
  let e2 := decide (r.1 = Outcome.returned true)
  let s := MarkForDeletion (MarkForDeletion (MarkForDeletion s name1) name1) name1
  let e3 := decide ((GetRemovableChunks s).length = 3)
  let r := DeleteAllMarked s
  let s := r.2
  let e4 := decide (r.1 = Outcome.returned true)
    && decide (PermanentHas s name1 = Outcome.returned true)
    && decide (Count_name s name1 = Outcome.returned 1)
    && decide (Count_name s name2 = Outcome.returned 1)
  let s := MarkForDeletion s name1
  let r := DeleteAllMarked s
  let s := r.2
  let e5 := decide (r.1 = Outcome.returned true)
    && decide (PermanentHas s name1 = Outcome.returned false)
    && decide (Count_name s name2 = Outcome.returned 1)
  let e6 := decide ((GetRemovableChunks s).length = 0)
  e1 && e2 && e3 && e4 && e5 && e6

end BufferedChunkStore

end chunk_store

end priv

namespace vault_manager

/-! ## Lemmas on the framing -/

theorem to_size_buffer_element_static_cast_char (P : Platform) (x : Nat) :
    to_size_buffer_element (static_cast_char P x) = x % 256 := by
  unfold to_size_buffer_element static_cast_char
  split <;> omega

theorem EncodeData_returned (P : Platform) (data : List Nat)
    (h : data.length ≤ P.MaxMessageSize) :
    EncodeData P data = Outcome.returned
      { size_buffer := [data.length >>> 24 % 256, data.length >>> 16 % 256,
                        data.length >>> 8 % 256, data.length % 256],
        data := data } := by
  unfold EncodeData
  rw [if_neg (by omega)]
  simp [List.range, List.range.loop, to_size_buffer_element_static_cast_char]

theorem EncodeData_threw (P : Platform) (data : List Nat)
    (h : P.MaxMessageSize < data.length) :
    EncodeData P data = Outcome.threw Error.invalid_string_size := by
  unfold EncodeData
  rw [if_pos h]

theorem shift_or_byte (a b : Nat) (hb : b < 256) : (a <<< 8) ||| b = a * 256 + b := by
  rw [Nat.shiftLeft_eq, Nat.mul_comm]
  exact (Nat.mul_add_lt_is_or (i := 8) hb a).symm

theorem decode_data_size_bytes (b0 b1 b2 b3 : Nat) (h1 : b1 < 256) (h2 : b2 < 256)
    (h3 : b3 < 256) :
    decode_data_size [b0, b1, b2, b3] = (((b0 * 256 + b1) * 256 + b2) * 256 + b3) % 2 ^ 32 := by
  unfold decode_data_size
  simp only [List.getD_cons_zero, List.getD_cons_succ]
  rw [shift_or_byte _ _ h1, shift_or_byte _ _ h2, shift_or_byte _ _ h3]

theorem decode_big_endian (n : Nat) :
    decode_data_size [n >>> 24 % 256, n >>> 16 % 256, n >>> 8 % 256, n % 256] = n % 2 ^ 32 := by
  rw [decode_data_size_bytes _ _ _ _ (Nat.mod_lt _ (by norm_num)) (Nat.mod_lt _ (by norm_num))
    (Nat.mod_lt _ (by norm_num))]
  simp only [Nat.shiftRight_eq_div_pow]
  omega

/-! ## Lemmas on the map operations -/

theorem map_find_filter_self {V : Type} (m : List (Nat × V)) (key : Nat) :
    map_find (m.filter (fun e => decide (e.1 ≠ key))) key = none := by
  induction m with
  | nil => rfl
  | cons e rest ih =>
    obtain ⟨k, v⟩ := e
    by_cases hk : k = key
    · rw [List.filter_cons_of_neg (by simp [hk])]
      exact ih
    · rw [List.filter_cons_of_pos (by simp [hk])]
      simp only [map_find, hk, if_false]
      exact ih

theorem map_find_filter_ne {V : Type} (m : List (Nat × V)) (key other : Nat)
    (h : other ≠ key) :
    map_find (m.filter (fun e => decide (e.1 ≠ key))) other = map_find m other := by
  induction m with
  | nil => rfl
  | cons e rest ih =>
    obtain ⟨k, v⟩ := e
    by_cases hk : k = key
    · rw [List.filter_cons_of_neg (by simp [hk])]
      have hko : ¬ k = other := by omega
      simp only [map_find, hko, if_false]
      exact ih
    · rw [List.filter_cons_of_pos (by simp [hk])]
      simp only [map_find, ih]

theorem map_filter_absent {V : Type} (m : List (Nat × V)) (key : Nat)
    (h : map_find m key = none) : m.filter (fun e => decide (e.1 ≠ key)) = m := by
  induction m with
  | nil => rfl
  | cons e rest ih =>
    obtain ⟨k, v⟩ := e
    by_cases hk : k = key
    · simp [map_find, hk] at h
    · simp only [map_find, hk, if_false] at h
      rw [List.filter_cons_of_pos (by simp [hk]), ih h]

theorem map_find_erase_self {V : Type} (m : List (Nat × V)) (key : Nat) :
    map_find (map_erase m key).1 key = none :=
  map_find_filter_self m key

theorem map_find_erase_ne {V : Type} (m : List (Nat × V)) (key other : Nat)
    (h : other ≠ key) : map_find (map_erase m key).1 other = map_find m other :=
  map_find_filter_ne m key other h

theorem map_erase_absent {V : Type} (m : List (Nat × V)) (key : Nat)
    (h : map_find m key = none) : map_erase m key = (m, 0) := by
  unfold map_erase
  rw [map_filter_absent m key h, h]
  rfl

theorem map_find_append {V : Type} (m : List (Nat × V)) (key other : Nat) (value : V) :
    map_find (m ++ [(key, value)]) other
      = match map_find m other with
        | some v => some v
        | none => if key = other then some value else none := by
  induction m with
  | nil => simp [map_find]
  | cons e rest ih =>
    obtain ⟨k, v⟩ := e
    by_cases hk : k = other
    · simp [map_find, hk]
    · simp [map_find, hk, ih]

theorem map_find_emplace_self {V : Type} (m : List (Nat × V)) (key : Nat) (value : V)
    (h : map_find m key = none) :
    map_emplace m key value = (m ++ [(key, value)], true) ∧
      map_find (m ++ [(key, value)]) key = some value := by
  constructor
  · simp [map_emplace, h]
  · rw [map_find_append, h]
    simp

theorem map_find_emplace_ne {V : Type} (m : List (Nat × V)) (key other : Nat) (value : V)
    (h : other ≠ key) : map_find (map_emplace m key value).1 other = map_find m other := by
  unfold map_emplace
  split
  · rfl
  · simp only
    rw [map_find_append]
    have hk : ¬ key = other := fun hc => h hc.symm
    cases map_find m other <;> simp [hk]

/-! ## Lemmas on the registry -/

namespace ClientConnections

theorem FindValidated_state (s : ClientConnections) (c : TcpConnectionPtr) :
    (FindValidated s c).2 = s := by
  unfold FindValidated
  split
  · split <;> rfl
  · rfl

theorem FindValidated_absent (s : ClientConnections) (c : TcpConnectionPtr)
    (hu : map_find s.unvalidated_clients_ c = none) (hc : map_find s.clients_ c = none) :
    FindValidated s c = (Outcome.threw Error.connection_not_found, s) := by
  simp [FindValidated, hu, hc]

theorem Validate_absent (CheckSignature : PlainText → Signature → PublicKey → Bool)
    (s : ClientConnections) (c : TcpConnectionPtr) (maid : PublicMaid) (signature : Signature)
    (hu : map_find s.unvalidated_clients_ c = none) :
    Validate CheckSignature s c maid signature
      = (Outcome.threw Error.connection_not_found, s) := by
  simp [Validate, hu]

theorem Validate_of_unvalidated (CheckSignature : PlainText → Signature → PublicKey → Bool)
    (s : ClientConnections) (c : TcpConnectionPtr) (challenge : PlainText) (maid : PublicMaid)
    (signature : Signature) (h : Unvalidated s c challenge) :
    Validate CheckSignature s c maid signature
      = if CheckSignature challenge signature maid.public_key then
          (Outcome.returned (),
            { unvalidated_clients_ := (map_erase s.unvalidated_clients_ c).1,
              clients_ := s.clients_ ++ [(c, maid.name)] })
        else
          (Outcome.threw Error.invalid_signature,
            { s with unvalidated_clients_ := (map_erase s.unvalidated_clients_ c).1 }) := by
  obtain ⟨hu, hc⟩ := h
  cases hf : map_find s.unvalidated_clients_ c with
  | none => simp [hf] at hu
  | some entry =>
    simp only [hf, Option.map_some', Option.some.injEq] at hu
    cases hcs : CheckSignature challenge signature maid.public_key <;>
      simp [Validate, hf, hu, hcs, map_emplace, hc]

theorem map_find_erase_none {V : Type} (m : List (Nat × V)) (key other : Nat)
    (h : map_find m other = none) : map_find (map_erase m key).1 other = none := by
  by_cases hk : other = key
  · subst hk
    exact map_find_erase_self m other
  · rw [map_find_erase_ne m key other hk]
    exact h

theorem step_unvalidated_none (CheckSignature : PlainText → Signature → PublicKey → Bool)
    (s : ClientConnections) (c : TcpConnectionPtr) (call : Call)
    (hu : map_find s.unvalidated_clients_ c = none) (hadd : call.adds c = false) :
    map_find (step CheckSignature s call).unvalidated_clients_ c = none := by
  cases call with
  | Add connection challenge =>
    have hne : c ≠ connection := by
      intro hc
      simp [Call.adds, hc] at hadd
    simp only [step, Add]
    split
    · exact hu
    · split <;> (simp only; rw [map_find_emplace_ne _ _ _ _ hne]; exact hu)
  | Validate connection maid signature =>
    simp only [step, Validate]
    split
    · exact hu
    · split
      · exact map_find_erase_none _ _ _ hu
      · split
        · exact map_find_erase_none _ _ _ hu
        · exact hu
  | Remove connection =>
    simp only [step, Remove]
    split
    · exact hu
    · exact map_find_erase_none _ _ _ hu
  | FindValidated connection =>
    simp only [step, FindValidated_state]
    exact hu
  | TimerHandler connection error_code =>
    simp only [step, TimerHandler]
    split
    · exact hu
    · exact map_find_erase_none _ _ _ hu

theorem step_clients_none (CheckSignature : PlainText → Signature → PublicKey → Bool)
    (s : ClientConnections) (c : TcpConnectionPtr) (call : Call)
    (hu : map_find s.unvalidated_clients_ c = none) (hc : map_find s.clients_ c = none) :
    map_find (step CheckSignature s call).clients_ c = none := by
  cases call with
  | Add connection challenge =>
    simp only [step, Add]
    split
    · exact hc
    · split <;> exact hc
  | Validate connection maid signature =>
    by_cases hne : c = connection
    · subst hne
      simp only [step, Validate_absent CheckSignature s c maid signature hu]
      exact hc
    · simp only [step, Validate]
      split
      · exact hc
      · split
        · exact hc
        · split <;> (simp only; rw [map_find_emplace_ne _ _ _ _ hne]; exact hc)
  | Remove connection =>
    simp only [step, Remove]
    split <;> exact map_find_erase_none _ _ _ hc
  | FindValidated connection =>
    simp only [step, FindValidated_state]
    exact hc
  | TimerHandler connection error_code =>
    simp only [step, TimerHandler]
    split <;> exact hc

theorem steps_absent (CheckSignature : PlainText → Signature → PublicKey → Bool)
    (c : TcpConnectionPtr) (calls : List Call) :
    ∀ s : ClientConnections, map_find s.unvalidated_clients_ c = none →
      map_find s.clients_ c = none → (∀ call ∈ calls, call.adds c = false) →
      map_find (steps CheckSignature s calls).unvalidated_clients_ c = none ∧
        map_find (steps CheckSignature s calls).clients_ c = none := by
  induction calls with
  | nil =>
    intro s hu hc _
    exact ⟨hu, hc⟩
  | cons call rest ih =>
    intro s hu hc hadd
    have h1 := step_unvalidated_none CheckSignature s c call hu
      (hadd call (List.mem_cons_self _ _))
    have h2 := step_clients_none CheckSignature s c call hu hc
    exact ih (step CheckSignature s call) h1 h2
      (fun call' hmem => hadd call' (List.mem_cons_of_mem _ hmem))

theorem map_emplace_fst_of_false {V : Type} (m : List (Nat × V)) (key : Nat) (value : V)
    (h : (map_emplace m key value).2 = false) : (map_emplace m key value).1 = m := by
  unfold map_emplace at h ⊢
  split
  · rfl
  · rename_i hn
    simp [hn] at h

theorem step_disjoint (CheckSignature : PlainText → Signature → PublicKey → Bool)
    (s : ClientConnections) (call : Call) (h : Disjoint s) :
    Disjoint (step CheckSignature s call) := by
  intro x
  cases call with
  | Add connection challenge =>
    simp only [step, Add]
    split
    · exact h x
    · rename_i hc
      have hc' : map_find s.clients_ connection = none := by
        cases hf : map_find s.clients_ connection with
        | none => rfl
        | some v => simp [hf] at hc
      have key : map_find s.clients_ x = none ∨
          map_find (map_emplace s.unvalidated_clients_ connection
            (challenge, { connection := connection })).1 x = none := by
        by_cases hx : x = connection
        · subst hx
          exact Or.inl hc'
        · rw [map_find_emplace_ne _ _ _ _ hx]
          exact h x
      split <;> exact key
  | Validate connection maid signature =>
    simp only [step, Validate]
    split
    · exact h x
    · split
      · exact (h x).imp id (map_find_erase_none _ _ _)
      · split
        · simp only
          by_cases hx : x = connection
          · subst hx
            exact Or.inr (map_find_erase_self _ _)
          · rw [map_find_emplace_ne _ _ _ _ hx, map_find_erase_ne _ _ _ hx]
            exact h x
        · rename_i hr
          simp only
          rw [map_emplace_fst_of_false _ _ _ (by simpa using hr)]
          exact h x
  | Remove connection =>
    simp only [step, Remove]
    split
    · exact (h x).imp (map_find_erase_none _ _ _) id
    · exact (h x).imp (map_find_erase_none _ _ _) (map_find_erase_none _ _ _)
  | FindValidated connection =>
    simp only [step, FindValidated_state]
    exact h x
  | TimerHandler connection error_code =>
    simp only [step, TimerHandler]
    split
    · exact h x
    · exact (h x).imp id (map_find_erase_none _ _ _)

theorem steps_disjoint (CheckSignature : PlainText → Signature → PublicKey → Bool)
    (calls : List Call) :
    ∀ s : ClientConnections, Disjoint s → Disjoint (steps CheckSignature s calls) := by
  induction calls with
  | nil =>
    intro s h
    exact h
  | cons call rest ih =>
    intro s h
    exact ih (step CheckSignature s call) (step_disjoint CheckSignature s call h)

theorem empty_disjoint : Disjoint empty :=
  fun _ => Or.inl rfl

end ClientConnections

/-! ## Framing: the round trip -/

/-- C1: for a payload no longer than `MaxMessageSize` (a value below 2^32), `EncodeData`
returns a message whose four header bytes decode, by the expression of `ReadSize`, to the
payload's length, whatever the bytes' values and the signedness of `char`; and the write
that `DoSend` starts for that message consists of the four header bytes followed by the
payload unchanged, 4 + |p| bytes. -/
theorem encode_decode_round_trip (P : Platform) (p : List Nat)
    (hmax : P.MaxMessageSize < 2 ^ 32) (hp : p.length ≤ P.MaxMessageSize) :
    ∃ message, EncodeData P p = Outcome.returned message ∧
      decode_data_size message.size_buffer = p.length ∧
      message.size_buffer.length = 4 ∧
      (∀ (c : TcpConnection) (rest : List SendingMessage), c.send_queue_ = message :: rest →
        (TcpConnection.DoSend c).async_write = some (message.size_buffer ++ p)) ∧
      frame message = message.size_buffer ++ p ∧
      (frame message).length = 4 + p.length := by
  refine ⟨_, EncodeData_returned P p hp, ?_, rfl, ?_, rfl, ?_⟩
  · rw [decode_big_endian]
    exact Nat.mod_eq_of_lt (by omega)
  · intro c rest hq
    simp [TcpConnection.DoSend, hq, frame]
  · simp [frame]
    omega

/-- A payload of 33000 bytes (header bytes 0, 0, 128, 232) on a platform with signed `char`
and a limit of one mebibyte. -/
theorem encode_decode_round_trip_witness :
    ∃ message, EncodeData ⟨1048576, true⟩ (List.replicate 33000 7) = Outcome.returned message ∧
      decode_data_size message.size_buffer = (List.replicate 33000 7).length ∧
      message.size_buffer.length = 4 ∧
      (∀ (c : TcpConnection) (rest : List SendingMessage), c.send_queue_ = message :: rest →
        (TcpConnection.DoSend c).async_write =
          some (message.size_buffer ++ List.replicate 33000 7)) ∧
      frame message = message.size_buffer ++ List.replicate 33000 7 ∧
      (frame message).length = 4 + (List.replicate 33000 7).length :=
  encode_decode_round_trip ⟨1048576, true⟩ (List.replicate 33000 7) (by norm_num)
    (by rw [List.length_replicate]; norm_num)

/-! ## The registry's state machine -/

/-- C2: for a connection in the Unvalidated state with stored challenge `challenge`,
`Validate` returns normally if and only if `CheckSignature` accepts the presented signature
for that stored challenge under the presented key. -/
theorem Validate_returns_iff_signature_verifies
    (CheckSignature : PlainText → Signature → PublicKey → Bool) (s : ClientConnections)
    (c : TcpConnectionPtr) (challenge : PlainText) (maid : PublicMaid) (signature : Signature)
    (h : ClientConnections.Unvalidated s c challenge) :
    (ClientConnections.Validate CheckSignature s c maid signature).1 = Outcome.returned () ↔
      CheckSignature challenge signature maid.public_key = true := by
  rw [ClientConnections.Validate_of_unvalidated CheckSignature s c challenge maid signature h]
  cases CheckSignature challenge signature maid.public_key <;> simp

/-- Connection 7 holds challenge 41; the check accepts a signature equal to challenge plus
key. The signature 46 for key 5 is accepted, and `Validate` returns. -/
theorem Validate_returns_iff_signature_verifies_witness :
    (ClientConnections.Validate (fun text signature key => decide (signature = text + key))
        { unvalidated_clients_ := [(7, (41, { connection := 7 }))], clients_ := [(3, 30)] }
        7 { name := 50, public_key := 5 } 46).1 = Outcome.returned () ↔
      (fun text signature key => decide (signature = text + key)) 41 46 5 = true :=
  Validate_returns_iff_signature_verifies
    (fun text signature key => decide (signature = text + key))
    { unvalidated_clients_ := [(7, (41, { connection := 7 }))], clients_ := [(3, 30)] }
    7 41 { name := 50, public_key := 5 } 46 (by decide)

/-- C3: `FindValidated` returns the stored name of a connection that is in `clients_`,
throws `unvalidated_client` for one that is in `unvalidated_clients_` only, and throws
`connection_not_found` for one in neither map; the registry is the same afterwards in all
three cases. -/
theorem FindValidated_cases (s : ClientConnections) (c : TcpConnectionPtr) :
    (∀ name, map_find s.clients_ c = some name →
      ClientConnections.FindValidated s c = (Outcome.returned name, s)) ∧
    (map_find s.clients_ c = none → (map_find s.unvalidated_clients_ c).isSome = true →
      ClientConnections.FindValidated s c = (Outcome.threw Error.unvalidated_client, s)) ∧
    (map_find s.clients_ c = none → map_find s.unvalidated_clients_ c = none →
      ClientConnections.FindValidated s c = (Outcome.threw Error.connection_not_found, s)) := by
  refine ⟨?_, ?_, ?_⟩
  · intro name h
    simp [ClientConnections.FindValidated, h]
  · intro hc hu
    cases hf : map_find s.unvalidated_clients_ c with
    | none => simp [hf] at hu
    | some entry => simp [ClientConnections.FindValidated, hc, hf]
  · intro hc hu
    exact ClientConnections.FindValidated_absent s c hu hc

/-- C4: when `Validate` returns normally, the connection has no entry in
`unvalidated_clients_` any more (challenge and timer are gone), it is in `clients_` under
`maid.name()`, `FindValidated` returns that name, and the entries of every other
connection in both maps are as before. -/
theorem Validate_success_moves_entry
    (CheckSignature : PlainText → Signature → PublicKey → Bool) (s : ClientConnections)
    (c : TcpConnectionPtr) (maid : PublicMaid) (signature : Signature)
    (h : (ClientConnections.Validate CheckSignature s c maid signature).1
      = Outcome.returned ()) :
    map_find (ClientConnections.Validate CheckSignature s c maid signature).2.unvalidated_clients_ c
        = none ∧
      map_find (ClientConnections.Validate CheckSignature s c maid signature).2.clients_ c
        = some maid.name ∧
      ClientConnections.FindValidated
          (ClientConnections.Validate CheckSignature s c maid signature).2 c
        = (Outcome.returned maid.name,
            (ClientConnections.Validate CheckSignature s c maid signature).2) ∧
      ∀ other, other ≠ c →
        map_find (ClientConnections.Validate CheckSignature s c maid signature).2.unvalidated_clients_
            other = map_find s.unvalidated_clients_ other ∧
        map_find (ClientConnections.Validate CheckSignature s c maid signature).2.clients_ other
          = map_find s.clients_ other := by
  cases hf : map_find s.unvalidated_clients_ c with
  | none =>
    rw [ClientConnections.Validate_absent CheckSignature s c maid signature hf] at h
    cases h
  | some entry =>
    cases hc : map_find s.clients_ c with
    | some name =>
      exfalso
      cases hcs : CheckSignature entry.1 signature maid.public_key <;>
        simp [ClientConnections.Validate, hf, hcs, map_emplace, hc] at h
    | none =>
      have hun : ClientConnections.Unvalidated s c entry.1 := ⟨by simp [hf], hc⟩
      rw [ClientConnections.Validate_of_unvalidated CheckSignature s c entry.1 maid signature
        hun] at h ⊢
      cases hcs : CheckSignature entry.1 signature maid.public_key
      · simp [hcs] at h
      · simp only [if_true]
        have hfind : map_find (s.clients_ ++ [(c, maid.name)]) c = some maid.name :=
          (map_find_emplace_self s.clients_ c maid.name hc).2
        refine ⟨map_find_erase_self _ _, hfind, ?_, ?_⟩
        · simp [ClientConnections.FindValidated, hfind]
        · intro other hne
          refine ⟨map_find_erase_ne _ _ _ hne, ?_⟩
          have := map_find_emplace_ne s.clients_ c other maid.name hne
          simpa [map_emplace, hc] using this

/-- Connection 7 (challenge 41) is validated for the maid named 50; connection 8 stays
unvalidated and connection 3 stays validated. -/
theorem Validate_success_moves_entry_witness :
    ClientConnections.Validate (fun text signature key => decide (signature = text + key))
        { unvalidated_clients_ := [(7, (41, { connection := 7 })), (8, (42, { connection := 8 }))],
          clients_ := [(3, 30)] }
        7 { name := 50, public_key := 5 } 46
      = (Outcome.returned (),
          { unvalidated_clients_ := [(8, (42, { connection := 8 }))],
            clients_ := [(3, 30), (7, 50)] }) ∧
    ClientConnections.FindValidated
        { unvalidated_clients_ := [(8, (42, { connection := 8 }))],
          clients_ := [(3, 30), (7, 50)] } 7
      = (Outcome.returned 50,
          { unvalidated_clients_ := [(8, (42, { connection := 8 }))],
            clients_ := [(3, 30), (7, 50)] }) :=
  ⟨by decide,
    (Validate_success_moves_entry (fun text signature key => decide (signature = text + key))
      { unvalidated_clients_ := [(7, (41, { connection := 7 })), (8, (42, { connection := 8 }))],
        clients_ := [(3, 30)] }
      7 { name := 50, public_key := 5 } 46 (by decide)).2.2.1⟩

/-- C5: `Validate` on a connection in the Unvalidated state with a signature that does not
verify throws `invalid_signature` and leaves the connection in neither map; after that
`FindValidated` and `Validate` on it, with any maid and any signature (a verifying one
included), throw `connection_not_found`. -/
theorem Validate_failure_removes_connection
    (CheckSignature : PlainText → Signature → PublicKey → Bool) (s : ClientConnections)
    (c : TcpConnectionPtr) (challenge : PlainText) (maid : PublicMaid) (signature : Signature)
    (h : ClientConnections.Unvalidated s c challenge)
    (hbad : CheckSignature challenge signature maid.public_key = false) :
    (ClientConnections.Validate CheckSignature s c maid signature).1
        = Outcome.threw Error.invalid_signature ∧
      map_find (ClientConnections.Validate CheckSignature s c maid signature).2.unvalidated_clients_
          c = none ∧
      map_find (ClientConnections.Validate CheckSignature s c maid signature).2.clients_ c
        = none ∧
      ClientConnections.FindValidated
          (ClientConnections.Validate CheckSignature s c maid signature).2 c
        = (Outcome.threw Error.connection_not_found,
            (ClientConnections.Validate CheckSignature s c maid signature).2) ∧
      ∀ (maid2 : PublicMaid) (signature2 : Signature),
        ClientConnections.Validate CheckSignature
            (ClientConnections.Validate CheckSignature s c maid signature).2 c maid2 signature2
          = (Outcome.threw Error.connection_not_found,
              (ClientConnections.Validate CheckSignature s c maid signature).2) := by
  rw [ClientConnections.Validate_of_unvalidated CheckSignature s c challenge maid signature h,
    hbad]
  simp only [Bool.false_eq_true, if_false]
  have hu : map_find (map_erase s.unvalidated_clients_ c).1 c = none := map_find_erase_self _ _
  refine ⟨trivial, hu, h.2, ?_, ?_⟩
  · exact ClientConnections.FindValidated_absent _ c hu h.2
  · intro maid2 signature2
    exact ClientConnections.Validate_absent CheckSignature _ c maid2 signature2 hu

/-- Connection 7 (challenge 41) presents the signature 99, which is not 41 + 5: it is
removed, and the verifying signature 46 presented afterwards finds no connection. -/
theorem Validate_failure_removes_connection_witness :
    ClientConnections.Validate (fun text signature key => decide (signature = text + key))
        { unvalidated_clients_ := [(7, (41, { connection := 7 }))], clients_ := [(3, 30)] }
        7 { name := 50, public_key := 5 } 99
      = (Outcome.threw Error.invalid_signature,
          { unvalidated_clients_ := [], clients_ := [(3, 30)] }) ∧
    ClientConnections.Validate (fun text signature key => decide (signature = text + key))
        (ClientConnections.Validate (fun text signature key => decide (signature = text + key))
          { unvalidated_clients_ := [(7, (41, { connection := 7 }))], clients_ := [(3, 30)] }
          7 { name := 50, public_key := 5 } 99).2
        7 { name := 50, public_key := 5 } 46
      = (Outcome.threw Error.connection_not_found,
          (ClientConnections.Validate (fun text signature key => decide (signature = text + key))
            { unvalidated_clients_ := [(7, (41, { connection := 7 }))], clients_ := [(3, 30)] }
            7 { name := 50, public_key := 5 } 99).2) :=
  ⟨by decide,
    (Validate_failure_removes_connection
      (fun text signature key => decide (signature = text + key))
      { unvalidated_clients_ := [(7, (41, { connection := 7 }))], clients_ := [(3, 30)] }
      7 41 { name := 50, public_key := 5 } 99 (by decide) (by decide)).2.2.2.2
      { name := 50, public_key := 5 } 46⟩

/-- C6: when the wait handler of the timer of a connection in the Unvalidated state runs with
anything but `operation_aborted`, the connection leaves `unvalidated_clients_`; and after
any further steps of the registry, short of adding that connection anew, `FindValidated`
and `Validate` on it throw `connection_not_found`. -/
theorem timer_expiry_removes_connection
    (CheckSignature : PlainText → Signature → PublicKey → Bool) (s : ClientConnections)
    (c : TcpConnectionPtr) (challenge : PlainText) (error_code : ErrorCode)
    (calls : List ClientConnections.Call) (maid : PublicMaid) (signature : Signature)
    (h : ClientConnections.Unvalidated s c challenge)
    (hec : error_code ≠ ErrorCode.operation_aborted)
    (hadd : ∀ call ∈ calls, call.adds c = false) :
    map_find (ClientConnections.TimerHandler s c error_code).unvalidated_clients_ c = none ∧
      ClientConnections.FindValidated
          (ClientConnections.steps CheckSignature
            (ClientConnections.TimerHandler s c error_code) calls) c
        = (Outcome.threw Error.connection_not_found,
            ClientConnections.steps CheckSignature
              (ClientConnections.TimerHandler s c error_code) calls) ∧
      ClientConnections.Validate CheckSignature
          (ClientConnections.steps CheckSignature
            (ClientConnections.TimerHandler s c error_code) calls) c maid signature
        = (Outcome.threw Error.connection_not_found,
            ClientConnections.steps CheckSignature
              (ClientConnections.TimerHandler s c error_code) calls) := by
  have hstate : ClientConnections.TimerHandler s c error_code
      = { s with unvalidated_clients_ := (map_erase s.unvalidated_clients_ c).1 } := by
    simp [ClientConnections.TimerHandler, hec]
  have hu : map_find (ClientConnections.TimerHandler s c error_code).unvalidated_clients_ c
      = none := by
    rw [hstate]
    exact map_find_erase_self _ _
  have hc : map_find (ClientConnections.TimerHandler s c error_code).clients_ c = none := by
    rw [hstate]
    exact h.2
  obtain ⟨hu2, hc2⟩ := ClientConnections.steps_absent CheckSignature c calls _ hu hc hadd
  exact ⟨hu, ClientConnections.FindValidated_absent _ c hu2 hc2,
    ClientConnections.Validate_absent CheckSignature _ c maid signature hu2⟩

/-- The timer of connection 7 expires; connection 8 is then added and validated and
connection 3 removed; a verifying signature for connection 7 finds no connection. -/
theorem timer_expiry_removes_connection_witness :
    map_find (ClientConnections.TimerHandler
        { unvalidated_clients_ := [(7, (41, { connection := 7 }))], clients_ := [(3, 30)] }
        7 ErrorCode.success).unvalidated_clients_ 7 = none ∧
      ClientConnections.Validate (fun text signature key => decide (signature = text + key))
          (ClientConnections.steps (fun text signature key => decide (signature = text + key))
            (ClientConnections.TimerHandler
              { unvalidated_clients_ := [(7, (41, { connection := 7 }))], clients_ := [(3, 30)] }
              7 ErrorCode.success)
            [ClientConnections.Call.Add 8 42,
              ClientConnections.Call.Validate 8 { name := 60, public_key := 6 } 48,
              ClientConnections.Call.Remove 3])
          7 { name := 50, public_key := 5 } 46
        = (Outcome.threw Error.connection_not_found,
            { unvalidated_clients_ := [], clients_ := [(8, 60)] }) :=
  ⟨by decide,
    (timer_expiry_removes_connection (fun text signature key => decide (signature = text + key))
      { unvalidated_clients_ := [(7, (41, { connection := 7 }))], clients_ := [(3, 30)] }
      7 41 ErrorCode.success
      [ClientConnections.Call.Add 8 42,
        ClientConnections.Call.Validate 8 { name := 60, public_key := 6 } 48,
        ClientConnections.Call.Remove 3]
      { name := 50, public_key := 5 } 46 (by decide) (by decide) (by decide)).2.2.trans
      (by decide)⟩

/-- C7: on a registry in which the connection is not in both maps at once, `Remove` returns
true exactly when the connection was in one of the maps, leaves it in neither, and leaves
the entries of every other connection as they were; a second `Remove` returns false and
does not change the registry. -/
theorem Remove_idempotent (s : ClientConnections) (c : TcpConnectionPtr)
    (h : map_find s.clients_ c = none ∨ map_find s.unvalidated_clients_ c = none) :
    ((ClientConnections.Remove s c).1 = true ↔
        ((map_find s.clients_ c).isSome = true ∨
          (map_find s.unvalidated_clients_ c).isSome = true)) ∧
      map_find (ClientConnections.Remove s c).2.clients_ c = none ∧
      map_find (ClientConnections.Remove s c).2.unvalidated_clients_ c = none ∧
      ClientConnections.Remove (ClientConnections.Remove s c).2 c
        = (false, (ClientConnections.Remove s c).2) ∧
      ∀ other, other ≠ c →
        map_find (ClientConnections.Remove s c).2.clients_ other = map_find s.clients_ other ∧
        map_find (ClientConnections.Remove s c).2.unvalidated_clients_ other
          = map_find s.unvalidated_clients_ other := by
  have hab : ∀ t : ClientConnections, map_find t.clients_ c = none →
      map_find t.unvalidated_clients_ c = none → ClientConnections.Remove t c = (false, t) := by
    intro t h1 h2
    simp [ClientConnections.Remove, map_erase_absent _ _ h1, map_erase_absent _ _ h2]
  cases hc : map_find s.clients_ c with
  | some name =>
    have hu : map_find s.unvalidated_clients_ c = none := by
      rcases h with h | h
      · rw [hc] at h
        cases h
      · exact h
    have hr : ClientConnections.Remove s c
        = (true, { s with clients_ := (map_erase s.clients_ c).1 }) := by
      simp [ClientConnections.Remove, map_erase, hc]
    rw [hr]
    refine ⟨by simp, map_find_erase_self _ _, hu, ?_, ?_⟩
    · exact hab _ (map_find_erase_self _ _) hu
    · intro other hne
      exact ⟨map_find_erase_ne _ _ _ hne, rfl⟩
  | none =>
    have hr : ClientConnections.Remove s c
        = (decide ((map_erase s.unvalidated_clients_ c).2 = 1),
            { s with unvalidated_clients_ := (map_erase s.unvalidated_clients_ c).1 }) := by
      simp [ClientConnections.Remove, map_erase_absent _ _ hc]
    rw [hr]
    refine ⟨?_, hc, map_find_erase_self _ _, ?_, ?_⟩
    · cases hu : map_find s.unvalidated_clients_ c <;> simp [map_erase, hu]
    · exact hab _ hc (map_find_erase_self _ _)
    · intro other hne
      exact ⟨rfl, map_find_erase_ne _ _ _ hne⟩

/-- Removing the validated connection 3 gives true and keeps connection 7; removing it
again gives false and the same registry. -/
theorem Remove_idempotent_witness :
    ClientConnections.Remove
        { unvalidated_clients_ := [(7, (41, { connection := 7 }))], clients_ := [(3, 30)] } 3
      = (true, { unvalidated_clients_ := [(7, (41, { connection := 7 }))], clients_ := [] }) ∧
    ClientConnections.Remove (ClientConnections.Remove
        { unvalidated_clients_ := [(7, (41, { connection := 7 }))], clients_ := [(3, 30)] } 3).2 3
      = (false, (ClientConnections.Remove
        { unvalidated_clients_ := [(7, (41, { connection := 7 }))], clients_ := [(3, 30)] } 3).2) :=
  ⟨by decide,
    (Remove_idempotent
      { unvalidated_clients_ := [(7, (41, { connection := 7 }))], clients_ := [(3, 30)] } 3
      (by decide)).2.2.2.1⟩

/-! ## Framing: header layout and size limits -/

/-- C8: when `EncodeData` accepts a payload, header byte `i` is `(|p| >> 8*(3-i)) mod 256`
for `i = 0..3`, the four bytes read most significant first are the length modulo 2^32,
and the message's data is the payload itself. -/
theorem EncodeData_big_endian_header (P : Platform) (p : List Nat) (message : SendingMessage)
    (h : EncodeData P p = Outcome.returned message) :
    message.size_buffer.length = 4 ∧
      (∀ i, i < 4 → message.size_buffer.getD i 0 = (p.length >>> (8 * (3 - i))) % 256) ∧
      message.size_buffer.getD 0 0 * 2 ^ 24 + message.size_buffer.getD 1 0 * 2 ^ 16 +
        message.size_buffer.getD 2 0 * 2 ^ 8 + message.size_buffer.getD 3 0
          = p.length % 2 ^ 32 ∧
      message.data = p := by
  have hle : p.length ≤ P.MaxMessageSize := by
    by_contra hgt
    rw [EncodeData_threw P p (by omega)] at h
    cases h
  rw [EncodeData_returned P p hle] at h
  cases h
  refine ⟨rfl, ?_, ?_, rfl⟩
  · intro i hi
    interval_cases i <;> simp
  · simp only [List.getD_cons_zero, List.getD_cons_succ, Nat.shiftRight_eq_div_pow]
    omega

/-- A payload of 300 bytes: header bytes 0, 0, 1, 44. -/
theorem EncodeData_big_endian_header_witness :
    ({ size_buffer := [0, 0, 1, 44], data := List.replicate 300 0 } : SendingMessage).size_buffer.length = 4 ∧
      (∀ i, i < 4 → [0, 0, 1, 44].getD i 0 = ((List.replicate 300 0).length >>> (8 * (3 - i))) % 256) ∧
      [0, 0, 1, 44].getD 0 0 * 2 ^ 24 + [0, 0, 1, 44].getD 1 0 * 2 ^ 16 +
        [0, 0, 1, 44].getD 2 0 * 2 ^ 8 + [0, 0, 1, 44].getD 3 0
          = (List.replicate 300 0).length % 2 ^ 32 ∧
      (List.replicate 300 0 : List Nat) = List.replicate 300 0 :=
  EncodeData_big_endian_header ⟨1024, false⟩ (List.replicate 300 0)
    { size_buffer := [0, 0, 1, 44], data := List.replicate 300 0 }
    (by
      rw [EncodeData_returned _ _ (by rw [List.length_replicate]; norm_num)]
      simp only [List.length_replicate]
      rfl)

/-- C9: the completion handler of `ReadSize`, run without error on four header bytes, on a
connection whose socket is closed if `Close` has run before. If the decoded size exceeds
`MaxMessageSize`, the handler returns with the close flag set and the socket closed
(`is_open_` is false too, unless `Close` had run earlier and `is_open_` was set since), the
body buffer empty, no read outstanding and no call of `on_message_received_` posted. If the
size is at most `MaxMessageSize`, zero included, the body buffer has exactly that many bytes,
the read of the body is outstanding and nothing is closed or posted. -/
theorem ReadSizeHandler_size_limit (P : Platform) (c : TcpConnection)
    (hinv : c.socket_close_flag_ = true → c.socket_ = false) :
    (P.MaxMessageSize < decode_data_size c.receiving_message_.size_buffer →
      (TcpConnection.ReadSizeHandler P c ErrorCode.success 4).1 = Outcome.returned () ∧
      (TcpConnection.ReadSizeHandler P c ErrorCode.success 4).2.socket_close_flag_ = true ∧
      (TcpConnection.ReadSizeHandler P c ErrorCode.success 4).2.socket_ = false ∧
      (TcpConnection.ReadSizeHandler P c ErrorCode.success 4).2.is_open_
        = (c.socket_close_flag_ && c.is_open_) ∧
      (TcpConnection.ReadSizeHandler P c ErrorCode.success 4).2.receiving_message_.data_buffer
        = [] ∧
      (TcpConnection.ReadSizeHandler P c ErrorCode.success 4).2.async_read = none ∧
      (TcpConnection.ReadSizeHandler P c ErrorCode.success 4).2.posted_messages
        = c.posted_messages) ∧
    (decode_data_size c.receiving_message_.size_buffer ≤ P.MaxMessageSize →
      (TcpConnection.ReadSizeHandler P c ErrorCode.success 4).1 = Outcome.returned () ∧
      (TcpConnection.ReadSizeHandler P c ErrorCode.success 4).2.receiving_message_.data_buffer.length
        = decode_data_size c.receiving_message_.size_buffer ∧
      (TcpConnection.ReadSizeHandler P c ErrorCode.success 4).2.async_read
        = some ReadTarget.data_buffer ∧
      (TcpConnection.ReadSizeHandler P c ErrorCode.success 4).2.socket_close_flag_
        = c.socket_close_flag_ ∧
      (TcpConnection.ReadSizeHandler P c ErrorCode.success 4).2.socket_ = c.socket_ ∧
      (TcpConnection.ReadSizeHandler P c ErrorCode.success 4).2.is_open_ = c.is_open_ ∧
      (TcpConnection.ReadSizeHandler P c ErrorCode.success 4).2.posted_messages
        = c.posted_messages) := by
  constructor
  · intro h
    cases hflag : c.socket_close_flag_
    · simp [TcpConnection.ReadSizeHandler, TcpConnection.Close, h, hflag]
    · simp [TcpConnection.ReadSizeHandler, TcpConnection.Close, h, hflag, hinv hflag]
  · intro h
    have hn : ¬ P.MaxMessageSize < decode_data_size c.receiving_message_.size_buffer := by omega
    simp only [TcpConnection.ReadSizeHandler, TcpConnection.ReadData, TcpConnection.resize, hn]
    simp
    omega

/-- With a limit of one mebibyte, the header 0, 16, 0, 1 (one byte over the limit) closes the
socket and starts no read; the header 0, 0, 0, 0 empties the body buffer and starts the
body read. -/
theorem ReadSizeHandler_size_limit_witness :
    ((TcpConnection.ReadSizeHandler ⟨1048576, true⟩ (TcpConnection.started [0, 16, 0, 1] [9, 9])
        ErrorCode.success 4).2.socket_ = false ∧
      (TcpConnection.ReadSizeHandler ⟨1048576, true⟩ (TcpConnection.started [0, 16, 0, 1] [9, 9])
        ErrorCode.success 4).2.async_read = none) ∧
    ((TcpConnection.ReadSizeHandler ⟨1048576, true⟩ (TcpConnection.started [0, 0, 0, 0] [9, 9])
        ErrorCode.success 4).2.receiving_message_.data_buffer.length
        = decode_data_size (TcpConnection.started [0, 0, 0, 0] [9, 9]).receiving_message_.size_buffer ∧
      (TcpConnection.ReadSizeHandler ⟨1048576, true⟩ (TcpConnection.started [0, 0, 0, 0] [9, 9])
        ErrorCode.success 4).2.async_read = some ReadTarget.data_buffer) :=
  ⟨⟨((ReadSizeHandler_size_limit ⟨1048576, true⟩ (TcpConnection.started [0, 16, 0, 1] [9, 9])
        (by decide)).1 (by decide)).2.2.1,
     ((ReadSizeHandler_size_limit ⟨1048576, true⟩ (TcpConnection.started [0, 16, 0, 1] [9, 9])
        (by decide)).1 (by decide)).2.2.2.2.2.1⟩,
   ⟨((ReadSizeHandler_size_limit ⟨1048576, true⟩ (TcpConnection.started [0, 0, 0, 0] [9, 9])
        (by decide)).2 (by decide)).2.1,
     ((ReadSizeHandler_size_limit ⟨1048576, true⟩ (TcpConnection.started [0, 0, 0, 0] [9, 9])
        (by decide)).2 (by decide)).2.2.1⟩⟩

/-- C10: `EncodeData` throws `invalid_string_size` exactly when the payload is longer than
`MaxMessageSize`; `Send` of such a payload throws and leaves the connection, its send queue
and the posted handlers included, as it was; a payload of exactly `MaxMessageSize` bytes
is encoded and its `Send` returns. -/
theorem EncodeData_throws_iff_oversize (P : Platform) (p : List Nat) :
    (EncodeData P p = Outcome.threw Error.invalid_string_size ↔ P.MaxMessageSize < p.length) ∧
      (P.MaxMessageSize < p.length →
        ∀ c : TcpConnection, TcpConnection.Send P c p = (Outcome.threw Error.invalid_string_size, c)) ∧
      (p.length = P.MaxMessageSize →
        (∃ message, EncodeData P p = Outcome.returned message) ∧
        ∀ c : TcpConnection, (TcpConnection.Send P c p).1 = Outcome.returned () ∧
          (TcpConnection.Send P c p).2.send_queue_ = c.send_queue_) := by
  refine ⟨⟨?_, EncodeData_threw P p⟩, ?_, ?_⟩
  · intro h
    by_contra hle
    rw [EncodeData_returned P p (by omega)] at h
    cases h
  · intro h c
    simp [TcpConnection.Send, EncodeData_threw P p h]
  · intro h
    refine ⟨⟨_, EncodeData_returned P p (by omega)⟩, ?_⟩
    intro c
    simp [TcpConnection.Send, EncodeData_returned P p (Nat.le_of_eq h)]

/-! ## The send queue -/

namespace SendPath

theorem idle_consistent : Consistent idle := rfl

theorem step_consistent (s : SendPath) (st : Step) (h : Consistent s) :
    Consistent (step s st) ∧
      (step s st).written ++ (step s st).send_queue_.map frame
        = s.written ++ s.send_queue_.map frame ++ (enqueued [st]).map frame := by
  unfold Consistent at h ⊢
  obtain ⟨queue, flight, written⟩ := s
  simp only at h
  subst h
  cases st with
  | handler_runs message =>
    cases queue with
    | nil => simp [step, SendHandler, DoSend, enqueued]
    | cons first rest => simp [step, SendHandler, DoSend, enqueued]
  | write_completes =>
    cases queue with
    | nil => simp [step, WriteHandler, enqueued]
    | cons first rest =>
      cases rest with
      | nil => simp [step, WriteHandler, DoSend, enqueued]
      | cons second rest => simp [step, WriteHandler, DoSend, enqueued]

theorem enqueued_append (xs ys : List Step) : enqueued (xs ++ ys) = enqueued xs ++ enqueued ys := by
  induction xs with
  | nil => rfl
  | cons x rest ih =>
    cases x with
    | handler_runs message => simp [enqueued, ih]
    | write_completes => simp [enqueued, ih]

theorem run_consistent (steps : List Step) :
    ∀ s : SendPath, Consistent s →
      Consistent (run s steps) ∧
        (run s steps).written ++ (run s steps).send_queue_.map frame
          = s.written ++ s.send_queue_.map frame ++ (enqueued steps).map frame := by
  induction steps with
  | nil =>
    intro s h
    exact ⟨h, by simp [run, enqueued]⟩
  | cons st rest ih =>
    intro s h
    obtain ⟨h1, h2⟩ := step_consistent s st h
    obtain ⟨h3, h4⟩ := ih (step s st) h1
    refine ⟨h3, ?_⟩
    have he : enqueued (st :: rest) = enqueued [st] ++ enqueued rest :=
      enqueued_append [st] rest
    simp only [run, List.foldl_cons] at h3 h4 ⊢
    rw [h4, h2, he]
    simp

theorem drain (n : Nat) :
    ∀ s : SendPath, Consistent s → s.send_queue_.length = n →
      (run s (List.replicate n Step.write_completes)).send_queue_ = [] ∧
        (run s (List.replicate n Step.write_completes)).written
          = s.written ++ s.send_queue_.map frame := by
  induction n with
  | zero =>
    intro s _ hlen
    have hq : s.send_queue_ = [] := List.length_eq_zero.mp hlen
    simp [run, hq]
  | succ n ih =>
    intro s h hlen
    obtain ⟨h1, h2⟩ := step_consistent s Step.write_completes h
    have hlen' : (step s Step.write_completes).send_queue_.length = n := by
      unfold Consistent at h
      obtain ⟨queue, flight, written⟩ := s
      simp only at h hlen
      subst h
      cases queue with
      | nil => simp at hlen
      | cons first rest =>
        cases rest with
        | nil =>
          simp at hlen
          simp [step, WriteHandler, hlen.symm]
        | cons second rest =>
          simp at hlen
          simp [step, WriteHandler, DoSend]
          omega
    obtain ⟨h3, h4⟩ := ih (step s Step.write_completes) h1 hlen'
    simp only [List.replicate_succ, run, List.foldl_cons] at h3 h4 ⊢
    refine ⟨h3, ?_⟩
    rw [h4, h2]
    simp [enqueued]

end SendPath

/-- C11: in every state the send path reaches from an idle connection by runs of posted
`Send` handlers and error-free write completions, at most one write is outstanding; one is
outstanding exactly when the queue is not empty, and it is the write of the frame at the
front; the frames written so far followed by the frames still queued are the frames of
the enqueued messages in the order their handlers ran; and once the writes of the queued
messages have completed, the frames written are exactly those, each once, in that order. -/
theorem send_queue_single_writer_in_order (steps : List SendPath.Step) :
    (SendPath.run SendPath.idle steps).writes_in_flight.length ≤ 1 ∧
      ((SendPath.run SendPath.idle steps).writes_in_flight ≠ [] ↔
        (SendPath.run SendPath.idle steps).send_queue_ ≠ []) ∧
      (SendPath.run SendPath.idle steps).writes_in_flight
        = ((SendPath.run SendPath.idle steps).send_queue_.head?.map frame).toList ∧
      (SendPath.run SendPath.idle steps).written
          ++ (SendPath.run SendPath.idle steps).send_queue_.map frame
        = (SendPath.enqueued steps).map frame ∧
      (SendPath.run (SendPath.run SendPath.idle steps)
          (List.replicate (SendPath.run SendPath.idle steps).send_queue_.length
            SendPath.Step.write_completes)).written
        = (SendPath.enqueued steps).map frame := by
  obtain ⟨h1, h2⟩ := SendPath.run_consistent steps SendPath.idle SendPath.idle_consistent
  obtain ⟨_, h4⟩ := SendPath.drain _ (SendPath.run SendPath.idle steps) h1 rfl
  have h2' : (SendPath.run SendPath.idle steps).written
      ++ (SendPath.run SendPath.idle steps).send_queue_.map frame
        = (SendPath.enqueued steps).map frame := by
    rw [h2]
    simp [SendPath.idle]
  have h1' := h1
  unfold SendPath.Consistent at h1'
  refine ⟨?_, ?_, h1', h2', ?_⟩
  · rw [h1']
    cases (SendPath.run SendPath.idle steps).send_queue_ <;> simp
  · rw [h1']
    cases (SendPath.run SendPath.idle steps).send_queue_ <;> simp
  · rw [h4, h2']

/-! ## Closing a connection -/

namespace TcpConnection

theorem Close_flag (c : TcpConnection) : (Close c).socket_close_flag_ = true := by
  unfold Close
  split
  · assumption
  · rfl

theorem Close_of_flag (c : TcpConnection) (h : c.socket_close_flag_ = true) : Close c = c := by
  simp [Close, h]

theorem next_flag (P : Platform) (c : TcpConnection) (event : Event)
    (h : c.socket_close_flag_ = true) : (next P c event).socket_close_flag_ = true := by
  cases event with
  | Start f g =>
    simp only [next, Start]
    split <;> simpa [ReadSize] using h
  | Send data =>
    simp only [next, Send]
    split <;> simpa using h
  | Close => exact Close_flag c
  | SendHandler =>
    simp only [next, SendHandler]
    split
    · exact h
    · simp only [DoSend]
      split
      · split <;> simpa using h
      · simpa using h
  | ReadSizeHandler ec n =>
    simp only [next, ReadSizeHandler]
    split
    · exact Close_flag _
    · split
      · simpa using h
      · split
        · exact Close_flag _
        · simpa [ReadData] using h
  | ReadDataHandler ec n =>
    simp only [next, ReadDataHandler]
    split
    · exact Close_flag _
    · split
      · simpa using h
      · simpa [ReadSize] using h
  | DoSendHandler ec n =>
    simp only [next, DoSendHandler]
    split
    · exact Close_flag _
    · split
      · simpa using h
      · split
        · simpa using h
        · simp only [DoSend]
          split
          · split <;> simpa using h
          · simpa using h

end TcpConnection

end vault_manager

namespace priv

namespace process_management

namespace ClientController

/-! ## The port scan -/

theorem port_increment_port_before (port : Nat) (h : port < 65536) :
    port_increment (port_before port) = port := by
  unfold port_increment port_before
  omega

theorem ConnectLoop_done (Connect : Nat → Nat → Bool) (kMaxPort fuel port : Nat)
    (attempts : List Nat) (result : Bool) (h : result = true ∨ port = kMaxPort) :
    ConnectLoop Connect kMaxPort (fuel + 1) port attempts result
      = some (result, port, attempts) := by
  simp only [ConnectLoop]
  cases result
  · rcases h with h | h
    · cases h
    · simp [h]
  · simp

theorem ConnectLoop_next (Connect : Nat → Nat → Bool) (kMaxPort fuel port : Nat)
    (attempts : List Nat) (h : port ≠ kMaxPort) :
    ConnectLoop Connect kMaxPort (fuel + 1) port attempts false
      = ConnectLoop Connect kMaxPort fuel (port_increment port)
          (attempts ++ [port_increment port])
          (Connect attempts.length (port_increment port)) := by
  simp only [ConnectLoop]
  simp [h]

theorem ConnectLoop_scan (Connect : Nat → Nat → Bool) (kMinPort kMaxPort : Nat)
    (hmax : kMaxPort < 65536) :
    ∀ (d fuel j : Nat) (result : Bool), kMinPort + j + d = kMaxPort → d < fuel →
      result = Connect j (kMinPort + j) →
      (∀ i, i < j → Connect i (kMinPort + i) = false) →
      ∃ k, j ≤ k ∧ kMinPort + k ≤ kMaxPort ∧
        ConnectLoop Connect kMaxPort fuel (kMinPort + j) (List.range' kMinPort (j + 1)) result
          = some (Connect k (kMinPort + k), kMinPort + k, List.range' kMinPort (k + 1)) ∧
        (∀ i, i < k → Connect i (kMinPort + i) = false) ∧
        (Connect k (kMinPort + k) = false → kMinPort + k = kMaxPort) := by
  intro d
  induction d with
  | zero =>
    intro fuel j result hd hfuel hres hprev
    obtain ⟨fuel, rfl⟩ : ∃ f, fuel = f + 1 := ⟨fuel - 1, by omega⟩
    refine ⟨j, le_refl _, by omega, ?_, hprev, fun _ => by omega⟩
    rw [ConnectLoop_done Connect kMaxPort fuel _ _ result (Or.inr (by omega)), hres]
  | succ d ih =>
    intro fuel j result hd hfuel hres hprev
    obtain ⟨fuel, rfl⟩ : ∃ f, fuel = f + 1 := ⟨fuel - 1, by omega⟩
    cases hr : result
    · have hne : ¬ kMinPort + j = kMaxPort := by omega
      have hinc : port_increment (kMinPort + j) = kMinPort + (j + 1) := by
        unfold port_increment
        omega
      have hprev' : ∀ i, i < j + 1 → Connect i (kMinPort + i) = false := by
        intro i hi
        by_cases hij : i = j
        · subst hij
          rw [← hres, hr]
        · exact hprev i (by omega)
      obtain ⟨k, hjk, hk, hloop, hall, hlast⟩ :=
        ih fuel (j + 1) (Connect (j + 1) (kMinPort + (j + 1))) (by omega) (by omega) rfl hprev'
      refine ⟨k, by omega, hk, ?_, hall, hlast⟩
      have hcat : List.range' kMinPort (j + 1) ++ [kMinPort + (j + 1)]
          = List.range' kMinPort (j + 1 + 1) := by
        rw [List.range'_concat kMinPort (j + 1), Nat.one_mul]
      rw [ConnectLoop_next Connect kMaxPort fuel _ _ hne, hinc, List.length_range', hcat]
      exact hloop
    · refine ⟨j, le_refl _, by omega, ?_, hprev, ?_⟩
      · rw [ConnectLoop_done Connect kMaxPort fuel _ _ true (Or.inl rfl), hres.symm.trans hr]
      · intro hc
        rw [← hres, hr] at hc
        cases hc

/-- C13: with `kMinPort <= kMaxPort` (both 16-bit) and `invigilator_port_` as the constructor
sets it, `ConnectToInvigilator` given at least `kMaxPort - kMinPort + 1` rounds of its loop
ends, having tried exactly the ports `kMinPort, kMinPort + 1, ..., kMinPort + k` in this
order, where `kMinPort + k <= kMaxPort`; every attempt before the last failed and
`invigilator_port_` is the last port tried; if the last attempt succeeded the scan stopped
there (the answer is then that of the registration), and if it failed, the last port is
`kMaxPort`, `kMaxPort - kMinPort + 1` attempts were made and the function returns false. -/
theorem ConnectToInvigilator_scans_ascending (I : Invigilator) (c : ClientController)
    (Connect : Nat → Nat → Bool) (registration : State) (fuel : Nat)
    (hrange : I.kMinPort ≤ I.kMaxPort) (hmax : I.kMaxPort < 65536)
    (hstart : c.invigilator_port_ = port_before I.kMinPort)
    (hfuel : I.kMaxPort - I.kMinPort < fuel) :
    ∃ k connected, I.kMinPort + k ≤ I.kMaxPort ∧
      ConnectToInvigilator I c Connect registration fuel
        = some (connected, { c with invigilator_port_ := I.kMinPort + k },
            List.range' I.kMinPort (k + 1)) ∧
      (∀ i, i < k → Connect i (I.kMinPort + i) = false) ∧
      (Connect k (I.kMinPort + k) = true →
        connected = decide (registration = State.kVerified)) ∧
      (Connect k (I.kMinPort + k) = false →
        I.kMinPort + k = I.kMaxPort ∧ connected = false ∧
          (List.range' I.kMinPort (k + 1)).length = I.kMaxPort - I.kMinPort + 1) := by
  obtain ⟨k, _, hk, hloop, hall, hlast⟩ :=
    ConnectLoop_scan Connect I.kMinPort I.kMaxPort hmax (I.kMaxPort - I.kMinPort) fuel 0
      (Connect 0 (I.kMinPort + 0)) (by omega) hfuel rfl (fun i hi => by omega)
  have hport : port_increment c.invigilator_port_ = I.kMinPort := by
    rw [hstart]
    exact port_increment_port_before _ (by omega)
  simp only [Nat.add_zero, Nat.zero_add, List.range'_one] at hloop
  cases hc : Connect k (I.kMinPort + k)
  · refine ⟨k, false, hk, ?_, hall, (fun h => by simp [hc] at h),
      (fun _ => ⟨hlast hc, rfl, ?_⟩)⟩
    · simp only [ConnectToInvigilator, hport, hloop, hc]
    · have := hlast hc
      simp only [List.length_range']
      omega
  · refine ⟨k, decide (registration = State.kVerified), hk, ?_, hall, (fun _ => rfl),
      (fun h => by simp [hc] at h)⟩
    simp only [ConnectToInvigilator, hport, hloop, hc]

/-- Ports 5 to 8 with a manager listening on port 7: the ports 5, 6, 7 are tried. -/
theorem ConnectToInvigilator_scans_ascending_witness :
    ∃ k connected, 5 + k ≤ 8 ∧
      ConnectToInvigilator ⟨5, 8, 300, 600⟩ ⟨port_before 5, 0, State.kInitialising, []⟩
          (fun _ port => decide (port = 7)) State.kVerified 4
        = some (connected,
            { (⟨port_before 5, 0, State.kInitialising, []⟩ : ClientController) with
              invigilator_port_ := 5 + k },
            List.range' 5 (k + 1)) ∧
      (∀ i, i < k → (fun _ port => decide (port = 7)) i (5 + i) = false) ∧
      ((fun _ port => decide (port = 7)) k (5 + k) = true →
        connected = decide (State.kVerified = State.kVerified)) ∧
      ((fun _ port => decide (port = 7)) k (5 + k) = false →
        5 + k = 8 ∧ connected = false ∧ (List.range' 5 (k + 1)).length = 8 - 5 + 1) :=
  ConnectToInvigilator_scans_ascending ⟨5, 8, 300, 600⟩
    ⟨port_before 5, 0, State.kInitialising, []⟩ (fun _ port => decide (port = 7))
    State.kVerified 4 (by decide) (by decide) rfl (by decide)

/-! ## The update interval -/

theorem SetOrGetUpdateInterval_result (c : ClientController) (update_interval : time_duration)
    (exchange : Exchange) :
    (SetOrGetUpdateInterval c update_interval exchange).result
      = match reported_interval c exchange with
        | some n => if n = 0 then time_duration.pos_infin else time_duration.seconds (n : Int)
        | none => time_duration.pos_infin := by
  unfold SetOrGetUpdateInterval reported_interval
  cases hs : c.state_ <;> simp
  cases exchange with
  | connect_failed => rfl
  | transport_error e => rfl
  | timed_out => rfl
  | message_received message =>
    cases message with
    | unwrap_failed => simp [HandleUpdateIntervalResponse]
    | parse_failed => simp [HandleUpdateIntervalResponse]
    | UpdateIntervalResponse n =>
      by_cases hn : n = 0
      · simp [HandleUpdateIntervalResponse, hn]
      · simp [HandleUpdateIntervalResponse, hn]

/-- C14: a duration below `kMinUpdateInterval` or above `kMaxUpdateInterval` makes
`SetUpdateInterval` return false without a run of `SetOrGetUpdateInterval`, so that no
request is built or sent. For a duration `d` inside the range it returns true exactly when
`SetOrGetUpdateInterval` returns `d`, that is, when the manager reported a non-zero
interval equal to `d`; for `d` other than zero this is: exactly when the reported interval
equals `d`. -/
theorem SetUpdateInterval_range_check (I : Invigilator) (c : ClientController) (d : Int)
    (exchange : Exchange) :
    (d < I.kMinUpdateInterval ∨ d > I.kMaxUpdateInterval →
      SetUpdateInterval I c d exchange = (false, none)) ∧
    (I.kMinUpdateInterval ≤ d → d ≤ I.kMaxUpdateInterval →
      (SetUpdateInterval I c d exchange).2
          = some (SetOrGetUpdateInterval c (time_duration.seconds d) exchange) ∧
        ((SetUpdateInterval I c d exchange).1 = true ↔
          (SetOrGetUpdateInterval c (time_duration.seconds d) exchange).result
            = time_duration.seconds d) ∧
        ((SetUpdateInterval I c d exchange).1 = true ↔
          ∃ n : Nat, reported_interval c exchange = some n ∧ n ≠ 0 ∧ (n : Int) = d) ∧
        (d ≠ 0 → ((SetUpdateInterval I c d exchange).1 = true ↔
          ∃ n : Nat, reported_interval c exchange = some n ∧ (n : Int) = d))) := by
  constructor
  · intro h
    simp [SetUpdateInterval, h]
  · intro hmin hmax
    have hin : ¬ (d < I.kMinUpdateInterval ∨ d > I.kMaxUpdateInterval) := by omega
    have hchar : (SetOrGetUpdateInterval c (time_duration.seconds d) exchange).result
          = time_duration.seconds d ↔
        ∃ n : Nat, reported_interval c exchange = some n ∧ n ≠ 0 ∧ (n : Int) = d := by
      rw [SetOrGetUpdateInterval_result]
      cases hr : reported_interval c exchange with
      | none => simp
      | some n =>
        by_cases hn : n = 0
        · simp [hn]
        · simp [hn]
    refine ⟨by simp [SetUpdateInterval, hin], ?_, ?_, ?_⟩
    · simp [SetUpdateInterval, hin]
    · rw [← hchar]
      simp [SetUpdateInterval, hin]
    · intro hd
      have h1 : (SetUpdateInterval I c d exchange).1 = true ↔
          (SetOrGetUpdateInterval c (time_duration.seconds d) exchange).result
            = time_duration.seconds d := by
        simp [SetUpdateInterval, hin]
      rw [h1, hchar]
      constructor
      · rintro ⟨n, h2, _, h3⟩
        exact ⟨n, h2, h3⟩
      · rintro ⟨n, h2, h3⟩
        refine ⟨n, h2, ?_, h3⟩
        intro hn
        subst hn
        exact hd h3.symm

/-- C15: `HandleUpdateIntervalResponse` gives the callback positive infinity for a well-formed
response whose `update_interval` is 0 and exactly `n` seconds for one whose
`update_interval` is `n` other than 0; and `GetUpdateInterval` never returns a duration of
zero seconds (nor negative infinity), whatever the state and the course of the exchange. -/
theorem update_interval_zero_is_failure (n : Nat) (c : ClientController) (exchange : Exchange) :
    HandleUpdateIntervalResponse (ReceivedMessage.UpdateIntervalResponse 0)
        = time_duration.pos_infin ∧
      (n ≠ 0 → HandleUpdateIntervalResponse (ReceivedMessage.UpdateIntervalResponse n)
        = time_duration.seconds (n : Int)) ∧
      (GetUpdateInterval c exchange).result ≠ time_duration.seconds 0 ∧
      (GetUpdateInterval c exchange).result ≠ time_duration.neg_infin := by
  refine ⟨rfl, ?_, ?_, ?_⟩
  · intro hn
    simp [HandleUpdateIntervalResponse, hn]
  · unfold GetUpdateInterval
    rw [SetOrGetUpdateInterval_result]
    cases reported_interval c exchange with
    | none => simp
    | some m =>
      by_cases hm : m = 0
      · simp [hm]
      · simp [hm]
  · unfold GetUpdateInterval
    rw [SetOrGetUpdateInterval_result]
    cases reported_interval c exchange with
    | none => simp
    | some m =>
      by_cases hm : m = 0
      · simp [hm]
      · simp [hm]

/-! ## Join confirmations -/

theorem map_find_map_assign (m : List (Nat × Bool)) (key : Nat) (value : Bool) :
    vault_manager.map_find (map_assign m key value) key = some value := by
  induction m with
  | nil => simp [map_assign, vault_manager.map_find]
  | cons e rest ih =>
    obtain ⟨k, v⟩ := e
    by_cases hk : k = key
    · simp [map_assign, vault_manager.map_find, hk]
    · simp [map_assign, vault_manager.map_find, hk, ih]

theorem StartVault_after_wait_timed_out (c : ClientController) (identity : Nat)
    (h : (StartVault_after_wait c identity).1 = false) :
    (vault_manager.map_find (StartVault_after_wait c identity).2.joining_vaults_ identity).isSome
      = true := by
  unfold StartVault_after_wait at h ⊢
  cases hf : vault_manager.map_find c.joining_vaults_ identity with
  | none => simp [hf, map_find_map_assign]
  | some v =>
    cases v
    · simp [hf]
    · simp [hf] at h

theorem HandleVaultJoinConfirmation_ack (c : ClientController) (identity : Nat) :
    (HandleVaultJoinConfirmation c (some identity)).1.ack
      = (vault_manager.map_find c.joining_vaults_ identity).isSome := by
  unfold HandleVaultJoinConfirmation
  cases hf : vault_manager.map_find c.joining_vaults_ identity <;> simp [hf]

theorem late_confirmation_acknowledged (c : ClientController) (identity : Nat)
    (h : (StartVault_after_wait c identity).1 = false) :
    (HandleVaultJoinConfirmation (StartVault_after_wait c identity).2 (some identity)).1.ack
      = true := by
  rw [HandleVaultJoinConfirmation_ack]
  exact StartVault_after_wait_timed_out c identity h

/-- C16: a `StartVault` call for identity 7 gets a positive `StartVaultResponse`, enters the
identity in `joining_vaults_` and waits; no confirmation comes, the wait times out and the
call returns false, leaving the identity in `joining_vaults_`. The `VaultJoinConfirmation`
for identity 7 that arrives afterwards is answered with `ack` true and sets the entry of
the identity to true, although no call waits for it. -/
theorem late_VaultJoinConfirmation_after_timeout :
    StartVault_until_wait ⟨5483, 4000, State.kVerified, []⟩ 7 ⟨true, true, some true⟩
        = (none, ⟨5483, 4000, State.kVerified, [(7, false)]⟩) ∧
      StartVault_after_wait ⟨5483, 4000, State.kVerified, [(7, false)]⟩ 7
        = (false, ⟨5483, 4000, State.kVerified, [(7, false)]⟩) ∧
      HandleVaultJoinConfirmation ⟨5483, 4000, State.kVerified, [(7, false)]⟩ (some 7)
        = ({ ack := true, notified := true }, ⟨5483, 4000, State.kVerified, [(7, true)]⟩) := by
  decide

end ClientController

end process_management

end priv

namespace priv

namespace chunk_store

open vault_manager (Outcome Error)

/-! ## Lemmas on the map of a memory chunk store -/

theorem chunks_find_none_iff (chunks : List (ChunkId × Nat × List Nat)) (name : ChunkId) :
    chunks_find chunks name = none ↔ name ∉ chunks.map Prod.fst := by
  induction chunks with
  | nil => simp [chunks_find]
  | cons e rest ih =>
    obtain ⟨k, entry⟩ := e
    by_cases hk : k = name
    · simp [chunks_find, hk]
    · have hk' : ¬ name = k := fun h => hk h.symm
      simp [chunks_find, hk, hk', ih]

theorem chunks_find_some_mem (chunks : List (ChunkId × Nat × List Nat)) (name : ChunkId)
    (entry : Nat × List Nat) (h : chunks_find chunks name = some entry) :
    (name, entry) ∈ chunks := by
  induction chunks with
  | nil => simp [chunks_find] at h
  | cons e rest ih =>
    obtain ⟨k, old⟩ := e
    by_cases hk : k = name
    · simp [chunks_find, hk] at h
      simp [hk, h]
    · simp only [chunks_find, hk, if_false] at h
      exact List.mem_cons_of_mem _ (ih h)

theorem chunks_replace_keys (chunks : List (ChunkId × Nat × List Nat)) (name : ChunkId)
    (entry : Nat × List Nat) :
    (chunks_replace chunks name entry).map Prod.fst = chunks.map Prod.fst := by
  induction chunks with
  | nil => rfl
  | cons e rest ih =>
    obtain ⟨k, old⟩ := e
    by_cases hk : k = name
    · simp [chunks_replace, hk]
    · simp [chunks_replace, hk, ih]

theorem chunks_replace_mem (chunks : List (ChunkId × Nat × List Nat)) (name : ChunkId)
    (entry : Nat × List Nat) (e : ChunkId × Nat × List Nat)
    (h : e ∈ chunks_replace chunks name entry) : e ∈ chunks ∨ e = (name, entry) := by
  induction chunks with
  | nil => simp [chunks_replace] at h
  | cons first rest ih =>
    obtain ⟨k, old⟩ := first
    by_cases hk : k = name
    · simp only [chunks_replace, hk, if_true, List.mem_cons] at h
      rcases h with h | h
      · exact Or.inr h
      · exact Or.inl (List.mem_cons_of_mem _ h)
    · simp only [chunks_replace, hk, if_false, List.mem_cons] at h
      rcases h with h | h
      · exact Or.inl (by simp [h])
      · rcases ih h with h' | h'
        · exact Or.inl (List.mem_cons_of_mem _ h')
        · exact Or.inr h'

theorem chunks_find_replace (chunks : List (ChunkId × Nat × List Nat)) (name other : ChunkId)
    (entry : Nat × List Nat) :
    chunks_find (chunks_replace chunks name entry) other
      = if other = name then (chunks_find chunks name).map (fun _ => entry)
        else chunks_find chunks other := by
  induction chunks with
  | nil => simp [chunks_replace, chunks_find]
  | cons e rest ih =>
    obtain ⟨k, old⟩ := e
    by_cases hk : k = name
    · subst hk
      by_cases ho : other = k
      · simp [chunks_replace, chunks_find, ho]
      · have ho' : ¬ k = other := fun h => ho h.symm
        simp [chunks_replace, chunks_find, ho, ho']
    · by_cases ho : other = name
      · subst ho
        simp [chunks_replace, chunks_find, hk, ih]
      · by_cases hko : k = other
        · simp [chunks_replace, chunks_find, hk, hko, ho]
        · simp [chunks_replace, chunks_find, hk, hko, ho, ih]

theorem chunks_find_append (chunks : List (ChunkId × Nat × List Nat)) (name other : ChunkId)
    (entry : Nat × List Nat) :
    chunks_find (chunks ++ [(name, entry)]) other
      = match chunks_find chunks other with
        | some e => some e
        | none => if name = other then some entry else none := by
  induction chunks with
  | nil => simp [chunks_find]
  | cons e rest ih =>
    obtain ⟨k, old⟩ := e
    by_cases hk : k = other
    · simp [chunks_find, hk]
    · simp [chunks_find, hk, ih]

theorem chunks_replace_sizes (chunks : List (ChunkId × Nat × List Nat)) (name : ChunkId)
    (old : Nat × List Nat) (count : Nat) (h : chunks_find chunks name = some old) :
    (chunks_replace chunks name (count, old.2)).map (fun e => e.2.2.length)
      = chunks.map (fun e => e.2.2.length) := by
  induction chunks with
  | nil => rfl
  | cons e rest ih =>
    obtain ⟨k, entry⟩ := e
    by_cases hk : k = name
    · simp [chunks_find, hk] at h
      simp [chunks_replace, hk, h]
    · simp only [chunks_find, hk, if_false] at h
      simp [chunks_replace, hk, ih h]

namespace MemoryChunkStore

/-! ## Storing a chunk again -/

theorem Store_present (t : MemoryChunkStore) (name : ChunkId) (content : List Nat)
    (entry : Nat × List Nat) (hname : name ≠ []) (hcontent : content ≠ [])
    (h : chunks_find t.chunks_ name = some entry) :
    Store t name content
        = (Outcome.returned true,
            { t with chunks_ := chunks_replace t.chunks_ name (entry.1 + 1, entry.2) }) ∧
      chunks_find (Store t name content).2.chunks_ name = some (entry.1 + 1, entry.2) ∧
      Size (Store t name content).2 = Size t := by
  have hs : Store t name content
      = (Outcome.returned true,
          { t with chunks_ := chunks_replace t.chunks_ name (entry.1 + 1, entry.2) }) := by
    simp [Store, hname, hcontent, h]
  rw [hs]
  refine ⟨rfl, ?_, ?_⟩
  · simp [chunks_find_replace, h]
  · simp only [Size]
    rw [chunks_replace_sizes t.chunks_ name entry (entry.1 + 1) h]

theorem Store_all_present (name : ChunkId) (hname : name ≠ []) (later : List (List Nat)) :
    ∀ (t : MemoryChunkStore) (entry : Nat × List Nat), (∀ c ∈ later, c ≠ []) →
      chunks_find t.chunks_ name = some entry →
      chunks_find (Store_all t name later).chunks_ name
          = some (entry.1 + later.length, entry.2) ∧
        Size (Store_all t name later) = Size t := by
  induction later with
  | nil =>
    intro t entry _ h
    simpa [Store_all] using h
  | cons content rest ih =>
    intro t entry hall h
    obtain ⟨_, h2, h3⟩ :=
      Store_present t name content entry hname (hall content (List.mem_cons_self _ _)) h
    obtain ⟨h4, h5⟩ := ih (Store t name content).2 (entry.1 + 1, entry.2)
      (fun c hc => hall c (List.mem_cons_of_mem _ hc)) h2
    simp only [Store_all, List.foldl_cons] at h4 h5 ⊢
    refine ⟨?_, h5.trans h3⟩
    rw [h4]
    simp only [List.length_cons]
    congr 2
    omega

/-- C17: for a non-empty id and non-empty bytes `b`, when `Store(id, b)` succeeds on a store
that does not hold the id, then `Get(id)` is `b`, `Count(id)` is 1 and `Size(id)` is `|b|`.
In every store that holds the id, `Store(id, b')` with non-empty `b'` succeeds, raises
`Count(id)` by one and leaves `Get(id)`, `Size(id)` and `Size()` as they were. Hence after
any number of later stores of the id, `Get(id)` is still `b`, `Count(id)` is one more than
that number, and `Size(id)` and `Size()` are those after the first store. -/
theorem Store_first_write_wins (s : MemoryChunkStore) (name : ChunkId) (b : List Nat)
    (hname : name ≠ []) (hb : b ≠ [])
    (habsent : Has s name = Outcome.returned false)
    (hstored : (Store s name b).1 = Outcome.returned true) :
    (Get (Store s name b).2 name = Outcome.returned b ∧
      Count_name (Store s name b).2 name = Outcome.returned 1 ∧
      Size_name (Store s name b).2 name = Outcome.returned b.length) ∧
    (∀ (t : MemoryChunkStore) (b' : List Nat), b' ≠ [] → Has t name = Outcome.returned true →
      (Store t name b').1 = Outcome.returned true ∧
      Count_name (Store t name b').2 name = Outcome.returned (references t name + 1) ∧
      Get (Store t name b').2 name = Get t name ∧
      Size_name (Store t name b').2 name = Size_name t name ∧
      Size (Store t name b').2 = Size t) ∧
    (∀ later : List (List Nat), (∀ c ∈ later, c ≠ []) →
      Get (Store_all (Store s name b).2 name later) name = Outcome.returned b ∧
      Count_name (Store_all (Store s name b).2 name later) name
        = Outcome.returned (1 + later.length) ∧
      Size_name (Store_all (Store s name b).2 name later) name = Outcome.returned b.length ∧
      Size (Store_all (Store s name b).2 name later) = Size (Store s name b).2) := by
  have hnone : chunks_find s.chunks_ name = none := by
    cases hf : chunks_find s.chunks_ name with
    | none => rfl
    | some e => simp [Has, hname, hf] at habsent
  have hvac : Vacant s b.length = true := by
    cases hv : Vacant s b.length with
    | true => rfl
    | false => simp [Store, hname, hb, hnone, hv] at hstored
  have hs : Store s name b
      = (Outcome.returned true, { s with chunks_ := s.chunks_ ++ [(name, 1, b)] }) := by
    simp [Store, hname, hb, hnone, hvac]
  have hfind : chunks_find (Store s name b).2.chunks_ name = some (1, b) := by
    rw [hs]
    simp [chunks_find_append, hnone]
  refine ⟨?_, ?_, ?_⟩
  · simp [Get, Count_name, Size_name, references, size_of, hname, hfind]
  · intro t b' hb' hhas
    cases hf : chunks_find t.chunks_ name with
    | none => simp [Has, hname, hf] at hhas
    | some entry =>
      obtain ⟨h1, h2, h3⟩ := Store_present t name b' entry hname hb' hf
      refine ⟨by rw [h1], ?_, ?_, ?_, h3⟩
      · simp [Count_name, references, hname, h2, hf]
      · simp [Get, hname, h2, hf]
      · simp [Size_name, size_of, hname, h2, hf]
  · intro later hall
    obtain ⟨h1, h2⟩ := Store_all_present name hname later (Store s name b).2 (1, b) hall hfind
    refine ⟨?_, ?_, ?_, h2⟩
    · simp [Get, hname, h1]
    · simp [Count_name, references, hname, h1]
    · simp [Size_name, size_of, hname, h1]

/-- The chunk named 1 with content 7, 7, 7 stored in the empty store, then stored again
with the contents 8 and 9, 9: the content stays 7, 7, 7 and the count is 3. -/
theorem Store_first_write_wins_witness :
    Get (Store_all (Store empty [1] [7, 7, 7]).2 [1] [[8], [9, 9]]) [1]
        = Outcome.returned [7, 7, 7] ∧
      Count_name (Store_all (Store empty [1] [7, 7, 7]).2 [1] [[8], [9, 9]]) [1]
        = Outcome.returned (1 + [[8], [9, 9]].length) ∧
      Size_name (Store_all (Store empty [1] [7, 7, 7]).2 [1] [[8], [9, 9]]) [1]
        = Outcome.returned [7, 7, 7].length ∧
      Size (Store_all (Store empty [1] [7, 7, 7]).2 [1] [[8], [9, 9]])
        = Size (Store empty [1] [7, 7, 7]).2 :=
  (Store_first_write_wins empty [1] [7, 7, 7] (by decide) (by decide) (by decide)
    (by decide)).2.2 [[8], [9, 9]] (by decide)

/-! ## Count and size of a store -/

theorem apply_wellFormed (s : MemoryChunkStore) (operation : Operation) (h : WellFormed s) :
    WellFormed (apply s operation) := by
  obtain ⟨hnodup, hpos⟩ := h
  cases operation with
  | Store name content =>
    simp only [apply, Store]
    split
    · exact ⟨hnodup, hpos⟩
    · split
      · rename_i entry hf
        refine ⟨by simpa [chunks_replace_keys] using hnodup, ?_⟩
        intro e he
        rcases chunks_replace_mem _ _ _ _ he with h' | h'
        · exact hpos e h'
        · subst h'
          simp
      · rename_i hf
        split
        · exact ⟨hnodup, hpos⟩
        · refine ⟨?_, ?_⟩
          · have hnot := (chunks_find_none_iff s.chunks_ name).mp hf
            simp only [List.map_append, List.map_cons, List.map_nil]
            rw [List.nodup_append]
            refine ⟨hnodup, by simp, ?_⟩
            intro a ha hb
            simp only [List.mem_singleton] at hb
            subst hb
            exact hnot ha
          · intro e he
            simp only [List.mem_append, List.mem_singleton] at he
            rcases he with h' | h'
            · exact hpos e h'
            · subst h'
              simp
  | Delete name =>
    simp only [apply, Delete]
    split
    · exact ⟨hnodup, hpos⟩
    · split
      · exact ⟨hnodup, hpos⟩
      · rename_i entry hf
        split
        · refine ⟨?_, ?_⟩
          · exact (List.Sublist.map Prod.fst (List.filter_sublist _)).nodup hnodup
          · intro e he
            exact hpos e (List.mem_of_mem_filter he)
        · rename_i hr
          refine ⟨by simpa [chunks_replace_keys] using hnodup, ?_⟩
          intro e he
          rcases chunks_replace_mem _ _ _ _ he with h' | h'
          · exact hpos e h'
          · subst h'
            simp only
            omega
  | Clear => exact ⟨by simp [apply, Clear], by simp [apply, Clear]⟩
  | SetCapacity capacity => exact ⟨hnodup, hpos⟩

theorem run_wellFormed (operations : List Operation) :
    ∀ s : MemoryChunkStore, WellFormed s → WellFormed (run s operations) := by
  induction operations with
  | nil =>
    intro s h
    exact h
  | cons operation rest ih =>
    intro s h
    exact ih (apply s operation) (apply_wellFormed s operation h)

theorem empty_wellFormed : WellFormed empty :=
  ⟨by simp [empty], by simp [empty]⟩

theorem sum_ite_single (k : ChunkId) (a : Nat) (g : ChunkId → Nat) (hg : g k = 0) :
    ∀ ids : List ChunkId, ids.Nodup → k ∈ ids →
      (ids.map (fun name => if k = name then a else g name)).sum = a + (ids.map g).sum := by
  intro ids
  induction ids with
  | nil =>
    intro _ hk
    simp at hk
  | cons name rest ih =>
    intro hnodup hk
    rw [List.nodup_cons] at hnodup
    by_cases hkn : k = name
    · subst hkn
      have hrest : rest.map (fun name => if k = name then a else g name) = rest.map g := by
        apply List.map_congr_left
        intro m hm
        have : ¬ k = m := fun h => hnodup.1 (h ▸ hm)
        simp [this]
      simp only [List.map_cons, List.sum_cons, if_true, hrest, hg]
      omega
    · have hk' : k ∈ rest := by
        rcases List.mem_cons.mp hk with h | h
        · exact absurd h hkn
        · exact h
      simp only [List.map_cons, List.sum_cons, hkn, if_false, ih hnodup.2 hk']
      omega

theorem sum_over_ids (f : Nat × List Nat → Nat) (ids : List ChunkId) (hids : ids.Nodup)
    (chunks : List (ChunkId × Nat × List Nat)) :
    (chunks.map Prod.fst).Nodup → (∀ name ∈ chunks.map Prod.fst, name ∈ ids) →
      (ids.map (fun name => match chunks_find chunks name with
          | some entry => f entry
          | none => 0)).sum
        = (chunks.map (fun e => f e.2)).sum := by
  induction chunks with
  | nil =>
    intro _ _
    simp [chunks_find]
  | cons e rest ih =>
    intro hkeys hcover
    obtain ⟨k, entry⟩ := e
    simp only [List.map_cons, List.nodup_cons] at hkeys
    have hk : k ∈ ids := hcover k (by simp)
    have hnone : chunks_find rest k = none := (chunks_find_none_iff rest k).mpr hkeys.1
    have hrest := ih hkeys.2 (fun name hname => hcover name (by simp [hname]))
    have hsingle := sum_ite_single k (f entry)
      (fun name => match chunks_find rest name with
        | some entry => f entry
        | none => 0) (by simp [hnone]) ids hids hk
    simp only [List.map_cons, List.sum_cons]
    rw [← hrest, ← hsingle]
    apply congrArg
    apply List.map_congr_left
    intro name _
    by_cases hkn : k = name
    · simp [chunks_find, hkn]
    · simp [chunks_find, hkn]

theorem length_filter_eq_sum (p : ChunkId → Bool) (ids : List ChunkId) :
    (ids.filter p).length = (ids.map (fun name => if p name then 1 else 0)).sum := by
  induction ids with
  | nil => rfl
  | cons name rest ih =>
    cases hp : p name
    · simp [List.filter, hp, ih]
    · simp [List.filter, hp, ih]
      omega

theorem counts_of_wellFormed (s : MemoryChunkStore) (h : WellFormed s) (ids : List ChunkId)
    (hids : ids.Nodup) (hcover : ∀ name, references s name ≠ 0 → name ∈ ids) :
    Count s = (ids.filter (fun name => decide (0 < references s name))).length ∧
      Size s = (ids.map (size_of s)).sum ∧
      Count_spec s = (ids.map (references s)).sum := by
  obtain ⟨hnodup, hpos⟩ := h
  have hcover' : ∀ name ∈ s.chunks_.map Prod.fst, name ∈ ids := by
    intro name hname
    apply hcover
    cases hf : chunks_find s.chunks_ name with
    | none => exact absurd hname ((chunks_find_none_iff _ _).mp hf)
    | some entry =>
      have := hpos _ (chunks_find_some_mem _ _ _ hf)
      simp only [references, hf]
      simp only at this
      omega
  refine ⟨?_, ?_, ?_⟩
  · rw [length_filter_eq_sum]
    have h1 := sum_over_ids (fun _ => 1) ids hids s.chunks_ hnodup hcover'
    simp only [List.map_const', List.sum_replicate, smul_eq_mul, mul_one] at h1
    rw [Count, ← h1]
    apply congrArg
    apply List.map_congr_left
    intro name _
    cases hf : chunks_find s.chunks_ name with
    | none => simp [references, hf]
    | some entry =>
      have := hpos _ (chunks_find_some_mem _ _ _ hf)
      simp only at this
      simp [references, hf, this]
  · have h2 := sum_over_ids (fun entry => entry.2.length) ids hids s.chunks_ hnodup hcover'
    rw [Size, ← h2]
    apply congrArg
    apply List.map_congr_left
    intro name _
    simp only [size_of]
  · have h3 := sum_over_ids (fun entry => entry.1) ids hids s.chunks_ hnodup hcover'
    rw [Count_spec, ← h3]
    apply congrArg
    apply List.map_congr_left
    intro name _
    simp only [references]

theorem BEH_References_add_twice_passes :
    BEH_References_add_twice Count [1] (List.replicate 100 1) = true := by
  decide

theorem BEH_References_add_twice_fails_with_Count_spec :
    BEH_References_add_twice Count_spec [1] (List.replicate 100 1) = false := by
  decide

/-- C18, as amended: after every finite sequence of `Store`, `Delete`, `Clear` and
`SetCapacity` on a new store, and for every duplicate-free list of ids that contains the ids
held, `Count()` is the number of ids in the list with `Count(id) > 0`, `Size()` is the sum of
`Size(id)` over the list, and the sum of `Count(id)` over the list is the sum of the
reference counts, which `Count()` does not return. -/
theorem Count_counts_distinct_ids (operations : List Operation) (ids : List ChunkId)
    (hids : ids.Nodup)
    (hcover : ∀ name, references (run empty operations) name ≠ 0 → name ∈ ids) :
    Count (run empty operations)
        = (ids.filter (fun name => decide (0 < references (run empty operations) name))).length ∧
      Size (run empty operations) = (ids.map (size_of (run empty operations))).sum ∧
      Count_spec (run empty operations) = (ids.map (references (run empty operations))).sum :=
  counts_of_wellFormed (run empty operations) (run_wellFormed operations empty empty_wellFormed)
    ids hids hcover

/-- Chunk 1 stored three times and chunk 2 once, then chunk 2 deleted; ids 1, 2, 3. -/
theorem Count_counts_distinct_ids_witness :
    Count (run empty [Operation.Store [1] [7, 7], Operation.Store [2] [8],
        Operation.Store [1] [7, 7], Operation.Store [1] [9], Operation.Delete [2]])
      = ([[1], [2], [3]].filter (fun name => decide (0 < references
          (run empty [Operation.Store [1] [7, 7], Operation.Store [2] [8],
            Operation.Store [1] [7, 7], Operation.Store [1] [9], Operation.Delete [2]])
          name))).length ∧
    Size (run empty [Operation.Store [1] [7, 7], Operation.Store [2] [8],
        Operation.Store [1] [7, 7], Operation.Store [1] [9], Operation.Delete [2]])
      = ([[1], [2], [3]].map (size_of
          (run empty [Operation.Store [1] [7, 7], Operation.Store [2] [8],
            Operation.Store [1] [7, 7], Operation.Store [1] [9], Operation.Delete [2]]))).sum ∧
    Count_spec (run empty [Operation.Store [1] [7, 7], Operation.Store [2] [8],
        Operation.Store [1] [7, 7], Operation.Store [1] [9], Operation.Delete [2]])
      = ([[1], [2], [3]].map (references
          (run empty [Operation.Store [1] [7, 7], Operation.Store [2] [8],
            Operation.Store [1] [7, 7], Operation.Store [1] [9], Operation.Delete [2]]))).sum :=
  Count_counts_distinct_ids
    [Operation.Store [1] [7, 7], Operation.Store [2] [8], Operation.Store [1] [7, 7],
      Operation.Store [1] [9], Operation.Delete [2]]
    [[1], [2], [3]] (by decide)
    (by
      intro name h
      by_contra hmem
      apply h
      have h1 : ¬ [1] = name := fun e => hmem (by simp [← e])
      simp [run, apply, Store, Delete, empty, Vacant, Size, references, chunks_find,
        chunks_replace, chunks_erase, h1])

/-- C18 as stated fails: after the same id is stored twice, as in the test `BEH_References`,
`Count(id)` is 2 and `Size()` is `Size(id)`, but `Count()` is 1 and so differs from the
sum of the reference counts, which is 2. -/
theorem Count_is_not_sum_of_references :
    Count (run empty [Operation.Store [1] [7, 7, 7], Operation.Store [1] [7, 7, 7]]) = 1 ∧
      Count_name (run empty [Operation.Store [1] [7, 7, 7], Operation.Store [1] [7, 7, 7]]) [1]
        = Outcome.returned 2 ∧
      Size (run empty [Operation.Store [1] [7, 7, 7], Operation.Store [1] [7, 7, 7]]) = 3 ∧
      Count (run empty [Operation.Store [1] [7, 7, 7], Operation.Store [1] [7, 7, 7]])
        ≠ ([[1]].map (references
            (run empty [Operation.Store [1] [7, 7, 7], Operation.Store [1] [7, 7, 7]]))).sum := by
  decide

end MemoryChunkStore

namespace ChunkCache

/-! ## The cache against its test -/

theorem BEH_CacheCapacity_passes :
    BEH_CacheCapacity [1] [2] [3] [4] (List.replicate 100 1) (List.replicate 50 2)
      (List.replicate 25 3) (List.replicate 100 4) = true := by
  decide

/-! ## Admission to the cache -/

theorem evict_for_least (capacity needed : Nat) (h : needed ≤ capacity)
    (entries : List (ChunkId × List Nat)) :
    ∃ k, k ≤ entries.length ∧ evict_for capacity needed entries = entries.drop k ∧
      cached_bytes (entries.drop k) + needed ≤ capacity ∧
      ∀ j, j < k → capacity < cached_bytes (entries.drop j) + needed := by
  induction entries with
  | nil => exact ⟨0, le_refl _, rfl, by simpa [cached_bytes] using h, fun j hj => by omega⟩
  | cons e rest ih =>
    by_cases hfit : cached_bytes (e :: rest) + needed ≤ capacity
    · exact ⟨0, Nat.zero_le _, by simp [evict_for, hfit], by simpa using hfit,
        fun j hj => by omega⟩
    · obtain ⟨k, hk, hev, hfits, hmin⟩ := ih
      refine ⟨k + 1, by simp [hk], by simp [evict_for, hfit, hev], by simpa using hfits, ?_⟩
      intro j hj
      cases j with
      | zero =>
        simp only [List.drop_zero]
        omega
      | succ j =>
        simp only [List.drop_succ_cons]
        exact hmin j (by omega)

/-- C19: on a cache with a non-zero capacity, `CacheStore` of a non-empty id that is not
cached, with non-empty bytes, returns false and leaves the cache as it is when the bytes
are longer than the capacity; otherwise it returns true, and the new cache is the old one
without its first `k` entries, followed by the new chunk, where `k` is the least number for
which the remaining entries and the new bytes fit the capacity. `CacheStore` of an id that
is cached returns true and changes nothing, the order of the entries included. -/
theorem CacheStore_evicts_least_head (c : ChunkCache) (name : ChunkId)
    (content : List Nat) (hcap : c.cache_capacity_ ≠ 0) (hname : name ≠ [])
    (hcontent : content ≠ []) (hnew : CacheHas c name = Outcome.returned false) :
    (c.cache_capacity_ < content.length →
      CacheStore c name content = (Outcome.returned false, c)) ∧
    (content.length ≤ c.cache_capacity_ →
      ∃ k, k ≤ c.cache_.length ∧
        CacheStore c name content
          = (Outcome.returned true, { c with cache_ := c.cache_.drop k ++ [(name, content)] }) ∧
        cached_bytes (c.cache_.drop k) + content.length ≤ c.cache_capacity_ ∧
        ∀ j, j < k → c.cache_capacity_ < cached_bytes (c.cache_.drop j) + content.length) ∧
    (∀ (c' : ChunkCache) (name' : ChunkId) (content' : List Nat), name' ≠ [] →
      CacheHas c' name' = Outcome.returned true →
      CacheStore c' name' content' = (Outcome.returned true, c')) := by
  have hnot : cached c name = false := by
    simpa [CacheHas, hname] using hnew
  refine ⟨?_, ?_, ?_⟩
  · intro hlong
    simp [CacheStore, hname, hnot, hcontent, hcap, hlong]
  · intro hfit
    obtain ⟨k, hk, hev, hfits, hmin⟩ :=
      evict_for_least c.cache_capacity_ content.length hfit c.cache_
    refine ⟨k, hk, ?_, hfits, hmin⟩
    have hnl : ¬ c.cache_capacity_ < content.length := by omega
    simp [CacheStore, hname, hnot, hcontent, hcap, hnl, hev]
  · intro c' name' content' hname' hhas
    have hyes : cached c' name' = true := by
      simpa [CacheHas, hname'] using hhas
    simp [CacheStore, hname', hyes]

/-- The cache holds chunks of 50 and 25 bytes under a capacity of 125; a chunk of 100 bytes
evicts the older one only. -/
theorem CacheStore_evicts_least_head_witness :
    ∃ k, k ≤ 2 ∧
      CacheStore ⟨[([2], List.replicate 50 2), ([3], List.replicate 25 3)], 125⟩ [1]
          (List.replicate 100 1)
        = (Outcome.returned true,
            ⟨List.drop k [([2], List.replicate 50 2), ([3], List.replicate 25 3)]
              ++ [([1], List.replicate 100 1)], 125⟩) ∧
      cached_bytes (List.drop k [([2], List.replicate 50 2), ([3], List.replicate 25 3)])
          + (List.replicate 100 1).length ≤ 125 ∧
      ∀ j, j < k →
        125 < cached_bytes (List.drop j [([2], List.replicate 50 2), ([3], List.replicate 25 3)])
          + (List.replicate 100 1).length :=
  (CacheStore_evicts_least_head
    ⟨[([2], List.replicate 50 2), ([3], List.replicate 25 3)], 125⟩ [1] (List.replicate 100 1)
    (by decide) (by decide) (by decide) (by decide)).2.1 (by decide)

/-- C20, as amended: in scenario S1, for distinct non-empty ids `a`, `b`, `c` with 100, 50
and 25 bytes, the cache holds only `b` with `CacheSize` 50 after the second store, `b` and
`c` with `CacheSize` 75 after the third, and after the fourth store, of `a` again, it holds
`c` and `a` with `CacheSize` 125: only `b` has been evicted. -/
theorem scenario_S1_evicts_only_b (a b c : ChunkId) (content_a content_b content_c : List Nat)
    (ha : a ≠ []) (hb : b ≠ []) (hc : c ≠ []) (hab : a ≠ b) (hac : a ≠ c) (hbc : b ≠ c)
    (hla : content_a.length = 100) (hlb : content_b.length = 50)
    (hlc : content_c.length = 25) :
    (scenario_S1 a b c content_a content_b content_c).1.cache_ = [(b, content_b)] ∧
      CacheSize (scenario_S1 a b c content_a content_b content_c).1 = 50 ∧
      (scenario_S1 a b c content_a content_b content_c).2.1.cache_
        = [(b, content_b), (c, content_c)] ∧
      CacheSize (scenario_S1 a b c content_a content_b content_c).2.1 = 75 ∧
      (scenario_S1 a b c content_a content_b content_c).2.2.cache_
        = [(c, content_c), (a, content_a)] ∧
      CacheSize (scenario_S1 a b c content_a content_b content_c).2.2 = 125 := by
  have hna : content_a ≠ [] := fun h => by simp [h] at hla
  have hnb : content_b ≠ [] := fun h => by simp [h] at hlb
  have hnc : content_c ≠ [] := fun h => by simp [h] at hlc
  have hba : b ≠ a := fun h => hab h.symm
  have hca : c ≠ a := fun h => hac h.symm
  have hcb : c ≠ b := fun h => hbc h.symm
  simp [scenario_S1, SetCacheCapacity, empty, CacheStore, CacheSize, cached, cached_bytes,
    evict_for, ha, hb, hc, hab, hac, hbc, hba, hca, hcb, hla, hlb, hlc, hna, hnb, hnc]

/-- Scenario S1 with the ids 1, 2, 3. -/
theorem scenario_S1_evicts_only_b_witness :
    (scenario_S1 [1] [2] [3] (List.replicate 100 1) (List.replicate 50 2)
        (List.replicate 25 3)).1.cache_ = [([2], List.replicate 50 2)] ∧
      CacheSize (scenario_S1 [1] [2] [3] (List.replicate 100 1) (List.replicate 50 2)
        (List.replicate 25 3)).1 = 50 ∧
      (scenario_S1 [1] [2] [3] (List.replicate 100 1) (List.replicate 50 2)
        (List.replicate 25 3)).2.1.cache_
        = [([2], List.replicate 50 2), ([3], List.replicate 25 3)] ∧
      CacheSize (scenario_S1 [1] [2] [3] (List.replicate 100 1) (List.replicate 50 2)
        (List.replicate 25 3)).2.1 = 75 ∧
      (scenario_S1 [1] [2] [3] (List.replicate 100 1) (List.replicate 50 2)
        (List.replicate 25 3)).2.2.cache_
        = [([3], List.replicate 25 3), ([1], List.replicate 100 1)] ∧
      CacheSize (scenario_S1 [1] [2] [3] (List.replicate 100 1) (List.replicate 50 2)
        (List.replicate 25 3)).2.2 = 125 :=
  scenario_S1_evicts_only_b [1] [2] [3] (List.replicate 100 1) (List.replicate 50 2)
    (List.replicate 25 3) (by decide) (by decide) (by decide) (by decide) (by decide)
    (by decide) (by decide) (by decide) (by decide)

/-- C20 as stated fails: at the end of scenario S1 the cache does not hold `a` alone with
`CacheSize` 100; `c` is still cached and `CacheSize` is 125, as in the test
`BEH_CacheCapacity`. -/
theorem scenario_S1_keeps_c :
    CacheHas (scenario_S1 [1] [2] [3] (List.replicate 100 1) (List.replicate 50 2)
        (List.replicate 25 3)).2.2 [3] = Outcome.returned true ∧
      CacheHas (scenario_S1 [1] [2] [3] (List.replicate 100 1) (List.replicate 50 2)
        (List.replicate 25 3)).2.2 [2] = Outcome.returned false ∧
      CacheSize (scenario_S1 [1] [2] [3] (List.replicate 100 1) (List.replicate 50 2)
        (List.replicate 25 3)).2.2 = 125 ∧
      CacheSize (scenario_S1 [1] [2] [3] (List.replicate 100 1) (List.replicate 50 2)
        (List.replicate 25 3)).2.2 ≠ 100 := by
  decide

end ChunkCache

end chunk_store

end priv

namespace vault_manager

/-! ## Invariants of the registry -/

namespace ClientConnections

theorem step_clients_some (CheckSignature : PlainText → Signature → PublicKey → Bool)
    (s : ClientConnections) (c : TcpConnectionPtr) (name : MaidName) (call : Call)
    (hc : map_find s.clients_ c = some name) (hu : map_find s.unvalidated_clients_ c = none)
    (hkeep : call.keeps c = true) :
    map_find (step CheckSignature s call).clients_ c = some name := by
  cases call with
  | Add connection challenge =>
    simp only [step, Add]
    split
    · exact hc
    · split <;> exact hc
  | Validate connection maid signature =>
    by_cases hne : c = connection
    · subst hne
      simp only [step, Validate_absent CheckSignature s c maid signature hu]
      exact hc
    · simp only [step, Validate]
      split
      · exact hc
      · split
        · exact hc
        · split <;> (simp only; rw [map_find_emplace_ne _ _ _ _ hne]; exact hc)
  | Remove connection =>
    have hne : c ≠ connection := by
      intro h
      simp [Call.keeps, Call.adds, Call.removes, h] at hkeep
    simp only [step, Remove]
    split <;> (simp only; rw [map_find_erase_ne _ _ _ hne]; exact hc)
  | FindValidated connection =>
    simp only [step, FindValidated_state]
    exact hc
  | TimerHandler connection error_code =>
    simp only [step, TimerHandler]
    split <;> exact hc

theorem steps_validated (CheckSignature : PlainText → Signature → PublicKey → Bool)
    (c : TcpConnectionPtr) (name : MaidName) (calls : List Call) :
    ∀ s : ClientConnections, map_find s.clients_ c = some name →
      map_find s.unvalidated_clients_ c = none → (∀ call ∈ calls, call.keeps c = true) →
      map_find (steps CheckSignature s calls).clients_ c = some name ∧
        map_find (steps CheckSignature s calls).unvalidated_clients_ c = none := by
  induction calls with
  | nil =>
    intro s hc hu _
    exact ⟨hc, hu⟩
  | cons call rest ih =>
    intro s hc hu hkeep
    have hk := hkeep call (List.mem_cons_self _ _)
    have hadd : call.adds c = false := by
      simp only [Call.keeps, Bool.and_eq_true, Bool.not_eq_true'] at hk
      exact hk.1
    exact ih (step CheckSignature s call)
      (step_clients_some CheckSignature s c name call hc hu hk)
      (step_unvalidated_none CheckSignature s c call hu hadd)
      (fun call' hmem => hkeep call' (List.mem_cons_of_mem _ hmem))

end ClientConnections

/-- C27: in every registry state reached from the empty registry by `Add` on connections in
neither map, `Validate`, `Remove` and runs of timer handlers, no connection is in
`unvalidated_clients_` and in `clients_` at the same time. -/
theorem reachable_registry_maps_disjoint
    (CheckSignature : PlainText → Signature → PublicKey → Bool) (s : ClientConnections)
    (h : ClientConnections.Reachable CheckSignature s) (c : TcpConnectionPtr) :
    ¬ ((map_find s.unvalidated_clients_ c).isSome = true ∧
        (map_find s.clients_ c).isSome = true) := by
  have hd : ClientConnections.Disjoint s := by
    induction h with
    | empty => exact ClientConnections.empty_disjoint
    | Add s connection challenge _ _ _ ih =>
      exact ClientConnections.step_disjoint CheckSignature s
        (ClientConnections.Call.Add connection challenge) ih
    | Validate s connection maid signature _ ih =>
      exact ClientConnections.step_disjoint CheckSignature s
        (ClientConnections.Call.Validate connection maid signature) ih
    | Remove s connection _ ih =>
      exact ClientConnections.step_disjoint CheckSignature s
        (ClientConnections.Call.Remove connection) ih
    | TimerHandler s connection error_code _ ih =>
      exact ClientConnections.step_disjoint CheckSignature s
        (ClientConnections.Call.TimerHandler connection error_code) ih
  rintro ⟨hu, hc⟩
  rcases hd c with h' | h'
  · rw [h'] at hc
    cases hc
  · rw [h'] at hu
    cases hu

/-- Connection 7 is added with challenge 41 and validated; connection 8 is added. -/
theorem reachable_registry_maps_disjoint_witness :
    ¬ ((map_find (ClientConnections.Add (ClientConnections.Validate
            (fun text signature key => decide (signature = text + key))
            (ClientConnections.Add ClientConnections.empty 7 41).2 7
            { name := 50, public_key := 5 } 46).2 8 42).2.unvalidated_clients_ 7).isSome = true ∧
        (map_find (ClientConnections.Add (ClientConnections.Validate
            (fun text signature key => decide (signature = text + key))
            (ClientConnections.Add ClientConnections.empty 7 41).2 7
            { name := 50, public_key := 5 } 46).2 8 42).2.clients_ 7).isSome = true) :=
  reachable_registry_maps_disjoint (fun text signature key => decide (signature = text + key)) _
    (ClientConnections.Reachable.Add _ 8 42
      (ClientConnections.Reachable.Validate _ 7 { name := 50, public_key := 5 } 46
        (ClientConnections.Reachable.Add _ 7 41 ClientConnections.Reachable.empty
          (by decide) (by decide)))
      (by decide) (by decide)) 7

/-- C28: when connection `c` is in `clients_` under the name `n` and not in
`unvalidated_clients_`, then after any sequence of steps other than `Add` and `Remove` of
`c` itself (runs of any timer handler, `Validate` and `FindValidated` of any connection,
`Add` and `Remove` of other connections) `FindValidated(c)` still returns `n`, and
`Validate(c, ...)` throws `connection_not_found` and changes nothing. -/
theorem validated_entry_is_stable
    (CheckSignature : PlainText → Signature → PublicKey → Bool) (s : ClientConnections)
    (c : TcpConnectionPtr) (n : MaidName) (calls : List ClientConnections.Call)
    (maid : PublicMaid) (signature : Signature)
    (hc : map_find s.clients_ c = some n) (hu : map_find s.unvalidated_clients_ c = none)
    (hkeep : ∀ call ∈ calls, call.keeps c = true) :
    ClientConnections.FindValidated (ClientConnections.steps CheckSignature s calls) c
        = (Outcome.returned n, ClientConnections.steps CheckSignature s calls) ∧
      ClientConnections.Validate CheckSignature
          (ClientConnections.steps CheckSignature s calls) c maid signature
        = (Outcome.threw Error.connection_not_found,
            ClientConnections.steps CheckSignature s calls) := by
  obtain ⟨h1, h2⟩ := ClientConnections.steps_validated CheckSignature c n calls s hc hu hkeep
  refine ⟨?_, ClientConnections.Validate_absent CheckSignature _ c maid signature h2⟩
  simp [ClientConnections.FindValidated, h1]

/-- Connection 3 is validated as 30; the timer of connection 3 fires, connection 7 is
validated and removed, and a further `Validate` of connection 3 is tried. -/
theorem validated_entry_is_stable_witness :
    ClientConnections.FindValidated
        (ClientConnections.steps (fun text signature key => decide (signature = text + key))
          { unvalidated_clients_ := [(7, (41, { connection := 7 }))], clients_ := [(3, 30)] }
          [ClientConnections.Call.TimerHandler 3 ErrorCode.success,
            ClientConnections.Call.Validate 7 { name := 50, public_key := 5 } 46,
            ClientConnections.Call.Validate 3 { name := 31, public_key := 5 } 46,
            ClientConnections.Call.Remove 7]) 3
      = (Outcome.returned 30, { unvalidated_clients_ := [], clients_ := [(3, 30)] }) :=
  (validated_entry_is_stable (fun text signature key => decide (signature = text + key))
    { unvalidated_clients_ := [(7, (41, { connection := 7 }))], clients_ := [(3, 30)] }
    3 30
    [ClientConnections.Call.TimerHandler 3 ErrorCode.success,
      ClientConnections.Call.Validate 7 { name := 50, public_key := 5 } 46,
      ClientConnections.Call.Validate 3 { name := 31, public_key := 5 } 46,
      ClientConnections.Call.Remove 7]
    { name := 31, public_key := 5 } 46 (by decide) (by decide) (by decide)).1.trans (by decide)

end vault_manager

namespace vault_manager

/-! ## Reopening a closed connection -/

namespace TcpConnection

theorem next_stays_open (P : Platform) (c : TcpConnection) (event : Event)
    (hflag : c.socket_close_flag_ = true) (hopen : c.is_open_ = true) :
    (next P c event).is_open_ = true := by
  cases event with
  | Start f g =>
    simp only [next, Start]
    split <;> simp [ReadSize]
  | Send data =>
    simp only [next, Send]
    split <;> simpa using hopen
  | Close => simpa [next, Close, hflag] using hopen
  | SendHandler =>
    simp only [next, SendHandler]
    split
    · exact hopen
    · simp only [DoSend]
      split
      · split <;> simpa using hopen
      · simpa using hopen
  | ReadSizeHandler ec n =>
    simp only [next, ReadSizeHandler]
    split
    · simpa [Close, hflag] using hopen
    · split
      · simpa using hopen
      · split
        · simpa [Close, hflag] using hopen
        · simpa [ReadData] using hopen
  | ReadDataHandler ec n =>
    simp only [next, ReadDataHandler]
    split
    · simpa [Close, hflag] using hopen
    · split
      · simpa using hopen
      · simpa [ReadSize] using hopen
  | DoSendHandler ec n =>
    simp only [next, DoSendHandler]
    split
    · simpa [Close, hflag] using hopen
    · split
      · simpa using hopen
      · split
        · simpa using hopen
        · simp only [DoSend]
          split
          · split <;> simpa using hopen
          · simpa using hopen

theorem after_stays_open (P : Platform) (events : List Event) :
    ∀ c : TcpConnection, c.socket_close_flag_ = true → c.is_open_ = true →
      (after P c events).socket_close_flag_ = true ∧ (after P c events).is_open_ = true := by
  induction events with
  | nil =>
    intro c hflag hopen
    exact ⟨hflag, hopen⟩
  | cons event rest ih =>
    intro c hflag hopen
    exact ih (next P c event) (next_flag P c event hflag) (next_stays_open P c event hflag hopen)

theorem destructor_wait_never_ends (P : Platform) (rounds : List (List Event)) :
    ∀ c : TcpConnection, c.socket_close_flag_ = true → c.is_open_ = true →
      destructor_wait P c rounds = none := by
  induction rounds with
  | nil =>
    intro c _ hopen
    simp [destructor_wait, hopen]
  | cons events rest ih =>
    intro c hflag hopen
    obtain ⟨h1, h2⟩ := after_stays_open P events c hflag hopen
    simp [destructor_wait, hopen, ih (after P c events) h1 h2]

/-- C29: on the connection the constructor makes, `Start`, then `Close`, then a second `Start`:
the second `Start` throws `already_initialised` and leaves `is_open_` true although `Close`
has run; after that `is_open_` is true after every sequence of further calls and handler
runs, further calls of `Close` included, and the wait of the destructor does not end,
however many rounds it is given. -/
theorem Start_after_Close_reopens (P : Platform) (events : List Event)
    (rounds : List (List Event)) :
    ∃ c, construct 1 = Outcome.returned c ∧
      (Start (Close (Start c (some 1) (some 2)).2) (some 3) (some 4)).1
        = Outcome.threw Error.already_initialised ∧
      (Start (Close (Start c (some 1) (some 2)).2) (some 3) (some 4)).2.socket_close_flag_
        = true ∧
      (Start (Close (Start c (some 1) (some 2)).2) (some 3) (some 4)).2.is_open_ = true ∧
      (after P (Start (Close (Start c (some 1) (some 2)).2) (some 3) (some 4)).2
        events).is_open_ = true ∧
      destructor P (Start (Close (Start c (some 1) (some 2)).2) (some 3) (some 4)).2 rounds
        = none := by
  refine ⟨_, rfl, by decide, by decide, by decide, ?_, ?_⟩
  · exact (after_stays_open P events _ (by decide) (by decide)).2
  · unfold destructor
    rw [Close_of_flag _ (by decide)]
    exact destructor_wait_never_ends P rounds _ (by decide) (by decide)

end TcpConnection

end vault_manager

namespace priv

namespace process_management

namespace ClientController

/-! ## New versions -/

/-- C26: `HandleNewVersionAvailable` always produces an acknowledgement; its filepath is the
request's filepath when the request parses, the file exists (without error) and its file
name passes `TokeniseFileName`, and the empty filepath in every other case; so, for a
request whose filepath is not empty, the acknowledged filepath equals the request's
exactly when these three conditions hold. -/
theorem HandleNewVersionAvailable_echoes_valid_paths (F : FileChecks)
    (request : NewVersionAvailable) :
    ((request.parsed = true ∧ F.file_exists request.new_version_filepath = true ∧
        F.error_code_set request.new_version_filepath = false ∧
        F.TokeniseFileName (F.filename request.new_version_filepath) = true) →
      (HandleNewVersionAvailable F request).ack_new_version_filepath
        = request.new_version_filepath) ∧
    (¬ (request.parsed = true ∧ F.file_exists request.new_version_filepath = true ∧
        F.error_code_set request.new_version_filepath = false ∧
        F.TokeniseFileName (F.filename request.new_version_filepath) = true) →
      (HandleNewVersionAvailable F request).ack_new_version_filepath = "") ∧
    (request.new_version_filepath ≠ "" →
      ((HandleNewVersionAvailable F request).ack_new_version_filepath
          = request.new_version_filepath ↔
        (request.parsed = true ∧ F.file_exists request.new_version_filepath = true ∧
          F.error_code_set request.new_version_filepath = false ∧
          F.TokeniseFileName (F.filename request.new_version_filepath) = true))) := by
  unfold HandleNewVersionAvailable
  cases hp : request.parsed <;> cases he : F.file_exists request.new_version_filepath <;>
    cases hc : F.error_code_set request.new_version_filepath <;>
    cases ht : F.TokeniseFileName (F.filename request.new_version_filepath) <;>
    simp [hp, he, hc, ht] <;>
    exact fun h1 h2 => h1 h2.symm

/-! ## The state after construction -/

theorem StartListeningLoop_all_fail (GetRandomPort : Nat → Nat) (remaining : Nat) :
    ∀ count local_port : Nat,
      StartListeningLoop GetRandomPort (fun _ _ => false) remaining count local_port false
        = (false, if remaining = 0 then local_port else GetRandomPort (count + remaining)) := by
  induction remaining with
  | zero =>
    intro count local_port
    simp [StartListeningLoop]
  | succ n ih =>
    intro count local_port
    simp only [StartListeningLoop, Bool.false_eq_true, if_false, ih]
    by_cases hn : n = 0
    · simp [hn]
    · have harg : count + 1 + n = count + (n + 1) := by omega
      simp [hn, harg]

theorem StartListeningPort_all_fail (c : ClientController) (GetRandomPort : Nat → Nat) :
    StartListeningPort c GetRandomPort (fun _ _ => false)
      = (false, { c with local_port_ := GetRandomPort 100 }) := by
  simp [StartListeningPort, StartListeningLoop_all_fail]

theorem construct_state (I : Invigilator) (GetRandomPort : Nat → Nat)
    (StartListening : Nat → Nat → Bool) (Connect : Nat → Nat → Bool)
    (registration : State) (fuel : Nat) (c : ClientController) (attempts : List Nat)
    (h : construct I GetRandomPort StartListening Connect registration fuel
      = some (c, attempts)) :
    c.state_ = State.kVerified := by
  unfold construct at h
  simp only at h
  split at h
  · cases h
  · simp only [Option.some.injEq, Prod.mk.injEq] at h
    rw [← h.1]

/-- C30: with the ports 5483 to 5485, every one of the 101 attempts of `StartListeningPort`
failing (whatever ports `GetRandomPort` gives; `local_port_` is left at the last one tried)
and no manager accepting on any port, the constructor tries the three ports and still ends
with `state_` equal to `kVerified`. On that controller `BootstrapEndpoints` returns true,
`StartVault` passes its state check and goes on to wait for the join confirmation when its
request is answered, `StopVault` sends its request, and `GetUpdateInterval` builds and
sends a request and returns the reported interval. -/
theorem construct_overwrites_kFailed (GetRandomPort : Nat → Nat) :
    construct ⟨5483, 5485, 300, 600⟩ GetRandomPort (fun _ _ => false) (fun _ _ => false)
          State.kFailed 4
        = some (⟨5485, GetRandomPort 100, State.kVerified, []⟩, [5483, 5484, 5485]) ∧
      BootstrapEndpoints ⟨5485, GetRandomPort 100, State.kVerified, []⟩ [("::1", 5483)] []
        = (true, [("::1", 5483)]) ∧
      StartVault_until_wait ⟨5485, GetRandomPort 100, State.kVerified, []⟩ 7
          ⟨true, true, some true⟩
        = (none, ⟨5485, GetRandomPort 100, State.kVerified, [(7, false)]⟩) ∧
      StopVault ⟨5485, GetRandomPort 100, State.kVerified, []⟩ true (some true)
        = (true, true) ∧
      GetUpdateInterval ⟨5485, GetRandomPort 100, State.kVerified, []⟩
          (Exchange.message_received (ReceivedMessage.UpdateIntervalResponse 600))
        = { result := time_duration.seconds 600, built := some ⟨none⟩, sent := some ⟨none⟩ } := by
  refine ⟨?_, rfl, rfl, rfl, rfl⟩
  simp only [construct, StartListeningPort_all_fail]
  rfl

end ClientController

end process_management

end priv

namespace priv

namespace chunk_store

open vault_manager (Outcome Error)

theorem chunks_find_erase (chunks : List (ChunkId × Nat × List Nat)) (name other : ChunkId) :
    chunks_find (chunks_erase chunks name) other
      = if other = name then none else chunks_find chunks other := by
  induction chunks with
  | nil => simp [chunks_erase, chunks_find]
  | cons e rest ih =>
    obtain ⟨k, entry⟩ := e
    have ih' : chunks_find (List.filter (fun e => decide (e.1 ≠ name)) rest) other
        = if other = name then none else chunks_find rest other := ih
    by_cases hk : k = name
    · have hf : List.filter (fun e => decide (e.1 ≠ name)) ((k, entry) :: rest)
          = List.filter (fun e => decide (e.1 ≠ name)) rest :=
        List.filter_cons_of_neg (by simp [hk])
      simp only [chunks_erase, hf, ih']
      by_cases ho : other = name
      · simp [ho]
      · have hko : ¬ k = other := fun h => ho (h.symm.trans hk)
        simp [ho, chunks_find, hko]
    · have hf : List.filter (fun e => decide (e.1 ≠ name)) ((k, entry) :: rest)
          = (k, entry) :: List.filter (fun e => decide (e.1 ≠ name)) rest :=
        List.filter_cons_of_pos (by simp [hk])
      simp only [chunks_erase, hf]
      by_cases hko : k = other
      · have ho : ¬ other = name := fun h => hk (hko.trans h)
        simp [chunks_find, hko, ho]
      · simp only [chunks_find, hko, if_false, ih']

namespace MemoryChunkStore

/-! ## Modifying a chunk -/

set_option maxRecDepth 20000

theorem BEH_Modify_passes :
    BEH_Modify Modify [0] [123] [1] (List.replicate 123 1) (List.replicate 125 2)
      (List.replicate 120 3) (List.replicate 456 4) (List.replicate 460 5) = true := by
  decide

theorem BEH_Modify_fails_with_Modify_spec :
    BEH_Modify (Modify_spec (fun bytes => [bytes.length])) [0] [123] [1] (List.replicate 123 1)
      (List.replicate 125 2) (List.replicate 120 3) (List.replicate 456 4)
      (List.replicate 460 5) = false := by
  decide

theorem Store_absent (s : MemoryChunkStore) (name : ChunkId) (b : List Nat)
    (hname : name ≠ []) (hb : b ≠ []) (hnone : chunks_find s.chunks_ name = none)
    (hstored : (Store s name b).1 = Outcome.returned true) :
    Store s name b
        = (Outcome.returned true, { s with chunks_ := s.chunks_ ++ [(name, 1, b)] }) ∧
      chunks_find (Store s name b).2.chunks_ name = some (1, b) := by
  have hvac : Vacant s b.length = true := by
    cases hv : Vacant s b.length with
    | true => rfl
    | false => simp [Store, hname, hb, hnone, hv] at hstored
  have hs : Store s name b
      = (Outcome.returned true, { s with chunks_ := s.chunks_ ++ [(name, 1, b)] }) := by
    simp [Store, hname, hb, hnone, hvac]
  refine ⟨hs, ?_⟩
  rw [hs]
  simp [chunks_find_append, hnone]

theorem Modify_present (s : MemoryChunkStore) (name : ChunkId) (content : List Nat)
    (entry : Nat × List Nat) (hname : name ≠ []) (hcontent : content ≠ [])
    (h : chunks_find s.chunks_ name = some entry) :
    (content.length ≤ entry.2.length ∨ Vacant s (content.length - entry.2.length) = true →
      Modify s name content
        = (Outcome.returned true,
            { s with chunks_ := chunks_replace s.chunks_ name (entry.1, content) })) ∧
    (entry.2.length < content.length ∧ Vacant s (content.length - entry.2.length) = false →
      Modify s name content = (Outcome.returned false, s)) := by
  constructor
  · intro hfit
    have hcond : ¬ (entry.2.length < content.length
        ∧ (!Vacant s (content.length - entry.2.length)) = true) := by
      rintro ⟨h1, h2⟩
      rcases hfit with hfit | hfit
      · omega
      · simp [hfit] at h2
    simp only [Modify, hname, hcontent, or_self, if_false, h]
    rw [if_neg hcond]
  · rintro ⟨h1, h2⟩
    have hcond : entry.2.length < content.length
        ∧ (!Vacant s (content.length - entry.2.length)) = true := ⟨h1, by simp [h2]⟩
    simp only [Modify, hname, hcontent, or_self, if_false, h]
    rw [if_pos hcond]

/-- C21, as amended: for every `h`, `b1` and `b2` (whether or not `h b2` differs from
`h b1`), after `Store(h(b1), b1)` succeeded on a store that did not hold the id, the
call `Modify(h(b1), b2)` is accepted whenever `b2` is not longer than `b1` or the increase
fits the capacity: it returns true, `Get(h(b1))` is then `b2`, `Size(h(b1))` is `|b2|` and
`Count(h(b1))` is as before. It is rejected, with the store unchanged, only when `b2` is
longer than `b1` and the increase does not fit the capacity. -/
theorem Modify_hash_named_follows_capacity (h : List Nat → ChunkId) (s : MemoryChunkStore)
    (b1 b2 : List Nat) (hname : h b1 ≠ []) (hb1 : b1 ≠ []) (hb2 : b2 ≠ [])
    (habsent : Has s (h b1) = Outcome.returned false)
    (hstored : (Store s (h b1) b1).1 = Outcome.returned true) :
    (b2.length ≤ b1.length ∨ Vacant (Store s (h b1) b1).2 (b2.length - b1.length) = true →
      (Modify (Store s (h b1) b1).2 (h b1) b2).1 = Outcome.returned true ∧
      Get (Modify (Store s (h b1) b1).2 (h b1) b2).2 (h b1) = Outcome.returned b2 ∧
      Size_name (Modify (Store s (h b1) b1).2 (h b1) b2).2 (h b1)
        = Outcome.returned b2.length ∧
      Count_name (Modify (Store s (h b1) b1).2 (h b1) b2).2 (h b1)
        = Count_name (Store s (h b1) b1).2 (h b1)) ∧
    (b1.length < b2.length ∧ Vacant (Store s (h b1) b1).2 (b2.length - b1.length) = false →
      Modify (Store s (h b1) b1).2 (h b1) b2 = (Outcome.returned false, (Store s (h b1) b1).2) ∧
      Get (Store s (h b1) b1).2 (h b1) = Outcome.returned b1 ∧
      Size_name (Store s (h b1) b1).2 (h b1) = Outcome.returned b1.length) := by
  have hnone : chunks_find s.chunks_ (h b1) = none := by
    cases hf : chunks_find s.chunks_ (h b1) with
    | none => rfl
    | some e => simp [Has, hname, hf] at habsent
  obtain ⟨_, hfind⟩ := Store_absent s (h b1) b1 hname hb1 hnone hstored
  obtain ⟨hok, hno⟩ := Modify_present (Store s (h b1) b1).2 (h b1) b2 (1, b1) hname hb2 hfind
  constructor
  · intro hfit
    have hm := hok hfit
    have hfind2 :
        chunks_find (Modify (Store s (h b1) b1).2 (h b1) b2).2.chunks_ (h b1) = some (1, b2) := by
      rw [hm]
      simp [chunks_find_replace, hfind]
    refine ⟨by rw [hm], ?_, ?_, ?_⟩
    · simp [Get, hname, hfind2]
    · simp [Size_name, size_of, hname, hfind2]
    · simp [Count_name, references, hname, hfind2, hfind]
  · intro hfull
    refine ⟨hno hfull, ?_, ?_⟩
    · simp [Get, hname, hfind]
    · simp [Size_name, size_of, hname, hfind]

/-- The bytes 1, 2, 3 stored under their length as name in the empty store, then modified
to the longer bytes 4, 5, 6, 7: accepted, as the store has no capacity set. -/
theorem Modify_hash_named_follows_capacity_witness :
    (Modify (Store empty [3] [1, 2, 3]).2 [3] [4, 5, 6, 7]).1 = Outcome.returned true ∧
      Get (Modify (Store empty [3] [1, 2, 3]).2 [3] [4, 5, 6, 7]).2 [3]
        = Outcome.returned [4, 5, 6, 7] ∧
      Size_name (Modify (Store empty [3] [1, 2, 3]).2 [3] [4, 5, 6, 7]).2 [3]
        = Outcome.returned 4 ∧
      Count_name (Modify (Store empty [3] [1, 2, 3]).2 [3] [4, 5, 6, 7]).2 [3]
        = Count_name (Store empty [3] [1, 2, 3]).2 [3] :=
  (Modify_hash_named_follows_capacity (fun bytes => [bytes.length]) empty [1, 2, 3]
    [4, 5, 6, 7] (by decide) (by decide) (by decide) (by decide) (by decide)).1
    (Or.inr (by decide))

/-- C21, the claim as worded fails: with the length of the bytes as hash, the bytes
1, 2, 3 are stored under their hash and then modified to 4, 5, whose hash is another
one: the call returns true and the chunk holds 4, 5 with size 2. -/
theorem Modify_hash_named_is_accepted :
    (fun bytes : List Nat => [bytes.length]) [4, 5]
        ≠ (fun bytes : List Nat => [bytes.length]) [1, 2, 3] ∧
      (Store empty [3] [1, 2, 3]).1 = Outcome.returned true ∧
      (Modify (Store empty [3] [1, 2, 3]).2 [3] [4, 5]).1 = Outcome.returned true ∧
      Get (Modify (Store empty [3] [1, 2, 3]).2 [3] [4, 5]).2 [3] = Outcome.returned [4, 5] ∧
      Size_name (Modify (Store empty [3] [1, 2, 3]).2 [3] [4, 5]).2 [3] = Outcome.returned 2 := by
  decide

/-! ## Moving a chunk to another store -/

theorem Store_find (b : MemoryChunkStore) (name : ChunkId) (content : List Nat)
    (hname : name ≠ []) (hcontent : content ≠ [])
    (hstored : (Store b name content).1 = Outcome.returned true) :
    chunks_find (Store b name content).2.chunks_ name
      = some (match chunks_find b.chunks_ name with
          | some eb => (eb.1 + 1, eb.2)
          | none => (1, content)) := by
  cases hb : chunks_find b.chunks_ name with
  | none => exact (Store_absent b name content hname hcontent hb hstored).2
  | some eb => exact (Store_present b name content eb hname hcontent hb).2.1

theorem Delete_references (s : MemoryChunkStore) (name other : ChunkId) (hname : name ≠ []) :
    (Delete s name).1 = Outcome.returned true ∧
      references (Delete s name).2 other
        = if other = name then references s name - 1 else references s other := by
  cases hf : chunks_find s.chunks_ name with
  | none =>
    by_cases ho : other = name
    · subst ho
      simp [Delete, hname, hf, references]
    · simp [Delete, hname, hf, ho]
  | some entry =>
    by_cases h1 : entry.1 ≤ 1
    · have hd : Delete s name
          = (Outcome.returned true, { s with chunks_ := chunks_erase s.chunks_ name }) := by
        simp [Delete, hname, hf, h1]
      rw [hd]
      refine ⟨rfl, ?_⟩
      by_cases ho : other = name
      · subst ho
        simp only [references, chunks_find_erase, if_true, hf]
        omega
      · simp [references, chunks_find_erase, ho]
    · have hd : Delete s name
          = (Outcome.returned true,
              { s with chunks_ := chunks_replace s.chunks_ name (entry.1 - 1, entry.2) }) := by
        simp [Delete, hname, hf, h1]
      rw [hd]
      refine ⟨rfl, ?_⟩
      by_cases ho : other = name
      · subst ho
        simp [references, chunks_find_replace, hf]
      · simp [references, chunks_find_replace, ho]

theorem MoveTo_some (a b : MemoryChunkStore) (name : ChunkId) (entry : Nat × List Nat)
    (hname : name ≠ []) (hfind : chunks_find a.chunks_ name = some entry)
    (hbytes : entry.2 ≠ []) :
    ((chunks_find b.chunks_ name).isSome = true ∨ Vacant b entry.2.length = true →
      MoveTo a name (some b)
        = (Outcome.returned true, (Delete a name).2, some (Store b name entry.2).2) ∧
      (Store b name entry.2).1 = Outcome.returned true) ∧
    (¬ ((chunks_find b.chunks_ name).isSome = true ∨ Vacant b entry.2.length = true) →
      MoveTo a name (some b) = (Outcome.returned false, a, some b)) := by
  cases hb : chunks_find b.chunks_ name with
  | some eb =>
    obtain ⟨hs, _, _⟩ := Store_present b name entry.2 eb hname hbytes hb
    constructor
    · intro _
      simp only [MoveTo, hname, if_false, hfind]
      rw [hs]
      exact ⟨rfl, rfl⟩
    · intro hno
      exact absurd (Or.inl rfl) hno
  | none =>
    cases hv : Vacant b entry.2.length with
    | true =>
      have hs : Store b name entry.2
          = (Outcome.returned true,
              { b with chunks_ := b.chunks_ ++ [(name, 1, entry.2)] }) := by
        simp [Store, hname, hbytes, hb, hv]
      constructor
      · intro _
        simp only [MoveTo, hname, if_false, hfind]
        rw [hs]
        exact ⟨rfl, rfl⟩
      · intro hno
        exact absurd (Or.inr rfl) hno
    | false =>
      have hs : Store b name entry.2 = (Outcome.returned false, b) := by
        simp [Store, hname, hbytes, hb, hv]
      constructor
      · intro hyes
        simp at hyes
      · intro _
        simp only [MoveTo, hname, if_false, hfind]
        rw [hs]

theorem apply_nonEmptyBytes (s : MemoryChunkStore) (operation : Operation)
    (h : NonEmptyBytes s) : NonEmptyBytes (apply s operation) := by
  cases operation with
  | Store name content =>
    simp only [apply, Store]
    split
    · exact h
    · rename_i hvalid
      split
      · rename_i entry hf
        intro e he
        rcases chunks_replace_mem _ _ _ _ he with he | he
        · exact h e he
        · rw [he]
          exact h (name, entry) (chunks_find_some_mem _ _ _ hf)
      · split
        · exact h
        · intro e he
          rcases List.mem_append.mp he with he | he
          · exact h e he
          · have he' : e = (name, 1, content) := by simpa using he
            rw [he']
            exact fun hc => hvalid (Or.inr hc)
  | Delete name =>
    simp only [apply, Delete]
    split
    · exact h
    · split
      · exact h
      · rename_i entry hf
        split
        · intro e he
          exact h e (List.mem_of_mem_filter he)
        · intro e he
          rcases chunks_replace_mem _ _ _ _ he with he | he
          · exact h e he
          · rw [he]
            exact h (name, entry) (chunks_find_some_mem _ _ _ hf)
  | Clear =>
    intro e he
    simp [apply, Clear] at he
  | SetCapacity capacity => exact h

theorem run_nonEmptyBytes (operations : List Operation) :
    ∀ s : MemoryChunkStore, NonEmptyBytes s → NonEmptyBytes (run s operations) := by
  induction operations with
  | nil => exact fun s h => h
  | cons operation rest ih =>
    intro s h
    exact ih (apply s operation) (apply_nonEmptyBytes s operation h)

theorem Modify_nonEmptyBytes (s : MemoryChunkStore) (name : ChunkId) (content : List Nat)
    (h : NonEmptyBytes s) : NonEmptyBytes (Modify s name content).2 := by
  simp only [Modify]
  split
  · exact h
  · rename_i hvalid
    split
    · exact h
    · split
      · exact h
      · intro e he
        rcases chunks_replace_mem _ _ _ _ he with he | he
        · exact h e he
        · rw [he]
          exact fun hc => hvalid (Or.inr hc)

/-- C25, as amended: for a store A whose chunks all have bytes (as `Store` and `Modify`
leave it), a non-empty id and a distinct store B or a null pointer, `A.MoveTo(id, B)` returns true iff A holds id, B is
non-null, and B either holds id already or has room for the bytes; on success the
references of id in A decrease by one (the chunk is gone from A when they were at most
one), those in B increase by one, and `B.Get(id)` is the moved bytes when B did not
hold id and is what it was before when B held id; in every other case the call returns
false and leaves A and B unchanged. -/
theorem MoveTo_moves_one_reference (a : MemoryChunkStore) (name : ChunkId)
    (sink : Option MemoryChunkStore) (hname : name ≠ []) (hbytes : NonEmptyBytes a) :
    ((MoveTo a name sink).1 = Outcome.returned true ↔
      ∃ entry b, chunks_find a.chunks_ name = some entry ∧ sink = some b ∧
        ((chunks_find b.chunks_ name).isSome = true ∨ Vacant b entry.2.length = true)) ∧
    ((MoveTo a name sink).1 = Outcome.returned true →
      ∃ entry b b', chunks_find a.chunks_ name = some entry ∧ sink = some b ∧
        (MoveTo a name sink).2.2 = some b' ∧
        references (MoveTo a name sink).2.1 name = references a name - 1 ∧
        (references a name ≤ 1 → Has (MoveTo a name sink).2.1 name = Outcome.returned false) ∧
        references b' name = references b name + 1 ∧
        (chunks_find b.chunks_ name = none → Get b' name = Outcome.returned entry.2) ∧
        ((chunks_find b.chunks_ name).isSome = true → Get b' name = Get b name)) ∧
    ((MoveTo a name sink).1 ≠ Outcome.returned true →
      (MoveTo a name sink).1 = Outcome.returned false ∧ (MoveTo a name sink).2 = (a, sink)) := by
  cases sink with
  | none =>
    have hm : MoveTo a name none = (Outcome.returned false, a, none) := by
      simp [MoveTo, hname]
    rw [hm]
    refine ⟨⟨(fun h => by cases h), ?_⟩, (fun h => by cases h), fun _ => ⟨rfl, rfl⟩⟩
    rintro ⟨_, _, _, h, _⟩
    cases h
  | some b =>
    cases hfind : chunks_find a.chunks_ name with
    | none =>
      have hm : MoveTo a name (some b) = (Outcome.returned false, a, some b) := by
        simp [MoveTo, hname, hfind]
      rw [hm]
      refine ⟨⟨(fun h => by cases h), ?_⟩, (fun h => by cases h), fun _ => ⟨rfl, rfl⟩⟩
      rintro ⟨_, _, h, _⟩
      cases h
    | some entry =>
      have hne : entry.2 ≠ [] := hbytes (name, entry) (chunks_find_some_mem _ _ _ hfind)
      obtain ⟨hyes, hno⟩ := MoveTo_some a b name entry hname hfind hne
      by_cases hc : (chunks_find b.chunks_ name).isSome = true ∨ Vacant b entry.2.length = true
      · obtain ⟨hm, hst⟩ := hyes hc
        rw [hm]
        refine ⟨⟨fun _ => ⟨entry, b, rfl, rfl, hc⟩, fun _ => rfl⟩, ?_, fun h => absurd rfl h⟩
        intro _
        refine ⟨entry, b, (Store b name entry.2).2, rfl, rfl, rfl, ?_, ?_, ?_, ?_, ?_⟩
        · have hd := (Delete_references a name name hname).2
          simpa using hd
        · intro hle
          have h1 : entry.1 ≤ 1 := by simpa [references, hfind] using hle
          have hd : Delete a name
              = (Outcome.returned true, { a with chunks_ := chunks_erase a.chunks_ name }) := by
            simp [Delete, hname, hfind, h1]
          simp [hd, Has, hname, chunks_find_erase]
        · rw [references, Store_find b name entry.2 hname hne hst]
          cases hb : chunks_find b.chunks_ name with
          | none => simp [references, hb]
          | some eb => simp [references, hb]
        · intro hb
          simp [Get, hname, Store_find b name entry.2 hname hne hst, hb]
        · intro hb
          cases hb' : chunks_find b.chunks_ name with
          | none => simp [hb'] at hb
          | some eb =>
            simp [Get, hname, Store_find b name entry.2 hname hne hst, hb']
      · have hm := hno hc
        rw [hm]
        refine ⟨⟨(fun h => by cases h), ?_⟩, (fun h => by cases h), fun _ => ⟨rfl, rfl⟩⟩
        rintro ⟨entry', b', h1, h2, h3⟩
        cases h1
        cases h2
        exact absurd h3 hc

/-- The chunk named 1 with bytes 1, 2 moved from a store that holds it once to the empty
store: the move succeeds. -/
theorem MoveTo_moves_one_reference_witness :
    (MoveTo (Store empty [1] [1, 2]).2 [1] (some empty)).1 = Outcome.returned true ↔
      ∃ entry b, chunks_find (Store empty [1] [1, 2]).2.chunks_ [1] = some entry ∧
        some empty = some b ∧
        ((chunks_find b.chunks_ [1]).isSome = true ∨ Vacant b entry.2.length = true) :=
  (MoveTo_moves_one_reference (Store empty [1] [1, 2]).2 [1] (some empty) (by decide)
    (run_nonEmptyBytes [Operation.Store [1] [1, 2]] empty (by simp [NonEmptyBytes, empty]))).1

/-- C25, the claim as worded fails: the store A holds the id 1 with the bytes 1, 2 and the
store B holds the id 1 with the byte 9. `A.MoveTo(1, B)` returns true and the count of
the id in B goes from 1 to 2, but `B.Get(1)` is still the byte 9, not the moved bytes. -/
theorem MoveTo_keeps_bytes_of_sink :
    (MoveTo (Store empty [1] [1, 2]).2 [1] (some (Store empty [1] [9]).2)).1
        = Outcome.returned true ∧
      Get (Store empty [1] [1, 2]).2 [1] = Outcome.returned [1, 2] ∧
      (MoveTo (Store empty [1] [1, 2]).2 [1] (some (Store empty [1] [9]).2)).2.2.map
          (fun b => (Count_name b [1], Get b [1]))
        = some (Outcome.returned 2, Outcome.returned [9]) := by
  decide

end MemoryChunkStore

namespace BufferedChunkStore

/-! ## The permanent layer and the deletion marks -/

set_option maxRecDepth 20000

theorem BEH_PermanentStore_passes :
    BEH_PermanentStore PermanentStore [1] [2] (List.replicate 100 7) = true := by
  decide

theorem BEH_PermanentStore_fails_with_PermanentStore_spec :
    BEH_PermanentStore PermanentStore_spec [1] [2] (List.replicate 100 7) = false := by
  decide

theorem BEH_DeleteAllMarked_passes :
    BEH_DeleteAllMarked [1] [2] (List.replicate 100 7) = true := by
  decide

theorem MarkForDeletion_all_eq (names : List ChunkId) :
    ∀ s : BufferedChunkStore, MarkForDeletion_all s names
      = { s with removable_chunks_ :=
            s.removable_chunks_ ++ names.filter (fun k => decide (k ≠ [])) } := by
  induction names with
  | nil =>
    intro s
    simp [MarkForDeletion_all]
  | cons k rest ih =>
    intro s
    have hstep : MarkForDeletion_all s (k :: rest)
        = MarkForDeletion_all (MarkForDeletion s k) rest := rfl
    rw [hstep, ih]
    by_cases hk : k = []
    · simp [MarkForDeletion, hk]
    · simp [MarkForDeletion, hk]

theorem marks_MarkForDeletion_all (s : BufferedChunkStore) (names : List ChunkId)
    (name : ChunkId) (hname : name ≠ []) :
    marks (MarkForDeletion_all s names) name
      = marks s name + (names.filter (fun k => decide (k = name))).length := by
  rw [MarkForDeletion_all_eq]
  simp only [marks, List.filter_append, List.length_append, List.filter_filter]
  congr 2
  apply List.filter_congr
  intro k _
  by_cases hk : k = name
  · simp [hk, hname]
  · simp [hk]

theorem removable_nonempty_MarkForDeletion_all (s : BufferedChunkStore) (names : List ChunkId)
    (h : ∀ k ∈ s.removable_chunks_, k ≠ []) :
    ∀ k ∈ (MarkForDeletion_all s names).removable_chunks_, k ≠ [] := by
  rw [MarkForDeletion_all_eq]
  intro k hk
  rcases List.mem_append.mp hk with hk | hk
  · exact h k hk
  · simpa using (List.mem_filter.mp hk).2

theorem delete_marked_references (names : List ChunkId) (other : ChunkId) :
    ∀ (done : Bool) (p : MemoryChunkStore), (∀ k ∈ names, k ≠ []) →
      (delete_marked names (done, p)).1 = done ∧
      MemoryChunkStore.references (delete_marked names (done, p)).2 other
        = MemoryChunkStore.references p other
          - (names.filter (fun k => decide (k = other))).length := by
  induction names with
  | nil =>
    intro done p _
    simp [delete_marked]
  | cons k rest ih =>
    intro done p hall
    have hk : k ≠ [] := hall k (List.mem_cons_self _ _)
    obtain ⟨hd1, hd2⟩ := MemoryChunkStore.Delete_references p k other hk
    have hstep : delete_marked (k :: rest) (done, p)
        = delete_marked rest
            (done && decide ((MemoryChunkStore.Delete p k).1 = Outcome.returned true),
              (MemoryChunkStore.Delete p k).2) := rfl
    obtain ⟨h1, h2⟩ := ih
      (done && decide ((MemoryChunkStore.Delete p k).1 = Outcome.returned true))
      (MemoryChunkStore.Delete p k).2 (fun j hj => hall j (List.mem_cons_of_mem _ hj))
    rw [hstep, h1, h2, hd1, hd2]
    refine ⟨by simp, ?_⟩
    by_cases hko : k = other
    · subst hko
      have hc : (List.filter (fun j => decide (j = k)) (k :: rest)).length
          = (List.filter (fun j => decide (j = k)) rest).length + 1 := by simp
      simp only [if_true, hc]
      omega
    · have hok : ¬ other = k := fun h => hko h.symm
      simp [hok, hko]

/-- C22: in a store where the non-empty id has no deletion marks, after any sequence of
`MarkForDeletion` calls of which `m` are for the id, `PermanentHas(id)` is true exactly when
`m` is below the number R of permanent references of the id, so it is true after fewer
than R marks and false after R marks; marking changes `Count` of no id; and `Has(id)` is
true whatever the marks as long as the id is in the cache. -/
theorem PermanentHas_until_all_references_marked (s : BufferedChunkStore)
    (marked : List ChunkId) (name : ChunkId) (hname : name ≠ [])
    (hunmarked : marks s name = 0) :
    PermanentHas (MarkForDeletion_all s marked) name
      = Outcome.returned (decide ((marked.filter (fun k => decide (k = name))).length
          < MemoryChunkStore.references s.permanent_ name)) ∧
    (∀ other, Count_name (MarkForDeletion_all s marked) other = Count_name s other) ∧
    (CacheHas s name = Outcome.returned true →
      CacheHas (MarkForDeletion_all s marked) name = Outcome.returned true ∧
      Has (MarkForDeletion_all s marked) name = Outcome.returned true) := by
  have hm := marks_MarkForDeletion_all s marked name hname
  rw [hunmarked, Nat.zero_add] at hm
  have hperm : (MarkForDeletion_all s marked).permanent_ = s.permanent_ := by
    rw [MarkForDeletion_all_eq]
  have hcache : (MarkForDeletion_all s marked).cache_ = s.cache_ := by
    rw [MarkForDeletion_all_eq]
  refine ⟨?_, ?_, ?_⟩
  · simp only [PermanentHas, hname, if_false, hm, hperm]
  · intro other
    simp only [Count_name, hperm]
  · intro hc
    have hcached : ChunkCache.cached s.cache_ name = true := by
      simpa [CacheHas, ChunkCache.CacheHas, hname] using hc
    constructor
    · simp only [CacheHas, hcache]
      exact hc
    · simp [Has, hname, hcache, hcached]

/-- The id 1 stored three times in a new store: after two marks it is permanently held
and after three it is not. -/
theorem PermanentHas_until_all_references_marked_witness :
    (PermanentHas (MarkForDeletion_all
        (Store (Store (Store empty [1] [7]).2 [1] [7]).2 [1] [7]).2 [[1], [1]]) [1]
      = Outcome.returned true) ∧
    (PermanentHas (MarkForDeletion_all
        (Store (Store (Store empty [1] [7]).2 [1] [7]).2 [1] [7]).2 [[1], [1], [1]]) [1]
      = Outcome.returned false) :=
  ⟨(PermanentHas_until_all_references_marked
      (Store (Store (Store empty [1] [7]).2 [1] [7]).2 [1] [7]).2 [[1], [1]] [1]
      (by decide) (by decide)).1,
    (PermanentHas_until_all_references_marked
      (Store (Store (Store empty [1] [7]).2 [1] [7]).2 [1] [7]).2 [[1], [1], [1]] [1]
      (by decide) (by decide)).1⟩

/-- C23, as amended: if the non-empty id has R >= 1 permanent references and at least one
outstanding deletion mark, `PermanentStore(id)` succeeds, clears every deletion mark of the
id, leaves the marks of the other ids, R and the cache as they were, and `PermanentHas(id)`
is true again; after `k` further `MarkForDeletion(id)` calls `PermanentHas(id)` is true
exactly when `k` is below R, so it takes R further marks, not one, to make it false. -/
theorem PermanentStore_clears_all_marks (s : BufferedChunkStore) (name : ChunkId)
    (hname : name ≠ []) (hR : 1 ≤ MemoryChunkStore.references s.permanent_ name)
    (hm : 1 ≤ marks s name) :
    (PermanentStore s name).1 = Outcome.returned true ∧
    marks (PermanentStore s name).2 name = 0 ∧
    (∀ other, other ≠ name → marks (PermanentStore s name).2 other = marks s other) ∧
    (PermanentStore s name).2.permanent_ = s.permanent_ ∧
    (PermanentStore s name).2.cache_ = s.cache_ ∧
    PermanentHas (PermanentStore s name).2 name = Outcome.returned true ∧
    ∀ k, PermanentHas
        (MarkForDeletion_all (PermanentStore s name).2 (List.replicate k name)) name
      = Outcome.returned (decide (k < MemoryChunkStore.references s.permanent_ name)) := by
  have hps : PermanentStore s name
      = (Outcome.returned true,
          { s with removable_chunks_ := clear_marks s.removable_chunks_ name }) := by
    have h1 : ¬ (cache_find s.cache_.cache_ name = none
        ∧ MemoryChunkStore.references s.permanent_ name = 0) := by
      rintro ⟨_, h0⟩
      omega
    have h2 : 0 < marks s name := hm
    simp only [PermanentStore, PermanentStore_with, hname, if_false, h1, h2, if_true]
  have hzero : marks (PermanentStore s name).2 name = 0 := by
    rw [hps]
    simp [marks, clear_marks, List.filter_filter]
  have hperm : (PermanentStore s name).2.permanent_ = s.permanent_ := by rw [hps]
  refine ⟨by rw [hps], hzero, ?_, hperm, by rw [hps], ?_, ?_⟩
  · intro other hother
    rw [hps]
    simp only [marks, clear_marks, List.filter_filter]
    congr 1
    apply List.filter_congr
    intro k _
    by_cases hk : k = other
    · simp [hk, hother]
    · simp [hk]
  · simp only [PermanentHas, hname, if_false, hzero, hperm]
    simpa using hR
  · intro k
    have hk := marks_MarkForDeletion_all (PermanentStore s name).2 (List.replicate k name)
      name hname
    have hkperm : (MarkForDeletion_all (PermanentStore s name).2
        (List.replicate k name)).permanent_ = s.permanent_ := by
      rw [MarkForDeletion_all_eq]
      exact hperm
    have hcount : ((List.replicate k name).filter (fun j => decide (j = name))).length = k := by
      rw [List.filter_eq_self.mpr, List.length_replicate]
      intro j hj
      simp [List.eq_of_mem_replicate hj]
    rw [hzero, Nat.zero_add, hcount] at hk
    simp only [PermanentHas, hname, if_false, hk, hkperm]

/-- The id 1 stored three times and marked three times: `PermanentStore` clears the three
marks. -/
theorem PermanentStore_clears_all_marks_witness :
    marks (PermanentStore (MarkForDeletion_all
        (Store (Store (Store empty [1] [7]).2 [1] [7]).2 [1] [7]).2 [[1], [1], [1]]) [1]).2 [1]
      = 0 :=
  (PermanentStore_clears_all_marks (MarkForDeletion_all
      (Store (Store (Store empty [1] [7]).2 [1] [7]).2 [1] [7]).2 [[1], [1], [1]]) [1]
    (by decide) (by decide) (by decide)).2.1

/-- C23, the claim as worded fails: the id 1 is stored three times and marked three times,
as in lines 506 to 527 of the test `BEH_PermanentStore`. `PermanentStore` succeeds and
leaves no mark, not two, and after a single further `MarkForDeletion` the id is still
permanently held. -/
theorem PermanentStore_then_one_mark_still_held :
    Count_name (MarkForDeletion_all
        (Store (Store (Store empty [1] [7]).2 [1] [7]).2 [1] [7]).2 [[1], [1], [1]]) [1]
      = Outcome.returned 3 ∧
    marks (MarkForDeletion_all
        (Store (Store (Store empty [1] [7]).2 [1] [7]).2 [1] [7]).2 [[1], [1], [1]]) [1] = 3 ∧
    (PermanentStore (MarkForDeletion_all
        (Store (Store (Store empty [1] [7]).2 [1] [7]).2 [1] [7]).2 [[1], [1], [1]]) [1]).1
      = Outcome.returned true ∧
    marks (PermanentStore (MarkForDeletion_all
        (Store (Store (Store empty [1] [7]).2 [1] [7]).2 [1] [7]).2 [[1], [1], [1]]) [1]).2 [1]
      = 0 ∧
    PermanentHas (MarkForDeletion (PermanentStore (MarkForDeletion_all
        (Store (Store (Store empty [1] [7]).2 [1] [7]).2 [1] [7]).2 [[1], [1], [1]]) [1]).2
        [1]) [1]
      = Outcome.returned true := by
  decide

/-- C24: in a store whose removable list holds no empty id, after any sequence of
`MarkForDeletion` calls, let `m` be the deletion marks of a non-empty id (those it had plus
those of the sequence) and R its permanent references. Then `GetRemovableChunks` lists the
id exactly `m` times, and `DeleteAllMarked` returns true and leaves `Count(id) = R - m`
(0 when `m` exceeds R), `PermanentHas(id)` true iff `m < R`, `GetRemovableChunks` empty,
and the count of every id without a mark unchanged. -/
theorem DeleteAllMarked_deletes_once_per_mark (s : BufferedChunkStore)
    (marked : List ChunkId) (name : ChunkId) (hname : name ≠ [])
    (hvalid : ∀ k ∈ s.removable_chunks_, k ≠ []) :
    ((GetRemovableChunks (MarkForDeletion_all s marked)).filter
        (fun k => decide (k = name))).length
      = marks s name + (marked.filter (fun k => decide (k = name))).length ∧
    (DeleteAllMarked (MarkForDeletion_all s marked)).1 = Outcome.returned true ∧
    Count_name (DeleteAllMarked (MarkForDeletion_all s marked)).2 name
      = Outcome.returned (MemoryChunkStore.references s.permanent_ name
          - (marks s name + (marked.filter (fun k => decide (k = name))).length)) ∧
    PermanentHas (DeleteAllMarked (MarkForDeletion_all s marked)).2 name
      = Outcome.returned (decide (marks s name
          + (marked.filter (fun k => decide (k = name))).length
            < MemoryChunkStore.references s.permanent_ name)) ∧
    GetRemovableChunks (DeleteAllMarked (MarkForDeletion_all s marked)).2 = [] ∧
    (∀ other, marks (MarkForDeletion_all s marked) other = 0 →
      Count_name (DeleteAllMarked (MarkForDeletion_all s marked)).2 other
        = Count_name s other) := by
  have hm := marks_MarkForDeletion_all s marked name hname
  have hperm : (MarkForDeletion_all s marked).permanent_ = s.permanent_ := by
    rw [MarkForDeletion_all_eq]
  have hall := removable_nonempty_MarkForDeletion_all s marked hvalid
  have hdel := fun other => delete_marked_references
    (MarkForDeletion_all s marked).removable_chunks_ other true
    (MarkForDeletion_all s marked).permanent_ hall
  refine ⟨hm, ?_, ?_, ?_, rfl, ?_⟩
  · simp only [DeleteAllMarked, (hdel name).1]
  · simp only [Count_name, MemoryChunkStore.Count_name, hname, if_false, DeleteAllMarked]
    rw [(hdel name).2, hperm, ← hm]
    rfl
  · have h3 : MemoryChunkStore.references
        (DeleteAllMarked (MarkForDeletion_all s marked)).2.permanent_ name
          = MemoryChunkStore.references s.permanent_ name
            - (marks s name + (marked.filter (fun k => decide (k = name))).length) := by
      simp only [DeleteAllMarked]
      rw [(hdel name).2, hperm, ← hm]
      rfl
    have h4 : marks (DeleteAllMarked (MarkForDeletion_all s marked)).2 name = 0 := rfl
    simp only [PermanentHas, hname, if_false, h3, h4]
    congr 1
    simp only [decide_eq_decide]
    omega
  · intro other hother
    have h5 : ((MarkForDeletion_all s marked).removable_chunks_.filter
        (fun k => decide (k = other))).length = 0 := hother
    by_cases ho : other = []
    · simp [Count_name, MemoryChunkStore.Count_name, ho]
    · simp only [Count_name, MemoryChunkStore.Count_name, ho, if_false, DeleteAllMarked]
      rw [(hdel other).2, hperm, h5, Nat.sub_zero]

/-- Scenario S2: the id 1 stored three times in a new store and marked twice: after
`DeleteAllMarked` its count is 1 and it is permanently held. -/
theorem DeleteAllMarked_deletes_once_per_mark_witness :
    Count_name (DeleteAllMarked (MarkForDeletion_all
        (Store (Store (Store empty [1] [7]).2 [1] [7]).2 [1] [7]).2 [[1], [1]])).2 [1]
      = Outcome.returned (3 - (0 + 2)) ∧
    PermanentHas (DeleteAllMarked (MarkForDeletion_all
        (Store (Store (Store empty [1] [7]).2 [1] [7]).2 [1] [7]).2 [[1], [1]])).2 [1]
      = Outcome.returned (decide (0 + 2 < 3)) :=
  ⟨(DeleteAllMarked_deletes_once_per_mark
      (Store (Store (Store empty [1] [7]).2 [1] [7]).2 [1] [7]).2 [[1], [1]] [1]
      (by decide) (by decide)).2.2.1,
    (DeleteAllMarked_deletes_once_per_mark
      (Store (Store (Store empty [1] [7]).2 [1] [7]).2 [1] [7]).2 [[1], [1]] [1]
      (by decide) (by decide)).2.2.2.1⟩

end BufferedChunkStore

end chunk_store

end priv

end maidsafe
